import Mathlib

/-!
# easybook-blockchain: the hotel contracts over a key-value ledger

A shallow embedding of the two chaincode packages of the repository,

* `chaincode/easybook/chaincode/smartcontract.go` (package `chaincode`, the flat `Hotel`),
* `chaincode/smartcontract/smartcontract.go` (package `smartcontract`, the nested
  `Hotel` / `ServiceLevel` / `Agreement`),

together with the two libraries they are written against: the ledger stub
(`ctx.GetStub()`, an interface) and `encoding/json`.

Conventions.

* A Go `string` is kept at two levels. The namespaces `Chaincode` and `Smartcontract` keep
  it as the text it spells, a Lean `String`: they are the contracts on strings that are
  valid UTF-8, which is what `encoding/json` preserves and what a ledger key is. The
  namespaces `Chaincode.Go` and `Smartcontract.Go` keep the bytes of every `string` field
  and of the `name` argument, a `GoString`, and follow a `string` that is not valid UTF-8
  through `encoding/json`, which writes U+FFFD for each byte that is not part of a valid
  encoding. On the encodings of texts the two levels agree. Keys are ordered by code
  point, which for valid UTF-8 is the byte-wise order of the ledger.
* A Go `float32` is its IEEE-754 bit pattern. The contracts never compute with a rating;
  they only store it, print it and read it back.
* A Go `error` is an `Error`, one constructor per origin of the error value.
* Every contract method takes the stub and the state of the ledger, and returns its Go
  result together with the state of the ledger after the call.
-/

namespace Easybook

/-! ## Go values -/

/-- Go `float32`, as the 32 bits of its IEEE-754 binary32 representation
(sign, 8 exponent bits, 23 fraction bits). -/
structure Float32 where
  bits : Fin 4294967296
deriving DecidableEq

namespace Float32

/-- The biased exponent field: after the 23 fraction bits, 8 bits wide. -/
def exponent (f : Float32) : Nat := (f.bits.val / 8388608) % 256

/-- A float is finite when it is neither NaN nor an infinity, which are the bit patterns
with all exponent bits set. -/
def isFinite (f : Float32) : Bool := f.exponent != 255

/-- The zero value of the type, `+0`. -/
def zero : Float32 := ⟨0⟩

/-- A quiet NaN, `0x7FC00000`, what `strconv.ParseFloat("NaN", 32)` returns. -/
def nan : Float32 := ⟨0x7FC00000⟩

/-- Positive infinity, `0x7F800000`. -/
def inf : Float32 := ⟨0x7F800000⟩

/-- The literal `5.0` as a float32: `0x40A00000`. -/
def lit_5_0 : Float32 := ⟨0x40A00000⟩

/-- The literal `4.5` as a float32: `0x40900000`. -/
def lit_4_5 : Float32 := ⟨0x40900000⟩

/-- The literal `4.2` as a float32 (nearest value): `0x40866666`. -/
def lit_4_2 : Float32 := ⟨0x40866666⟩

/-- The literal `8.4` as a float32 (nearest value): `0x41066666`. -/
def lit_8_4 : Float32 := ⟨0x41066666⟩

/-- The literal `8.1` as a float32 (nearest value): `0x4101999A`. -/
def lit_8_1 : Float32 := ⟨0x4101999A⟩

/-- The literal `0.84` as a float32 (nearest value): `0x3F570A3D`. -/
def lit_0_84 : Float32 := ⟨0x3F570A3D⟩

/-- The literal `-1.0` as a float32: `0xBF800000`. -/
def lit_neg_1_0 : Float32 := ⟨0xBF800000⟩

/-- The literal `1e30` as a float32 (nearest value): `0x7149F2CA`. -/
def lit_1e30 : Float32 := ⟨0x7149F2CA⟩

end Float32

/-- Go `uint` on a 64-bit platform. -/
abbrev GoUint := Fin 18446744073709551616

/-! ## Errors -/

/-- The error values `encoding/json` returns to the contracts. -/
inductive JsonError
  /-- The `*json.SyntaxError`: the bytes are not JSON text. -/
  | SyntaxError
  /-- The `*json.UnmarshalTypeError`: a JSON value does not fit the Go field it is read into. -/
  | UnmarshalTypeError
  /-- The `*json.UnsupportedValueError`: `Marshal` met a NaN or an infinite float. -/
  | UnsupportedValueError
deriving DecidableEq

/-- A Go `error` returned by a contract method. -/
inductive Error
  /-- An error built by `fmt.Errorf`, with its message. -/
  | errorf (msg : String)
  /-- An error of `encoding/json`, returned as it is. -/
  | json (e : JsonError)
  /-- An error of a ledger call, returned as it is; `msg` is its `Error()` text. -/
  | ledger (msg : String)
deriving DecidableEq

/-- The error of `fmt.Errorf("the hotel %s does not exist", id)`. -/
def errNotFound (id : String) : Error :=
  .errorf ("the hotel " ++ id ++ " does not exist")

/-- The error of `fmt.Errorf("the hotel %s already exists", id)`. -/
def errAlreadyExists (id : String) : Error :=
  .errorf ("the hotel " ++ id ++ " already exists")

/-! ## JSON documents -/

/-- A JSON document. `N` is the type of number literals. A string literal is given by the
text it denotes, escapes resolved; the members of an object are kept in the order of the
text, repeated names included. -/
inductive JSON (N : Type) where
  | null
  | bool (b : Bool)
  | number (n : N)
  | string (s : String)
  | array (elems : List (JSON N))
  | object (members : List (String × JSON N))

/-- A `[]byte` handed to `json.Unmarshal` or returned by `json.Marshal`, up to JSON syntax:
either text that passes the syntax check of `encoding/json`, given by the document it
spells, or any other byte string. -/
inductive Bytes (N : Type) where
  | text (doc : JSON N)
  | malformed (raw : List Nat)

/-- Simple case folding of one rune, as far as it can reach an ASCII letter: the upper
case ASCII letters, the Kelvin sign (for `k`) and the long s (for `s`). -/
def foldRune (c : Char) : Char :=
  if 65 ≤ c.toNat ∧ c.toNat ≤ 90 then Char.ofNat (c.toNat + 32)
  else if c.toNat = 0x212A then 'k'
  else if c.toNat = 0x17F then 's'
  else c

/-- The folded form of a member name: `encoding/json` matches a member with the struct
field whose name is equal to it under case folding. -/
def foldName (s : String) : String := String.mk (s.data.map foldRune)

/-! ## The world state -/

/-- The world state in memory: the stored `(key, value)` pairs. It implements the record
store the specification asks of the host: a value or nothing under a key, writes, removal, and
a range scan in ascending key order. The operations keep the keys strictly ascending when
they start from such a list. -/
abbrev Store (V : Type) := List (String × V)

namespace Store

variable {V : Type}

/-- The value stored under `key`, if any. -/
def get : Store V → String → Option V
  | [], _ => none
  | (k, v) :: rest, key => if k = key then some v else get rest key

/-- Write `val` under `key`: replaces the value of a stored key, and otherwise inserts the
pair in front of the first greater key. -/
def put : Store V → String → V → Store V
  | [], key, val => [(key, val)]
  | (k, v) :: rest, key, val =>
    if k = key then (key, val) :: rest
    else if key.data < k.data then (key, val) :: (k, v) :: rest
    else (k, v) :: put rest key val

/-- Remove `key`. -/
def del (s : Store V) (key : String) : Store V :=
  s.filter (fun kv => decide (kv.1 ≠ key))

/-- The pairs with `startKey ≤ key < endKey`, in stored order; an empty bound is open. -/
def range (s : Store V) (startKey endKey : String) : Store V :=
  s.filter (fun kv =>
    decide ((startKey = "" ∨ startKey.data ≤ kv.1.data) ∧ (endKey = "" ∨ kv.1.data < endKey.data)))

/-- The stored keys, in stored order. -/
def keys (s : Store V) : List String := s.map Prod.fst

/-- A well-formed world state: keys strictly ascending, hence no key twice. -/
def WF (s : Store V) : Prop := s.keys.Pairwise (fun a b => a < b)

end Store

/-! ## The ledger stub -/

/-- The part of `shim.ChaincodeStubInterface` the contracts call, over a ledger state `σ`
holding values `V`. Each call returns its result and the ledger state after it; an error
carries the text of its `Error()`. A range query yields its iterator as the list of the
results the successive `Next()` calls return (`HasNext()` is true while the list is not
exhausted); `Close` is the iterator's `Close()`. -/
structure ChaincodeStub (σ V : Type) where
  GetState : String → σ → Except String (Option V) × σ
  PutState : String → V → σ → Except String Unit × σ
  DelState : String → σ → Except String Unit × σ
  GetStateByRange : String → String → σ → Except String (List (Except String (String × V))) × σ
  Close : σ → σ

/-- The stub of a ledger held in memory, whose calls never fail. -/
def memStub (V : Type) : ChaincodeStub (Store V) V where
  GetState := fun key s => (.ok (s.get key), s)
  PutState := fun key val s => (.ok (), s.put key val)
  DelState := fun key s => (.ok (), s.del key)
  GetStateByRange := fun startKey endKey s => (.ok ((s.range startKey endKey).map .ok), s)
  Close := fun s => s

/-! ## Package `chaincode`: the flat hotel -/

namespace Chaincode

/-- Hotel stores rating of a particular hotel. -/
structure Hotel where
  ID : String
  Name : String
  IsActive : Bool
  Rating : Float32
deriving DecidableEq

/-- The zero value `Hotel{}`. -/
def Hotel.zero : Hotel := ⟨"", "", false, Float32.zero⟩

/-- A JSON number literal as this package reads it: by the result of
`strconv.ParseFloat(literal, 32)`, with `none` for a value out of the float32 range. -/
structure Number where
  float32 : Option Float32

/-- The stored bytes of this package. -/
abbrev Value := Bytes Number

/-- Result of `json.Marshal(hotel)`: the object with the members `id`, `name`, `isActive`,
`rating` in field order. A NaN or infinite rating is an `UnsupportedValueError`. A finite
rating is printed with the fewest digits that `ParseFloat` reads back as the same
float32. The strings of `h` are texts, valid UTF-8, which `Marshal` writes as they are;
`Go.jsonMarshal` is the function on strings of any bytes. -/
def jsonMarshal (h : Hotel) : Except JsonError Value :=
  if h.Rating.isFinite then
    .ok (.text (.object [
      ("id", .string h.ID),
      ("name", .string h.Name),
      ("isActive", .bool h.IsActive),
      ("rating", .number ⟨some h.Rating⟩)]))
  else .error .UnsupportedValueError

/-- One member of an object read into a `Hotel`: the field named like the member (up to
case) takes the value, `null` leaves the field as it is, a value of another kind is an
`UnmarshalTypeError`, and a member that names no field is skipped. -/
def setField (h : Hotel) (m : String × JSON Number) : Except JsonError Hotel :=
  if foldName m.1 = "id" then
    match m.2 with
    | .string s => .ok { h with ID := s }
    | .null => .ok h
    | _ => .error .UnmarshalTypeError
  else if foldName m.1 = "name" then
    match m.2 with
    | .string s => .ok { h with Name := s }
    | .null => .ok h
    | _ => .error .UnmarshalTypeError
  else if foldName m.1 = "isactive" then
    match m.2 with
    | .bool b => .ok { h with IsActive := b }
    | .null => .ok h
    | _ => .error .UnmarshalTypeError
  else if foldName m.1 = "rating" then
    match m.2 with
    | .number ⟨some f⟩ => .ok { h with Rating := f }
    | .null => .ok h
    | _ => .error .UnmarshalTypeError
  else .ok h

/-- The members of an object read one after the other into `h`. -/
def setFields : Hotel → List (String × JSON Number) → Except JsonError Hotel
  | h, [] => .ok h
  | h, m :: rest =>
    match setField h m with
    | .error err => .error err
    | .ok h1 => setFields h1 rest

/-- Result of `var hotel Hotel; err = json.Unmarshal(data, &hotel)`: the hotel on success.
Bytes that are not JSON are a `SyntaxError`; `null` leaves the zero hotel; an object
fills it member by member; any other document is an `UnmarshalTypeError`. -/
def jsonUnmarshal : Value → Except JsonError Hotel
  | .malformed _ => .error .SyntaxError
  | .text .null => .ok Hotel.zero
  | .text (.object members) => setFields Hotel.zero members
  | .text _ => .error .UnmarshalTypeError

/-- The hotels of `InitLedger`. -/
def seedHotels : List Hotel := [
  { ID := "hotel1", Name := "Venice", IsActive := true, Rating := Float32.lit_5_0 },
  { ID := "hotel2", Name := "Milan", IsActive := true, Rating := Float32.lit_4_5 },
  { ID := "hotel3", Name := "Roma", IsActive := true, Rating := Float32.lit_4_2 }]

/-- The bytes `{"id":"5","name":"Legend Saigon","isActive":true,"rating":8.1}`. -/
def legendSaigon : Value :=
  .text (.object [
    ("id", .string "5"),
    ("name", .string "Legend Saigon"),
    ("isActive", .bool true),
    ("rating", .number ⟨some Float32.lit_8_1⟩)])

variable {σ : Type}

/-- The loop of `InitLedger` over the hotels still to write. -/
def InitLedger.loop (stub : ChaincodeStub σ Value) : List Hotel → σ → Except Error Unit × σ
  | [], w => (.ok (), w)
  | h :: rest, w =>
    match jsonMarshal h with
    | .error err => (.error (.json err), w)
    | .ok hotelJson =>
      match stub.PutState h.ID hotelJson w with
      | (.error err, w1) => (.error (.errorf ("failed to put to world state: " ++ err)), w1)
      | (.ok (), w1) => InitLedger.loop stub rest w1

/-- InitLedger adds a base set of hotels to the ledger. -/
def InitLedger (stub : ChaincodeStub σ Value) (w : σ) : Except Error Unit × σ :=
  InitLedger.loop stub seedHotels w

/-- HotelExists returns true when hotel with given ID exists in world state. -/
def HotelExists (stub : ChaincodeStub σ Value) (id : String) (w : σ) : Except Error Bool × σ :=
  match stub.GetState id w with
  | (.error err, w1) => (.error (.errorf ("failed to read from world state: " ++ err)), w1)
  | (.ok exist, w1) => (.ok exist.isSome, w1)

/-- CreateHotel issues a new hotel to the world state with given details. -/
def CreateHotel (stub : ChaincodeStub σ Value) (id : String) (name : String) (isActive : Bool)
    (rating : Float32) (w : σ) : Except Error Unit × σ :=
  match HotelExists stub id w with
  | (.error err, w1) => (.error err, w1)
  | (.ok exist, w1) =>
    if exist then (.error (errAlreadyExists id), w1)
    else
      let hotel : Hotel := { ID := id, Name := name, IsActive := isActive, Rating := rating }
      match jsonMarshal hotel with
      | .error err => (.error (.json err), w1)
      | .ok hotelJson =>
        match stub.PutState id hotelJson w1 with
        | (.error _, w2) => (.error (.errorf ("can not create hotel " ++ id)), w2)
        | (.ok (), w2) => (.ok (), w2)

/-- ReadHotel returns the hotel stored in the world state with given id. -/
def ReadHotel (stub : ChaincodeStub σ Value) (id : String) (w : σ) : Except Error Hotel × σ :=
  match stub.GetState id w with
  | (.error err, w1) => (.error (.ledger err), w1)
  | (.ok none, w1) => (.error (errNotFound id), w1)
  | (.ok (some hotelJson), w1) =>
    match jsonUnmarshal hotelJson with
    | .error err => (.error (.json err), w1)
    | .ok hotel => (.ok hotel, w1)

/-- UpdateHotel updates an existing hotel in the world state with provided parameters. -/
def UpdateHotel (stub : ChaincodeStub σ Value) (id : String) (name : String) (isActive : Bool)
    (rating : Float32) (w : σ) : Except Error Unit × σ :=
  match HotelExists stub id w with
  | (.error err, w1) => (.error err, w1)
  | (.ok exist, w1) =>
    if !exist then (.error (errNotFound id), w1)
    else
      let hotel : Hotel := { ID := id, Name := name, IsActive := isActive, Rating := rating }
      match jsonMarshal hotel with
      | .error err => (.error (.json err), w1)
      | .ok hotelJson =>
        match stub.PutState id hotelJson w1 with
        | (.error _, w2) =>
          (.error (.errorf ("can not update information for the hotel " ++ id)), w2)
        | (.ok (), w2) => (.ok (), w2)

/-- DeleteHotel deletes an given hotel from the world state. -/
def DeleteHotel (stub : ChaincodeStub σ Value) (id : String) (w : σ) : Except Error Unit × σ :=
  match HotelExists stub id w with
  | (.error err, w1) => (.error err, w1)
  | (.ok exist, w1) =>
    if !exist then (.error (errNotFound id), w1)
    else
      match stub.DelState id w1 with
      | (.error _, w2) => (.error (.errorf ("can not delete the hotel " ++ id)), w2)
      | (.ok (), w2) => (.ok (), w2)

/-- The loop of `GetAllHotels` over the results the iterator still has: `hotels` is the
slice built so far. -/
def GetAllHotels.loop : List (Except String (String × Value)) → List Hotel →
    Except Error (List Hotel)
  | [], hotels => .ok hotels
  | .error err :: _, _ => .error (.ledger err)
  | .ok queryResponse :: rest, hotels =>
    match jsonUnmarshal queryResponse.2 with
    | .error err => .error (.json err)
    | .ok hotel => GetAllHotels.loop rest (hotels ++ [hotel])

/-- GetAllHotels returns all hotels found in world state. The deferred `Close()` runs on
every return that follows the range query. -/
def GetAllHotels (stub : ChaincodeStub σ Value) (w : σ) : Except Error (List Hotel) × σ :=
  match stub.GetStateByRange "" "" w with
  | (.error err, w1) => (.error (.errorf ("failed to read from world state: " ++ err)), w1)
  | (.ok resultsIterator, w1) => (GetAllHotels.loop resultsIterator [], stub.Close w1)

/-- The world state in memory after `InitLedger` on the empty one. -/
def seeded : Store Value := (InitLedger (memStub Value) []).2

/-- A world state in memory with three keys, the second of which holds bytes that are
not JSON. -/
def spoiled : Store Value :=
  [("5", legendSaigon), ("6", .malformed [123, 34, 105, 100]), ("7", legendSaigon)]

end Chaincode

/-! ## Package `smartcontract`: the nested hotel -/

namespace Smartcontract

/-- Agreement stores information of a agreement of a level in a hotel. -/
structure Agreement where
  ID : String
  IsApplied : Bool
  TotalFeedbacks : GoUint
  TotalUnfulfilledCommitments : GoUint
  IsAppliedPenalty : Bool
  TotalCompensations : GoUint
  TotalNoCompensations : GoUint
  ServiceLevelID : String
  HotelID : String
deriving DecidableEq

/-- ServiceLevel stores information of a service level in a hotel. A slice `[]*T` is
`none` when nil and otherwise the list of its pointers, each `none` when nil. -/
structure ServiceLevel where
  ID : String
  Name : String
  IsUsed : Bool
  SatisfactionRate : Float32
  RuleAbidingRate : Float32
  HotelID : String
  Agreements : Option (List (Option Agreement))
deriving DecidableEq

/-- Hotel stores information of a hotel. -/
structure Hotel where
  ID : String
  Name : String
  IsActive : Bool
  Rating : Float32
  ServiceLevels : Option (List (Option ServiceLevel))
deriving DecidableEq

/-- The zero value `Agreement{}`. -/
def Agreement.zero : Agreement := ⟨"", false, 0, 0, false, 0, 0, "", ""⟩

/-- The zero value `ServiceLevel{}`. -/
def ServiceLevel.zero : ServiceLevel := ⟨"", "", false, Float32.zero, Float32.zero, "", none⟩

/-- The zero value `Hotel{}`. -/
def Hotel.zero : Hotel := ⟨"", "", false, Float32.zero, none⟩

/-- A JSON number literal as this package reads it: by the results of
`strconv.ParseFloat(literal, 32)` and of `strconv.ParseUint(literal, 10, 64)`, each `none`
when the call fails. -/
structure Number where
  float32 : Option Float32
  uint : Option GoUint

/-- The stored bytes of this package. -/
abbrev Value := Bytes Number

/-- What `strconv` makes of a literal under the numeric type it was not printed from: the
literal printed for a float32 read as an unsigned integer, and the digits of an unsigned
integer read as a float32. No field of the package is ever read from a literal printed
from a field of the other type, and digit generation is not part of this development, so
the two readings are left open. -/
structure Strconv where
  uintOfFloat32 : Float32 → Option GoUint
  float32OfUint : GoUint → Float32

/-- The literal `json.Marshal` prints for a finite float32: the fewest digits that
`ParseFloat` reads back as the same float32. -/
def floatLit (sc : Strconv) (f : Float32) : JSON Number :=
  .number ⟨some f, sc.uintOfFloat32 f⟩

/-- The literal `json.Marshal` prints for a `uint`: its decimal digits. -/
def uintLit (sc : Strconv) (n : GoUint) : JSON Number :=
  .number ⟨some (sc.float32OfUint n), some n⟩

/-- The document printed for an `Agreement`, members in field order. -/
def marshalAgreement (sc : Strconv) (a : Agreement) : JSON Number :=
  .object [
    ("id", .string a.ID),
    ("isApplied", .bool a.IsApplied),
    ("totalFeedbacks", uintLit sc a.TotalFeedbacks),
    ("totalUnfulfilledCommitments", uintLit sc a.TotalUnfulfilledCommitments),
    ("isAppliedPenalty", .bool a.IsAppliedPenalty),
    ("totalCompensations", uintLit sc a.TotalCompensations),
    ("totalNoCompensations", uintLit sc a.TotalNoCompensations),
    ("serviceLevelId", .string a.ServiceLevelID),
    ("hotelId", .string a.HotelID)]

/-- The document printed for a `*Agreement`: `null` for a nil pointer. -/
def marshalAgreementPtr (sc : Strconv) : Option Agreement → JSON Number
  | none => .null
  | some a => marshalAgreement sc a

/-- The document printed for a `[]*Agreement`: `null` for a nil slice. -/
def marshalAgreements (sc : Strconv) : Option (List (Option Agreement)) → JSON Number
  | none => .null
  | some ptrs => .array (ptrs.map (marshalAgreementPtr sc))

/-- The document printed for a `ServiceLevel`, or the error of a NaN or infinite rate. -/
def marshalServiceLevel (sc : Strconv) (l : ServiceLevel) : Except JsonError (JSON Number) :=
  if l.SatisfactionRate.isFinite && l.RuleAbidingRate.isFinite then
    .ok (.object [
      ("id", .string l.ID),
      ("name", .string l.Name),
      ("isUsed", .bool l.IsUsed),
      ("satisfactionRate", floatLit sc l.SatisfactionRate),
      ("ruleAbidingRate", floatLit sc l.RuleAbidingRate),
      ("hotelId", .string l.HotelID),
      ("agreements", marshalAgreements sc l.Agreements)])
  else .error .UnsupportedValueError

/-- The document printed for a `*ServiceLevel`: `null` for a nil pointer. -/
def marshalServiceLevelPtr (sc : Strconv) : Option ServiceLevel → Except JsonError (JSON Number)
  | none => .ok .null
  | some l => marshalServiceLevel sc l

/-- The documents printed for the elements of a `[]*ServiceLevel`, in order. -/
def marshalServiceLevelPtrs (sc : Strconv) :
    List (Option ServiceLevel) → Except JsonError (List (JSON Number))
  | [] => .ok []
  | p :: rest =>
    match marshalServiceLevelPtr sc p with
    | .error err => .error err
    | .ok doc =>
      match marshalServiceLevelPtrs sc rest with
      | .error err => .error err
      | .ok docs => .ok (doc :: docs)

/-- The document printed for a `[]*ServiceLevel`: `null` for a nil slice. -/
def marshalServiceLevels (sc : Strconv) :
    Option (List (Option ServiceLevel)) → Except JsonError (JSON Number)
  | none => .ok .null
  | some ptrs =>
    match marshalServiceLevelPtrs sc ptrs with
    | .error err => .error err
    | .ok docs => .ok (.array docs)

/-- Result of `json.Marshal(hotel)`: the object with the members `id`, `name`, `isActive`,
`rating`, `serviceLevels` in field order. A NaN or infinite float anywhere in the hotel is
an `UnsupportedValueError`. The strings of `h` are texts, valid UTF-8, which `Marshal`
writes as they are; `Go.jsonMarshal` is the function on strings of any bytes. -/
def jsonMarshal (sc : Strconv) (h : Hotel) : Except JsonError Value :=
  if h.Rating.isFinite then
    match marshalServiceLevels sc h.ServiceLevels with
    | .error err => .error err
    | .ok levels =>
      .ok (.text (.object [
        ("id", .string h.ID),
        ("name", .string h.Name),
        ("isActive", .bool h.IsActive),
        ("rating", floatLit sc h.Rating),
        ("serviceLevels", levels)]))
  else .error .UnsupportedValueError

/-- A JSON value read into a `string` field holding `old`. -/
def readString (old : String) : JSON Number → Except JsonError String
  | .string s => .ok s
  | .null => .ok old
  | _ => .error .UnmarshalTypeError

/-- A JSON value read into a `bool` field holding `old`. -/
def readBool (old : Bool) : JSON Number → Except JsonError Bool
  | .bool b => .ok b
  | .null => .ok old
  | _ => .error .UnmarshalTypeError

/-- A JSON value read into a `float32` field holding `old`. -/
def readFloat32 (old : Float32) : JSON Number → Except JsonError Float32
  | .number ⟨some f, _⟩ => .ok f
  | .null => .ok old
  | _ => .error .UnmarshalTypeError

/-- A JSON value read into a `uint` field holding `old`. -/
def readUint (old : GoUint) : JSON Number → Except JsonError GoUint
  | .number ⟨_, some n⟩ => .ok n
  | .null => .ok old
  | _ => .error .UnmarshalTypeError

/-- The members of an object read one after the other into `x`, each by `setField`. -/
def setFields {α : Type} (setField : α → String × JSON Number → Except JsonError α) :
    α → List (String × JSON Number) → Except JsonError α
  | x, [] => .ok x
  | x, m :: rest =>
    match setField x m with
    | .error err => .error err
    | .ok x1 => setFields setField x1 rest

/-- A JSON value read into a new pointer `*T`: `null` is the nil pointer, an object fills
a new zero `T`, any other value is an `UnmarshalTypeError`. -/
def readPtr {α : Type} (zero : α) (setField : α → String × JSON Number → Except JsonError α) :
    JSON Number → Except JsonError (Option α)
  | .null => .ok none
  | .object members =>
    match setFields setField zero members with
    | .error err => .error err
    | .ok x => .ok (some x)
  | _ => .error .UnmarshalTypeError

/-- The elements of an array read into new pointers, in order. -/
def readPtrs {α : Type} (zero : α) (setField : α → String × JSON Number → Except JsonError α) :
    List (JSON Number) → Except JsonError (List (Option α))
  | [] => .ok []
  | e :: rest =>
    match readPtr zero setField e with
    | .error err => .error err
    | .ok p =>
      match readPtrs zero setField rest with
      | .error err => .error err
      | .ok ps => .ok (p :: ps)

/-- A JSON value read into a slice field `[]*T`: `null` is the nil slice, an array is the
slice of its elements, any other value is an `UnmarshalTypeError`. The slice is read as a
new one also when the member name occurs a second time in its object. -/
def readSlice {α : Type} (zero : α) (setField : α → String × JSON Number → Except JsonError α) :
    JSON Number → Except JsonError (Option (List (Option α)))
  | .null => .ok none
  | .array elems =>
    match readPtrs zero setField elems with
    | .error err => .error err
    | .ok ps => .ok (some ps)
  | _ => .error .UnmarshalTypeError

/-- One member of an object read into an `Agreement`. -/
def setAgreementField (a : Agreement) (m : String × JSON Number) : Except JsonError Agreement :=
  if foldName m.1 = "id" then
    (readString a.ID m.2).map (fun v => { a with ID := v })
  else if foldName m.1 = "isapplied" then
    (readBool a.IsApplied m.2).map (fun v => { a with IsApplied := v })
  else if foldName m.1 = "totalfeedbacks" then
    (readUint a.TotalFeedbacks m.2).map (fun v => { a with TotalFeedbacks := v })
  else if foldName m.1 = "totalunfulfilledcommitments" then
    (readUint a.TotalUnfulfilledCommitments m.2).map
      (fun v => { a with TotalUnfulfilledCommitments := v })
  else if foldName m.1 = "isappliedpenalty" then
    (readBool a.IsAppliedPenalty m.2).map (fun v => { a with IsAppliedPenalty := v })
  else if foldName m.1 = "totalcompensations" then
    (readUint a.TotalCompensations m.2).map (fun v => { a with TotalCompensations := v })
  else if foldName m.1 = "totalnocompensations" then
    (readUint a.TotalNoCompensations m.2).map (fun v => { a with TotalNoCompensations := v })
  else if foldName m.1 = "servicelevelid" then
    (readString a.ServiceLevelID m.2).map (fun v => { a with ServiceLevelID := v })
  else if foldName m.1 = "hotelid" then
    (readString a.HotelID m.2).map (fun v => { a with HotelID := v })
  else .ok a

/-- One member of an object read into a `ServiceLevel`. -/
def setServiceLevelField (l : ServiceLevel) (m : String × JSON Number) :
    Except JsonError ServiceLevel :=
  if foldName m.1 = "id" then
    (readString l.ID m.2).map (fun v => { l with ID := v })
  else if foldName m.1 = "name" then
    (readString l.Name m.2).map (fun v => { l with Name := v })
  else if foldName m.1 = "isused" then
    (readBool l.IsUsed m.2).map (fun v => { l with IsUsed := v })
  else if foldName m.1 = "satisfactionrate" then
    (readFloat32 l.SatisfactionRate m.2).map (fun v => { l with SatisfactionRate := v })
  else if foldName m.1 = "ruleabidingrate" then
    (readFloat32 l.RuleAbidingRate m.2).map (fun v => { l with RuleAbidingRate := v })
  else if foldName m.1 = "hotelid" then
    (readString l.HotelID m.2).map (fun v => { l with HotelID := v })
  else if foldName m.1 = "agreements" then
    (readSlice Agreement.zero setAgreementField m.2).map (fun v => { l with Agreements := v })
  else .ok l

/-- One member of an object read into a `Hotel`. -/
def setField (h : Hotel) (m : String × JSON Number) : Except JsonError Hotel :=
  if foldName m.1 = "id" then
    (readString h.ID m.2).map (fun v => { h with ID := v })
  else if foldName m.1 = "name" then
    (readString h.Name m.2).map (fun v => { h with Name := v })
  else if foldName m.1 = "isactive" then
    (readBool h.IsActive m.2).map (fun v => { h with IsActive := v })
  else if foldName m.1 = "rating" then
    (readFloat32 h.Rating m.2).map (fun v => { h with Rating := v })
  else if foldName m.1 = "servicelevels" then
    (readSlice ServiceLevel.zero setServiceLevelField m.2).map
      (fun v => { h with ServiceLevels := v })
  else .ok h

/-- Result of `var hotel Hotel; err = json.Unmarshal(data, &hotel)`: the hotel on success.
Bytes that are not JSON are a `SyntaxError`; `null` leaves the zero hotel; an object
fills it member by member; any other document is an `UnmarshalTypeError`. -/
def jsonUnmarshal : Value → Except JsonError Hotel
  | .malformed _ => .error .SyntaxError
  | .text .null => .ok Hotel.zero
  | .text (.object members) => setFields setField Hotel.zero members
  | .text _ => .error .UnmarshalTypeError

/-- The hotels of `InitLedger`. Fields left out of a literal have their zero value. -/
def seedHotels : List Hotel := [
  { ID := "1", Name := "Rex Hotel", IsActive := true, Rating := Float32.lit_8_4,
    ServiceLevels := some [
      some {
        ID := "1", Name := "Standard", IsUsed := true,
        SatisfactionRate := Float32.lit_0_84, RuleAbidingRate := Float32.zero,
        HotelID := "1",
        Agreements := some [
          some { Agreement.zero with
            ID := "1", IsApplied := true, TotalFeedbacks := 100,
            TotalUnfulfilledCommitments := 16, IsAppliedPenalty := false },
          some { Agreement.zero with
            ID := "2", IsApplied := true, TotalFeedbacks := 1000,
            TotalUnfulfilledCommitments := 100, IsAppliedPenalty := false }] }] }]

variable {σ : Type}

/-- The loop of `InitLedger` over the hotels still to write. -/
def InitLedger.loop (sc : Strconv) (stub : ChaincodeStub σ Value) :
    List Hotel → σ → Except Error Unit × σ
  | [], w => (.ok (), w)
  | h :: rest, w =>
    match jsonMarshal sc h with
    | .error err => (.error (.json err), w)
    | .ok hotelJSON =>
      match stub.PutState h.ID hotelJSON w with
      | (.error err, w1) => (.error (.errorf ("failed to put to world state: " ++ err)), w1)
      | (.ok (), w1) => InitLedger.loop sc stub rest w1

/-- InitLedger adds a base set of hotels to the ledger. -/
def InitLedger (sc : Strconv) (stub : ChaincodeStub σ Value) (w : σ) : Except Error Unit × σ :=
  InitLedger.loop sc stub seedHotels w

/-- HotelExists returns true when hotel with given ID exists in world state. -/
def HotelExists (stub : ChaincodeStub σ Value) (id : String) (w : σ) : Except Error Bool × σ :=
  match stub.GetState id w with
  | (.error err, w1) => (.error (.errorf ("failed to read from world state: " ++ err)), w1)
  | (.ok exist, w1) => (.ok exist.isSome, w1)

/-- CreateHotel issues a new hotel to the world state with given details. The literal
names no service levels, so the field is the nil slice. -/
def CreateHotel (sc : Strconv) (stub : ChaincodeStub σ Value) (id : String) (name : String)
    (isActive : Bool) (rating : Float32) (w : σ) : Except Error Unit × σ :=
  match HotelExists stub id w with
  | (.error err, w1) => (.error err, w1)
  | (.ok exist, w1) =>
    if exist then (.error (errAlreadyExists id), w1)
    else
      let hotel : Hotel :=
        { ID := id, Name := name, IsActive := isActive, Rating := rating, ServiceLevels := none }
      match jsonMarshal sc hotel with
      | .error err => (.error (.json err), w1)
      | .ok hotelJSON =>
        match stub.PutState id hotelJSON w1 with
        | (.error _, w2) => (.error (.errorf ("can not create hotel " ++ id)), w2)
        | (.ok (), w2) => (.ok (), w2)

/-- ReadHotel returns the hotel stored in the world state with given id. -/
def ReadHotel (stub : ChaincodeStub σ Value) (id : String) (w : σ) : Except Error Hotel × σ :=
  match stub.GetState id w with
  | (.error err, w1) => (.error (.ledger err), w1)
  | (.ok none, w1) => (.error (errNotFound id), w1)
  | (.ok (some hotelJSON), w1) =>
    match jsonUnmarshal hotelJSON with
    | .error err => (.error (.json err), w1)
    | .ok hotel => (.ok hotel, w1)

/-- UpdateHotel updates an existing hotel in the world state with provided parameters. -/
def UpdateHotel (sc : Strconv) (stub : ChaincodeStub σ Value) (id : String) (name : String)
    (isActive : Bool) (rating : Float32) (w : σ) : Except Error Unit × σ :=
  match HotelExists stub id w with
  | (.error err, w1) => (.error err, w1)
  | (.ok exist, w1) =>
    if !exist then (.error (errNotFound id), w1)
    else
      let hotel : Hotel :=
        { ID := id, Name := name, IsActive := isActive, Rating := rating, ServiceLevels := none }
      match jsonMarshal sc hotel with
      | .error err => (.error (.json err), w1)
      | .ok hotelJSON =>
        match stub.PutState id hotelJSON w1 with
        | (.error _, w2) =>
          (.error (.errorf ("can not update information for the hotel " ++ id)), w2)
        | (.ok (), w2) => (.ok (), w2)

/-- DeleteHotel deletes an given hotel from the world state. -/
def DeleteHotel (stub : ChaincodeStub σ Value) (id : String) (w : σ) : Except Error Unit × σ :=
  match HotelExists stub id w with
  | (.error err, w1) => (.error err, w1)
  | (.ok exist, w1) =>
    if !exist then (.error (errNotFound id), w1)
    else
      match stub.DelState id w1 with
      | (.error _, w2) => (.error (.errorf ("can not delete the hotel " ++ id)), w2)
      | (.ok (), w2) => (.ok (), w2)

/-- The loop of `GetAllHotels` over the results the iterator still has: `hotels` is the
slice built so far. -/
def GetAllHotels.loop : List (Except String (String × Value)) → List Hotel →
    Except Error (List Hotel)
  | [], hotels => .ok hotels
  | .error err :: _, _ => .error (.ledger err)
  | .ok queryResponse :: rest, hotels =>
    match jsonUnmarshal queryResponse.2 with
    | .error err => .error (.json err)
    | .ok hotel => GetAllHotels.loop rest (hotels ++ [hotel])

/-- GetAllHotels returns all hotels found in world state. The deferred `Close()` runs on
every return that follows the range query. -/
def GetAllHotels (stub : ChaincodeStub σ Value) (w : σ) : Except Error (List Hotel) × σ :=
  match stub.GetStateByRange "" "" w with
  | (.error err, w1) => (.error (.errorf ("failed to read from world state: " ++ err)), w1)
  | (.ok resultsIterator, w1) => (GetAllHotels.loop resultsIterator [], stub.Close w1)

/-- A choice of the two open readings, for evaluating the package on concrete inputs:
no float literal reads as an unsigned integer, and digits read as `+0`. -/
def plainStrconv : Strconv := ⟨fun _ => none, fun _ => Float32.zero⟩

/-- The bytes `{"id":"5","name":"Legend Saigon","isActive":true,"rating":8.1,
"serviceLevels":null}`, with the open readings of `plainStrconv`. -/
def legendSaigon : Value :=
  .text (.object [
    ("id", .string "5"),
    ("name", .string "Legend Saigon"),
    ("isActive", .bool true),
    ("rating", floatLit plainStrconv Float32.lit_8_1),
    ("serviceLevels", .null)])

/-- The world state in memory after `InitLedger` on the empty one. -/
def seeded : Store Value := (InitLedger plainStrconv (memStub Value) []).2

/-- A world state in memory with three keys, the second of which holds bytes that are
not JSON. -/
def spoiled : Store Value :=
  [("5", legendSaigon), ("6", .malformed [123, 34, 105, 100]), ("7", legendSaigon)]

end Smartcontract

/-! ## Finite floats, invocations, and the ledgers used to observe them -/

namespace Smartcontract

/-- Whether both rates of a service level are finite floats. -/
def ServiceLevel.isFinite (l : ServiceLevel) : Bool :=
  l.SatisfactionRate.isFinite && l.RuleAbidingRate.isFinite

/-- Whether every float of a `*ServiceLevel` is finite; a nil pointer holds none. -/
def ptrIsFinite : Option ServiceLevel → Bool
  | none => true
  | some l => l.isFinite

/-- Whether every float of a hotel is finite: its rating and the rates of its service
levels. -/
def Hotel.isFinite (h : Hotel) : Bool :=
  h.Rating.isFinite &&
    (match h.ServiceLevels with
      | none => true
      | some ptrs => ptrs.all ptrIsFinite)

end Smartcontract

/-! ## Invocations -/

/-- An invocation of a contract method, with its arguments. Both packages have the same
seven methods with the same parameters. -/
inductive Call where
  | InitLedger
  | CreateHotel (id : String) (name : String) (isActive : Bool) (rating : Float32)
  | ReadHotel (id : String)
  | UpdateHotel (id : String) (name : String) (isActive : Bool) (rating : Float32)
  | DeleteHotel (id : String)
  | HotelExists (id : String)
  | GetAllHotels
deriving DecidableEq

/-- What an invocation returns, by the result type of the method: `error`,
`(bool, error)`, `(*Hotel, error)` or `([]*Hotel, error)`. -/
inductive Reply (H : Type) where
  | done (r : Except Error Unit)
  | found (r : Except Error Bool)
  | hotel (r : Except Error H)
  | hotels (r : Except Error (List H))

/-- A reply with every hotel in it replaced by its image under `f`. -/
def Reply.map {H K : Type} (f : H → K) : Reply H → Reply K
  | .done r => .done r
  | .found r => .found r
  | .hotel r => .hotel (r.map f)
  | .hotels r => .hotels (r.map (List.map f))

/-- The stub of a ledger in memory that accepts a given number of writes and refuses
every `PutState` after them, writing nothing: the state is the world state and the number
of writes still accepted. -/
def failingStub (V : Type) : ChaincodeStub (Store V × Nat) V where
  GetState := fun key w => (.ok (w.1.get key), w)
  PutState := fun key val w =>
    match w.2 with
    | 0 => (.error "write refused", w)
    | n + 1 => (.ok (), (w.1.put key val, n))
  DelState := fun key w => (.ok (), (w.1.del key, w.2))
  GetStateByRange := fun startKey endKey w => (.ok ((w.1.range startKey endKey).map .ok), w)
  Close := fun w => w

/-- A stub that answers every range query with `scan`, the failure of the query or the
results of the iterator it yields, and counts the calls of `Close()`: the state is
the number of calls so far. -/
def scanStub (V : Type) (scan : Except String (List (Except String (String × V)))) :
    ChaincodeStub Nat V where
  GetState := fun _ n => (.ok none, n)
  PutState := fun _ _ n => (.ok (), n)
  DelState := fun _ n => (.ok (), n)
  GetStateByRange := fun _ _ n => (scan, n)
  Close := fun n => n + 1

namespace Chaincode

variable {σ : Type}

/-- One invocation of the contract. -/
def invoke (stub : ChaincodeStub σ Value) : Call → σ → Reply Hotel × σ
  | .InitLedger, w => ((.done (InitLedger stub w).1), (InitLedger stub w).2)
  | .CreateHotel id name isActive rating, w =>
    (.done (CreateHotel stub id name isActive rating w).1,
      (CreateHotel stub id name isActive rating w).2)
  | .ReadHotel id, w => (.hotel (ReadHotel stub id w).1, (ReadHotel stub id w).2)
  | .UpdateHotel id name isActive rating, w =>
    (.done (UpdateHotel stub id name isActive rating w).1,
      (UpdateHotel stub id name isActive rating w).2)
  | .DeleteHotel id, w => (.done (DeleteHotel stub id w).1, (DeleteHotel stub id w).2)
  | .HotelExists id, w => (.found (HotelExists stub id w).1, (HotelExists stub id w).2)
  | .GetAllHotels, w => (.hotels (GetAllHotels stub w).1, (GetAllHotels stub w).2)

/-- A sequence of invocations, each on the ledger state the one before left: the replies
in order and the last state. -/
def run (stub : ChaincodeStub σ Value) : List Call → σ → List (Reply Hotel) × σ
  | [], w => ([], w)
  | c :: rest, w =>
    ((invoke stub c w).1 :: (run stub rest (invoke stub c w).2).1,
      (run stub rest (invoke stub c w).2).2)

end Chaincode

namespace Smartcontract

variable {σ : Type}

/-- One invocation of the contract. -/
def invoke (sc : Strconv) (stub : ChaincodeStub σ Value) : Call → σ → Reply Hotel × σ
  | .InitLedger, w => ((.done (InitLedger sc stub w).1), (InitLedger sc stub w).2)
  | .CreateHotel id name isActive rating, w =>
    (.done (CreateHotel sc stub id name isActive rating w).1,
      (CreateHotel sc stub id name isActive rating w).2)
  | .ReadHotel id, w => (.hotel (ReadHotel stub id w).1, (ReadHotel stub id w).2)
  | .UpdateHotel id name isActive rating, w =>
    (.done (UpdateHotel sc stub id name isActive rating w).1,
      (UpdateHotel sc stub id name isActive rating w).2)
  | .DeleteHotel id, w => (.done (DeleteHotel stub id w).1, (DeleteHotel stub id w).2)
  | .HotelExists id, w => (.found (HotelExists stub id w).1, (HotelExists stub id w).2)
  | .GetAllHotels, w => (.hotels (GetAllHotels stub w).1, (GetAllHotels stub w).2)

/-- A sequence of invocations, each on the ledger state the one before left: the replies
in order and the last state. -/
def run (sc : Strconv) (stub : ChaincodeStub σ Value) :
    List Call → σ → List (Reply Hotel) × σ
  | [], w => ([], w)
  | c :: rest, w =>
    ((invoke sc stub c w).1 :: (run sc stub rest (invoke sc stub c w).2).1,
      (run sc stub rest (invoke sc stub c w).2).2)

/-- The fields a nested hotel shares with the flat one: `(id, name, isActive, rating)`. -/
def Hotel.flat (h : Hotel) : Chaincode.Hotel :=
  { ID := h.ID, Name := h.Name, IsActive := h.IsActive, Rating := h.Rating }

/-- The hotel `seedHotels` holds, the only one `InitLedger` writes. -/
def seedHotel : Hotel :=
  { ID := "1", Name := "Rex Hotel", IsActive := true, Rating := Float32.lit_8_4,
    ServiceLevels := some [
      some {
        ID := "1", Name := "Standard", IsUsed := true,
        SatisfactionRate := Float32.lit_0_84, RuleAbidingRate := Float32.zero,
        HotelID := "1",
        Agreements := some [
          some { Agreement.zero with
            ID := "1", IsApplied := true, TotalFeedbacks := 100,
            TotalUnfulfilledCommitments := 16, IsAppliedPenalty := false },
          some { Agreement.zero with
            ID := "2", IsApplied := true, TotalFeedbacks := 1000,
            TotalUnfulfilledCommitments := 100, IsAppliedPenalty := false }] }] }

end Smartcontract

namespace Store

variable {V : Type}

/-- The world state holds `val` under `key` at the place where `put` looks for the key:
every pair in front of it has a smaller key. -/
def Seated (s : Store V) (key : String) (val : V) : Prop :=
  ∃ pre post, (∀ x ∈ pre, x.1 < key) ∧ s = pre ++ (key, val) :: post

end Store

namespace Store

variable {V : Type}

/-- The pairs of `kvs` written one after the other, in order. -/
def putAll : List (String × V) → Store V → Store V
  | [], s => s
  | kv :: rest, s => putAll rest (s.put kv.1 kv.2)

end Store

/-- The pairs `(h.ID, json.Marshal(h))` of the hotels of `InitLedger`, in order (flat
package). -/
def Chaincode.seedWrites : List (String × Chaincode.Value) :=
  Chaincode.seedHotels.filterMap (fun h =>
    match Chaincode.jsonMarshal h with
    | .ok v => some (h.ID, v)
    | .error _ => none)

/-- The pairs `(h.ID, json.Marshal(h))` of the hotels of `InitLedger`, in order (nested
package). -/
def Smartcontract.seedWrites (sc : Smartcontract.Strconv) :
    List (String × Smartcontract.Value) :=
  Smartcontract.seedHotels.filterMap (fun h =>
    match Smartcontract.jsonMarshal sc h with
    | .ok v => some (h.ID, v)
    | .error _ => none)

/-- The two stored values the two packages print for the same `(id, name, isActive,
rating)`: the flat hotel, and the nested hotel with nil service levels. -/
def Paired (sc : Smartcontract.Strconv) (v : Chaincode.Value) (u : Smartcontract.Value) : Prop :=
  ∃ id name isActive rating,
    Chaincode.jsonMarshal ⟨id, name, isActive, rating⟩ = .ok v ∧
    Smartcontract.jsonMarshal sc ⟨id, name, isActive, rating, none⟩ = .ok u

/-- Two world states, one of each package, that hold the same keys in the same order, with
paired values under each key. -/
def Parallel (sc : Smartcontract.Strconv) (s : Store Chaincode.Value)
    (t : Store Smartcontract.Value) : Prop :=
  List.Forall₂ (fun a b => a.1 = b.1 ∧ Paired sc a.2 b.2) s t

/-! ## Go strings as bytes -/

/-- A Go `string` as Go holds it: any sequence of bytes, each a number below 256, valid
UTF-8 or not. The text-level definitions above keep a `string` as the text it spells;
the definitions of the `Go` namespaces below keep the bytes, to follow a `string` that is
not valid UTF-8 through `encoding/json`. -/
abbrev GoString := List Nat

namespace GoString

/-- The UTF-8 encoding of one rune (`utf8.AppendRune`): one to four bytes by the size of
the code point. -/
def encodeRune (c : Char) : List Nat :=
  if c.toNat < 0x80 then [c.toNat]
  else if c.toNat < 0x800 then [0xC0 + c.toNat / 64, 0x80 + c.toNat % 64]
  else if c.toNat < 0x10000 then
    [0xE0 + c.toNat / 4096, 0x80 + c.toNat / 64 % 64, 0x80 + c.toNat % 64]
  else
    [0xF0 + c.toNat / 262144, 0x80 + c.toNat / 4096 % 64, 0x80 + c.toNat / 64 % 64,
      0x80 + c.toNat % 64]

/-- The Go `string` that spells a text: its UTF-8 encoding. This is what `json.Unmarshal`
stores in a `string` field for a JSON string literal. -/
def ofText (s : String) : GoString := (s.data.map encodeRune).flatten

/-- The rune `utf8.RuneError`, U+FFFD. -/
def runeError : Char := Char.ofNat 0xFFFD

/-- The rune at the head of the bytes `b0 :: rest` and its width in bytes
(`utf8.DecodeRuneInString`). The first byte gives the length of the encoding and the range
the second byte must lie in (which leaves out the overlong forms, the surrogates and the
code points above U+10FFFF); the bytes after the second are continuation bytes,
`0x80..0xBF`. Any other input is `(RuneError, 1)`. -/
def decodeRune (b0 : Nat) (rest : List Nat) : Char × Nat :=
  if b0 < 0x80 then (Char.ofNat b0, 1)
  else if 0xC2 ≤ b0 ∧ b0 ≤ 0xDF then
    match rest with
    | b1 :: _ =>
      if 0x80 ≤ b1 ∧ b1 ≤ 0xBF then (Char.ofNat ((b0 - 0xC0) * 64 + (b1 - 0x80)), 2)
      else (runeError, 1)
    | _ => (runeError, 1)
  else if 0xE0 ≤ b0 ∧ b0 ≤ 0xEF then
    match rest with
    | b1 :: b2 :: _ =>
      if (if b0 = 0xE0 then 0xA0 else 0x80) ≤ b1 ∧ b1 ≤ (if b0 = 0xED then 0x9F else 0xBF) ∧
          0x80 ≤ b2 ∧ b2 ≤ 0xBF then
        (Char.ofNat ((b0 - 0xE0) * 4096 + (b1 - 0x80) * 64 + (b2 - 0x80)), 3)
      else (runeError, 1)
    | _ => (runeError, 1)
  else if 0xF0 ≤ b0 ∧ b0 ≤ 0xF4 then
    match rest with
    | b1 :: b2 :: b3 :: _ =>
      if (if b0 = 0xF0 then 0x90 else 0x80) ≤ b1 ∧ b1 ≤ (if b0 = 0xF4 then 0x8F else 0xBF) ∧
          0x80 ≤ b2 ∧ b2 ≤ 0xBF ∧ 0x80 ≤ b3 ∧ b3 ≤ 0xBF then
        (Char.ofNat ((b0 - 0xF0) * 262144 + (b1 - 0x80) * 4096 + (b2 - 0x80) * 64 +
          (b3 - 0x80)), 4)
      else (runeError, 1)
    | _ => (runeError, 1)
  else (runeError, 1)

/-- The runes of a Go `string`, read as the loop
`for i := 0; i < len(s); { c, size := utf8.DecodeRuneInString(s[i:]); i += size }` reads
them. The first argument is the number of bytes still to step over before the next rune
starts. A byte that starts no valid encoding yields `RuneError` and is stepped over
alone. -/
def decodeRunes : Nat → List Nat → List Char
  | _, [] => []
  | skip + 1, _ :: rest => decodeRunes skip rest
  | 0, b0 :: rest => (decodeRune b0 rest).1 :: decodeRunes ((decodeRune b0 rest).2 - 1) rest

/-- The text `json.Marshal` writes for a Go `string`, escapes resolved: its runes, with
U+FFFD in place of every byte that is not part of a valid encoding. -/
def toValidUTF8 (g : GoString) : String := String.mk (decodeRunes 0 g)

/-- Whether the bytes from the next rune on are valid UTF-8: no rune reads as
`(RuneError, 1)`. The first argument is as in `decodeRunes`. -/
def validRunes : Nat → List Nat → Bool
  | _, [] => true
  | skip + 1, _ :: rest => validRunes skip rest
  | 0, b0 :: rest =>
    decide (decodeRune b0 rest ≠ (runeError, 1)) && validRunes ((decodeRune b0 rest).2 - 1) rest

/-- Whether a Go `string` is valid UTF-8 (`utf8.ValidString`). -/
def isValidUTF8 (g : GoString) : Bool := validRunes 0 g

end GoString

/-! ## Package `chaincode` on Go strings -/

namespace Chaincode.Go

/-- The struct `Hotel`, its `string` fields as bytes. -/
structure Hotel where
  ID : GoString
  Name : GoString
  IsActive : Bool
  Rating : Float32
deriving DecidableEq

/-- The zero value `Hotel{}`. -/
def Hotel.zero : Hotel := ⟨[], [], false, Float32.zero⟩

/-- Whether both `string` fields of a hotel are valid UTF-8. -/
def Hotel.isValidUTF8 (h : Hotel) : Bool :=
  GoString.isValidUTF8 h.ID && GoString.isValidUTF8 h.Name

/-- Result of `json.Marshal(hotel)`: the object with the members `id`, `name`, `isActive`,
`rating` in field order. A `string` is written as the text of its runes, every invalid
byte as U+FFFD. A NaN or infinite rating is an `UnsupportedValueError`. -/
def jsonMarshal (h : Hotel) : Except JsonError Value :=
  if h.Rating.isFinite then
    .ok (.text (.object [
      ("id", .string (GoString.toValidUTF8 h.ID)),
      ("name", .string (GoString.toValidUTF8 h.Name)),
      ("isActive", .bool h.IsActive),
      ("rating", .number ⟨some h.Rating⟩)]))
  else .error .UnsupportedValueError

/-- One member of an object read into a `Hotel`: as `Chaincode.setField`, a `string` field
taking the UTF-8 encoding of the text of the literal. -/
def setField (h : Hotel) (m : String × JSON Number) : Except JsonError Hotel :=
  if foldName m.1 = "id" then
    match m.2 with
    | .string s => .ok { h with ID := GoString.ofText s }
    | .null => .ok h
    | _ => .error .UnmarshalTypeError
  else if foldName m.1 = "name" then
    match m.2 with
    | .string s => .ok { h with Name := GoString.ofText s }
    | .null => .ok h
    | _ => .error .UnmarshalTypeError
  else if foldName m.1 = "isactive" then
    match m.2 with
    | .bool b => .ok { h with IsActive := b }
    | .null => .ok h
    | _ => .error .UnmarshalTypeError
  else if foldName m.1 = "rating" then
    match m.2 with
    | .number ⟨some f⟩ => .ok { h with Rating := f }
    | .null => .ok h
    | _ => .error .UnmarshalTypeError
  else .ok h

/-- The members of an object read one after the other into `h`. -/
def setFields : Hotel → List (String × JSON Number) → Except JsonError Hotel
  | h, [] => .ok h
  | h, m :: rest =>
    match setField h m with
    | .error err => .error err
    | .ok h1 => setFields h1 rest

/-- Result of `var hotel Hotel; err = json.Unmarshal(data, &hotel)`: the hotel on
success. -/
def jsonUnmarshal : Value → Except JsonError Hotel
  | .malformed _ => .error .SyntaxError
  | .text .null => .ok Hotel.zero
  | .text (.object members) => setFields Hotel.zero members
  | .text _ => .error .UnmarshalTypeError

variable {σ : Type}

/-- CreateHotel issues a new hotel to the world state with given details. The id is a key
of the ledger, a text; the name is any Go `string`. -/
def CreateHotel (stub : ChaincodeStub σ Value) (id : String) (name : GoString) (isActive : Bool)
    (rating : Float32) (w : σ) : Except Error Unit × σ :=
  match HotelExists stub id w with
  | (.error err, w1) => (.error err, w1)
  | (.ok exist, w1) =>
    if exist then (.error (errAlreadyExists id), w1)
    else
      let hotel : Hotel :=
        { ID := GoString.ofText id, Name := name, IsActive := isActive, Rating := rating }
      match jsonMarshal hotel with
      | .error err => (.error (.json err), w1)
      | .ok hotelJson =>
        match stub.PutState id hotelJson w1 with
        | (.error _, w2) => (.error (.errorf ("can not create hotel " ++ id)), w2)
        | (.ok (), w2) => (.ok (), w2)

/-- ReadHotel returns the hotel stored in the world state with given id. -/
def ReadHotel (stub : ChaincodeStub σ Value) (id : String) (w : σ) : Except Error Hotel × σ :=
  match stub.GetState id w with
  | (.error err, w1) => (.error (.ledger err), w1)
  | (.ok none, w1) => (.error (errNotFound id), w1)
  | (.ok (some hotelJson), w1) =>
    match jsonUnmarshal hotelJson with
    | .error err => (.error (.json err), w1)
    | .ok hotel => (.ok hotel, w1)

/-- UpdateHotel updates an existing hotel in the world state with provided parameters. -/
def UpdateHotel (stub : ChaincodeStub σ Value) (id : String) (name : GoString) (isActive : Bool)
    (rating : Float32) (w : σ) : Except Error Unit × σ :=
  match HotelExists stub id w with
  | (.error err, w1) => (.error err, w1)
  | (.ok exist, w1) =>
    if !exist then (.error (errNotFound id), w1)
    else
      let hotel : Hotel :=
        { ID := GoString.ofText id, Name := name, IsActive := isActive, Rating := rating }
      match jsonMarshal hotel with
      | .error err => (.error (.json err), w1)
      | .ok hotelJson =>
        match stub.PutState id hotelJson w1 with
        | (.error _, w2) =>
          (.error (.errorf ("can not update information for the hotel " ++ id)), w2)
        | (.ok (), w2) => (.ok (), w2)

end Chaincode.Go

/-! ## Package `smartcontract` on Go strings -/

namespace Smartcontract.Go

/-- The struct `Agreement`, its `string` fields as bytes. -/
structure Agreement where
  ID : GoString
  IsApplied : Bool
  TotalFeedbacks : GoUint
  TotalUnfulfilledCommitments : GoUint
  IsAppliedPenalty : Bool
  TotalCompensations : GoUint
  TotalNoCompensations : GoUint
  ServiceLevelID : GoString
  HotelID : GoString
deriving DecidableEq

/-- The struct `ServiceLevel`, its `string` fields as bytes. -/
structure ServiceLevel where
  ID : GoString
  Name : GoString
  IsUsed : Bool
  SatisfactionRate : Float32
  RuleAbidingRate : Float32
  HotelID : GoString
  Agreements : Option (List (Option Agreement))
deriving DecidableEq

/-- The struct `Hotel`, its `string` fields as bytes. -/
structure Hotel where
  ID : GoString
  Name : GoString
  IsActive : Bool
  Rating : Float32
  ServiceLevels : Option (List (Option ServiceLevel))
deriving DecidableEq

/-- The zero value `Agreement{}`. -/
def Agreement.zero : Agreement := ⟨[], false, 0, 0, false, 0, 0, [], []⟩

/-- The zero value `ServiceLevel{}`. -/
def ServiceLevel.zero : ServiceLevel := ⟨[], [], false, Float32.zero, Float32.zero, [], none⟩

/-- The zero value `Hotel{}`. -/
def Hotel.zero : Hotel := ⟨[], [], false, Float32.zero, none⟩

/-- Whether every `string` field of an agreement is valid UTF-8. -/
def Agreement.isValidUTF8 (a : Agreement) : Bool :=
  GoString.isValidUTF8 a.ID && GoString.isValidUTF8 a.ServiceLevelID &&
    GoString.isValidUTF8 a.HotelID

/-- Whether every `string` of a `*Agreement` is valid UTF-8; a nil pointer holds none. -/
def agreementPtrIsValidUTF8 : Option Agreement → Bool
  | none => true
  | some a => a.isValidUTF8

/-- Whether every `string` of a service level is valid UTF-8, those of its agreements
included. -/
def ServiceLevel.isValidUTF8 (l : ServiceLevel) : Bool :=
  GoString.isValidUTF8 l.ID && GoString.isValidUTF8 l.Name && GoString.isValidUTF8 l.HotelID &&
    (match l.Agreements with
      | none => true
      | some ptrs => ptrs.all agreementPtrIsValidUTF8)

/-- Whether every `string` of a `*ServiceLevel` is valid UTF-8; a nil pointer holds none. -/
def ptrIsValidUTF8 : Option ServiceLevel → Bool
  | none => true
  | some l => l.isValidUTF8

/-- Whether every `string` of a hotel is valid UTF-8, those of its service levels and of
their agreements included. -/
def Hotel.isValidUTF8 (h : Hotel) : Bool :=
  GoString.isValidUTF8 h.ID && GoString.isValidUTF8 h.Name &&
    (match h.ServiceLevels with
      | none => true
      | some ptrs => ptrs.all ptrIsValidUTF8)

/-- Whether both rates of a service level are finite floats. -/
def ServiceLevel.isFinite (l : ServiceLevel) : Bool :=
  l.SatisfactionRate.isFinite && l.RuleAbidingRate.isFinite

/-- Whether every float of a `*ServiceLevel` is finite; a nil pointer holds none. -/
def ptrIsFinite : Option ServiceLevel → Bool
  | none => true
  | some l => l.isFinite

/-- Whether every float of a hotel is finite: its rating and the rates of its service
levels. -/
def Hotel.isFinite (h : Hotel) : Bool :=
  h.Rating.isFinite &&
    (match h.ServiceLevels with
      | none => true
      | some ptrs => ptrs.all ptrIsFinite)

/-- The document printed for an `Agreement`, members in field order. -/
def marshalAgreement (sc : Strconv) (a : Agreement) : JSON Number :=
  .object [
    ("id", .string (GoString.toValidUTF8 a.ID)),
    ("isApplied", .bool a.IsApplied),
    ("totalFeedbacks", uintLit sc a.TotalFeedbacks),
    ("totalUnfulfilledCommitments", uintLit sc a.TotalUnfulfilledCommitments),
    ("isAppliedPenalty", .bool a.IsAppliedPenalty),
    ("totalCompensations", uintLit sc a.TotalCompensations),
    ("totalNoCompensations", uintLit sc a.TotalNoCompensations),
    ("serviceLevelId", .string (GoString.toValidUTF8 a.ServiceLevelID)),
    ("hotelId", .string (GoString.toValidUTF8 a.HotelID))]

/-- The document printed for a `*Agreement`: `null` for a nil pointer. -/
def marshalAgreementPtr (sc : Strconv) : Option Agreement → JSON Number
  | none => .null
  | some a => marshalAgreement sc a

/-- The document printed for a `[]*Agreement`: `null` for a nil slice. -/
def marshalAgreements (sc : Strconv) : Option (List (Option Agreement)) → JSON Number
  | none => .null
  | some ptrs => .array (ptrs.map (marshalAgreementPtr sc))

/-- The document printed for a `ServiceLevel`, or the error of a NaN or infinite rate. -/
def marshalServiceLevel (sc : Strconv) (l : ServiceLevel) : Except JsonError (JSON Number) :=
  if l.SatisfactionRate.isFinite && l.RuleAbidingRate.isFinite then
    .ok (.object [
      ("id", .string (GoString.toValidUTF8 l.ID)),
      ("name", .string (GoString.toValidUTF8 l.Name)),
      ("isUsed", .bool l.IsUsed),
      ("satisfactionRate", floatLit sc l.SatisfactionRate),
      ("ruleAbidingRate", floatLit sc l.RuleAbidingRate),
      ("hotelId", .string (GoString.toValidUTF8 l.HotelID)),
      ("agreements", marshalAgreements sc l.Agreements)])
  else .error .UnsupportedValueError

/-- The document printed for a `*ServiceLevel`: `null` for a nil pointer. -/
def marshalServiceLevelPtr (sc : Strconv) : Option ServiceLevel → Except JsonError (JSON Number)
  | none => .ok .null
  | some l => marshalServiceLevel sc l

/-- The documents printed for the elements of a `[]*ServiceLevel`, in order. -/
def marshalServiceLevelPtrs (sc : Strconv) :
    List (Option ServiceLevel) → Except JsonError (List (JSON Number))
  | [] => .ok []
  | p :: rest =>
    match marshalServiceLevelPtr sc p with
    | .error err => .error err
    | .ok doc =>
      match marshalServiceLevelPtrs sc rest with
      | .error err => .error err
      | .ok docs => .ok (doc :: docs)

/-- The document printed for a `[]*ServiceLevel`: `null` for a nil slice. -/
def marshalServiceLevels (sc : Strconv) :
    Option (List (Option ServiceLevel)) → Except JsonError (JSON Number)
  | none => .ok .null
  | some ptrs =>
    match marshalServiceLevelPtrs sc ptrs with
    | .error err => .error err
    | .ok docs => .ok (.array docs)

/-- Result of `json.Marshal(hotel)`: the object with the members `id`, `name`, `isActive`,
`rating`, `serviceLevels` in field order. A `string` is written as the text of its runes,
every invalid byte as U+FFFD. A NaN or infinite float anywhere in the hotel is an
`UnsupportedValueError`. -/
def jsonMarshal (sc : Strconv) (h : Hotel) : Except JsonError Value :=
  if h.Rating.isFinite then
    match marshalServiceLevels sc h.ServiceLevels with
    | .error err => .error err
    | .ok levels =>
      .ok (.text (.object [
        ("id", .string (GoString.toValidUTF8 h.ID)),
        ("name", .string (GoString.toValidUTF8 h.Name)),
        ("isActive", .bool h.IsActive),
        ("rating", floatLit sc h.Rating),
        ("serviceLevels", levels)]))
  else .error .UnsupportedValueError

/-- A JSON value read into a `string` field holding `old`: a string literal gives the
UTF-8 encoding of its text. -/
def readString (old : GoString) : JSON Number → Except JsonError GoString
  | .string s => .ok (GoString.ofText s)
  | .null => .ok old
  | _ => .error .UnmarshalTypeError

/-- One member of an object read into an `Agreement`. -/
def setAgreementField (a : Agreement) (m : String × JSON Number) : Except JsonError Agreement :=
  if foldName m.1 = "id" then
    (readString a.ID m.2).map (fun v => { a with ID := v })
  else if foldName m.1 = "isapplied" then
    (readBool a.IsApplied m.2).map (fun v => { a with IsApplied := v })
  else if foldName m.1 = "totalfeedbacks" then
    (readUint a.TotalFeedbacks m.2).map (fun v => { a with TotalFeedbacks := v })
  else if foldName m.1 = "totalunfulfilledcommitments" then
    (readUint a.TotalUnfulfilledCommitments m.2).map
      (fun v => { a with TotalUnfulfilledCommitments := v })
  else if foldName m.1 = "isappliedpenalty" then
    (readBool a.IsAppliedPenalty m.2).map (fun v => { a with IsAppliedPenalty := v })
  else if foldName m.1 = "totalcompensations" then
    (readUint a.TotalCompensations m.2).map (fun v => { a with TotalCompensations := v })
  else if foldName m.1 = "totalnocompensations" then
    (readUint a.TotalNoCompensations m.2).map (fun v => { a with TotalNoCompensations := v })
  else if foldName m.1 = "servicelevelid" then
    (readString a.ServiceLevelID m.2).map (fun v => { a with ServiceLevelID := v })
  else if foldName m.1 = "hotelid" then
    (readString a.HotelID m.2).map (fun v => { a with HotelID := v })
  else .ok a

/-- One member of an object read into a `ServiceLevel`. -/
def setServiceLevelField (l : ServiceLevel) (m : String × JSON Number) :
    Except JsonError ServiceLevel :=
  if foldName m.1 = "id" then
    (readString l.ID m.2).map (fun v => { l with ID := v })
  else if foldName m.1 = "name" then
    (readString l.Name m.2).map (fun v => { l with Name := v })
  else if foldName m.1 = "isused" then
    (readBool l.IsUsed m.2).map (fun v => { l with IsUsed := v })
  else if foldName m.1 = "satisfactionrate" then
    (readFloat32 l.SatisfactionRate m.2).map (fun v => { l with SatisfactionRate := v })
  else if foldName m.1 = "ruleabidingrate" then
    (readFloat32 l.RuleAbidingRate m.2).map (fun v => { l with RuleAbidingRate := v })
  else if foldName m.1 = "hotelid" then
    (readString l.HotelID m.2).map (fun v => { l with HotelID := v })
  else if foldName m.1 = "agreements" then
    (readSlice Agreement.zero setAgreementField m.2).map (fun v => { l with Agreements := v })
  else .ok l

/-- One member of an object read into a `Hotel`. -/
def setField (h : Hotel) (m : String × JSON Number) : Except JsonError Hotel :=
  if foldName m.1 = "id" then
    (readString h.ID m.2).map (fun v => { h with ID := v })
  else if foldName m.1 = "name" then
    (readString h.Name m.2).map (fun v => { h with Name := v })
  else if foldName m.1 = "isactive" then
    (readBool h.IsActive m.2).map (fun v => { h with IsActive := v })
  else if foldName m.1 = "rating" then
    (readFloat32 h.Rating m.2).map (fun v => { h with Rating := v })
  else if foldName m.1 = "servicelevels" then
    (readSlice ServiceLevel.zero setServiceLevelField m.2).map
      (fun v => { h with ServiceLevels := v })
  else .ok h

/-- Result of `var hotel Hotel; err = json.Unmarshal(data, &hotel)`: the hotel on
success. -/
def jsonUnmarshal : Value → Except JsonError Hotel
  | .malformed _ => .error .SyntaxError
  | .text .null => .ok Hotel.zero
  | .text (.object members) => setFields setField Hotel.zero members
  | .text _ => .error .UnmarshalTypeError

/-- The hotel of `InitLedger`, its strings as the bytes of the source text. Fields left out
of a literal have their zero value. -/
def seedHotel : Hotel :=
  { ID := GoString.ofText "1", Name := GoString.ofText "Rex Hotel", IsActive := true,
    Rating := Float32.lit_8_4,
    ServiceLevels := some [
      some {
        ID := GoString.ofText "1", Name := GoString.ofText "Standard", IsUsed := true,
        SatisfactionRate := Float32.lit_0_84, RuleAbidingRate := Float32.zero,
        HotelID := GoString.ofText "1",
        Agreements := some [
          some { Agreement.zero with
            ID := GoString.ofText "1", IsApplied := true, TotalFeedbacks := 100,
            TotalUnfulfilledCommitments := 16, IsAppliedPenalty := false },
          some { Agreement.zero with
            ID := GoString.ofText "2", IsApplied := true, TotalFeedbacks := 1000,
            TotalUnfulfilledCommitments := 100, IsAppliedPenalty := false }] }] }

variable {σ : Type}

/-- CreateHotel issues a new hotel to the world state with given details. The id is a key
of the ledger, a text; the name is any Go `string`. The literal names no service levels,
so the field is the nil slice. -/
def CreateHotel (sc : Strconv) (stub : ChaincodeStub σ Value) (id : String) (name : GoString)
    (isActive : Bool) (rating : Float32) (w : σ) : Except Error Unit × σ :=
  match HotelExists stub id w with
  | (.error err, w1) => (.error err, w1)
  | (.ok exist, w1) =>
    if exist then (.error (errAlreadyExists id), w1)
    else
      let hotel : Hotel :=
        { ID := GoString.ofText id, Name := name, IsActive := isActive, Rating := rating,
          ServiceLevels := none }
      match jsonMarshal sc hotel with
      | .error err => (.error (.json err), w1)
      | .ok hotelJSON =>
        match stub.PutState id hotelJSON w1 with
        | (.error _, w2) => (.error (.errorf ("can not create hotel " ++ id)), w2)
        | (.ok (), w2) => (.ok (), w2)

/-- ReadHotel returns the hotel stored in the world state with given id. -/
def ReadHotel (stub : ChaincodeStub σ Value) (id : String) (w : σ) : Except Error Hotel × σ :=
  match stub.GetState id w with
  | (.error err, w1) => (.error (.ledger err), w1)
  | (.ok none, w1) => (.error (errNotFound id), w1)
  | (.ok (some hotelJSON), w1) =>
    match jsonUnmarshal hotelJSON with
    | .error err => (.error (.json err), w1)
    | .ok hotel => (.ok hotel, w1)

/-- UpdateHotel updates an existing hotel in the world state with provided parameters. -/
def UpdateHotel (sc : Strconv) (stub : ChaincodeStub σ Value) (id : String) (name : GoString)
    (isActive : Bool) (rating : Float32) (w : σ) : Except Error Unit × σ :=
  match HotelExists stub id w with
  | (.error err, w1) => (.error err, w1)
  | (.ok exist, w1) =>
    if !exist then (.error (errNotFound id), w1)
    else
      let hotel : Hotel :=
        { ID := GoString.ofText id, Name := name, IsActive := isActive, Rating := rating,
          ServiceLevels := none }
      match jsonMarshal sc hotel with
      | .error err => (.error (.json err), w1)
      | .ok hotelJSON =>
        match stub.PutState id hotelJSON w1 with
        | (.error _, w2) =>
          (.error (.errorf ("can not update information for the hotel " ++ id)), w2)
        | (.ok (), w2) => (.ok (), w2)

end Smartcontract.Go

/-! ## Texts as Go values -/

/-- The Go value of a flat hotel given by its texts: each `string` is the UTF-8 encoding
of the text. -/
def Chaincode.Hotel.toGo (h : Chaincode.Hotel) : Chaincode.Go.Hotel :=
  { ID := GoString.ofText h.ID, Name := GoString.ofText h.Name, IsActive := h.IsActive,
    Rating := h.Rating }

/-- The Go value of an agreement given by its texts. -/
def Smartcontract.Agreement.toGo (a : Smartcontract.Agreement) : Smartcontract.Go.Agreement :=
  { ID := GoString.ofText a.ID, IsApplied := a.IsApplied, TotalFeedbacks := a.TotalFeedbacks,
    TotalUnfulfilledCommitments := a.TotalUnfulfilledCommitments,
    IsAppliedPenalty := a.IsAppliedPenalty, TotalCompensations := a.TotalCompensations,
    TotalNoCompensations := a.TotalNoCompensations,
    ServiceLevelID := GoString.ofText a.ServiceLevelID, HotelID := GoString.ofText a.HotelID }

/-- The Go value of a service level given by its texts. -/
def Smartcontract.ServiceLevel.toGo (l : Smartcontract.ServiceLevel) :
    Smartcontract.Go.ServiceLevel :=
  { ID := GoString.ofText l.ID, Name := GoString.ofText l.Name, IsUsed := l.IsUsed,
    SatisfactionRate := l.SatisfactionRate, RuleAbidingRate := l.RuleAbidingRate,
    HotelID := GoString.ofText l.HotelID,
    Agreements := l.Agreements.map (List.map (Option.map Smartcontract.Agreement.toGo)) }

/-- The Go value of a nested hotel given by its texts. -/
def Smartcontract.Hotel.toGo (h : Smartcontract.Hotel) : Smartcontract.Go.Hotel :=
  { ID := GoString.ofText h.ID, Name := GoString.ofText h.Name, IsActive := h.IsActive,
    Rating := h.Rating,
    ServiceLevels := h.ServiceLevels.map (List.map (Option.map Smartcontract.ServiceLevel.toGo)) }

end Easybook

/-! # Theorems -/

namespace Easybook

/-! ## The world state -/

namespace Store

variable {V : Type}

theorem get_put_self (s : Store V) (key : String) (val : V) :
    (s.put key val).get key = some val := by
  induction s with
  | nil => simp [put, get]
  | cons kv rest ih =>
    obtain ⟨k, v⟩ := kv
    by_cases h1 : k = key
    · simp [put, get, h1]
    · by_cases h2 : key.data < k.data
      · simp [put, get, h1, h2]
      · simp [put, get, h1, h2, ih]

theorem get_put_other (s : Store V) (key other : String) (val : V) (hne : other ≠ key) :
    (s.put key val).get other = s.get other := by
  induction s with
  | nil => simp [put, get, Ne.symm hne]
  | cons kv rest ih =>
    obtain ⟨k, v⟩ := kv
    by_cases h1 : k = key
    · subst h1
      simp [put, get, Ne.symm hne]
    · by_cases h2 : key.data < k.data
      · simp [put, get, h1, h2, Ne.symm hne]
      · by_cases h3 : k = other
        · subst h3
          simp [put, get, h1, h2]
        · simp [put, get, h1, h2, h3, ih]

theorem get_del_self (s : Store V) (key : String) : (s.del key).get key = none := by
  induction s with
  | nil => simp [del, get]
  | cons kv rest ih =>
    obtain ⟨k, v⟩ := kv
    by_cases h1 : k = key
    · simpa [del, List.filter_cons, h1] using ih
    · simpa [del, List.filter_cons, h1, get] using ih

theorem get_del_other (s : Store V) (key other : String) (hne : other ≠ key) :
    (s.del key).get other = s.get other := by
  induction s with
  | nil => simp [del, get]
  | cons kv rest ih =>
    obtain ⟨k, v⟩ := kv
    by_cases h1 : k = key
    · subst h1
      simpa [del, List.filter_cons, get, Ne.symm hne] using ih
    · by_cases h3 : k = other
      · subst h3
        simp [del, List.filter_cons, h1, get]
      · simpa [del, List.filter_cons, h1, get, h3] using ih

theorem range_all (s : Store V) : s.range "" "" = s := by
  simp [range]

end Store

/-! ## The codec on the hotels the contracts build -/

theorem foldName_id : foldName "id" = "id" := by decide

theorem foldName_name : foldName "name" = "name" := by decide

theorem foldName_isActive : foldName "isActive" = "isactive" := by decide

theorem foldName_rating : foldName "rating" = "rating" := by decide

theorem foldName_serviceLevels : foldName "serviceLevels" = "servicelevels" := by decide

namespace Chaincode

theorem jsonMarshal_ok (h : Hotel) (hfin : h.Rating.isFinite = true) :
    (jsonMarshal h).isOk = true := by
  simp [jsonMarshal, hfin, Except.isOk, Except.toBool]

theorem jsonUnmarshal_jsonMarshal (h : Hotel) (v : Value) (hv : jsonMarshal h = .ok v) :
    jsonUnmarshal v = .ok h := by
  unfold jsonMarshal at hv
  split at hv
  · cases hv
    simp [jsonUnmarshal, setFields, setField, foldName_id, foldName_name, foldName_isActive,
      foldName_rating, Hotel.zero]
  · cases hv

theorem jsonMarshal_not_finite (h : Hotel) (hfin : h.Rating.isFinite = false) :
    jsonMarshal h = .error .UnsupportedValueError := by
  simp [jsonMarshal, hfin]

end Chaincode

namespace Smartcontract

theorem jsonMarshal_ok_nested (sc : Strconv) (id name : String) (isActive : Bool) (rating : Float32)
    (hfin : rating.isFinite = true) :
    (jsonMarshal sc ⟨id, name, isActive, rating, none⟩).isOk = true := by
  simp [jsonMarshal, hfin, marshalServiceLevels, Except.isOk, Except.toBool]

theorem jsonUnmarshal_jsonMarshal_nested (sc : Strconv) (id name : String) (isActive : Bool)
    (rating : Float32) (v : Value)
    (hv : jsonMarshal sc ⟨id, name, isActive, rating, none⟩ = .ok v) :
    jsonUnmarshal v = .ok ⟨id, name, isActive, rating, none⟩ := by
  unfold jsonMarshal at hv
  split at hv
  · simp only [marshalServiceLevels] at hv
    cases hv
    simp [jsonUnmarshal, setFields, setField, foldName_id, foldName_name, foldName_isActive,
      foldName_rating, foldName_serviceLevels, Hotel.zero, floatLit, readString, readBool,
      readFloat32, readSlice, Except.map]
  · cases hv

theorem jsonMarshal_not_finite_nested (sc : Strconv) (id name : String) (isActive : Bool)
    (rating : Float32) (hfin : rating.isFinite = false) :
    jsonMarshal sc ⟨id, name, isActive, rating, none⟩ = .error .UnsupportedValueError := by
  simp [jsonMarshal, hfin]

end Smartcontract

/-! ## The contract methods on the ledger in memory -/

namespace Chaincode

theorem HotelExists_mem (s : Store Value) (id : String) :
    HotelExists (memStub Value) id s = (.ok (s.get id).isSome, s) := by
  simp [HotelExists, memStub]

theorem CreateHotel_present (s : Store Value) (id name : String) (isActive : Bool)
    (rating : Float32) (v : Value) (hs : s.get id = some v) :
    CreateHotel (memStub Value) id name isActive rating s = (.error (errAlreadyExists id), s) := by
  simp [CreateHotel, HotelExists_mem, hs]

theorem CreateHotel_absent (s : Store Value) (id name : String) (isActive : Bool)
    (rating : Float32) (v : Value) (hs : s.get id = none)
    (hv : jsonMarshal ⟨id, name, isActive, rating⟩ = .ok v) :
    CreateHotel (memStub Value) id name isActive rating s = (.ok (), s.put id v) := by
  unfold CreateHotel
  rw [HotelExists_mem]
  simp [hs, hv, memStub]

theorem CreateHotel_not_finite (s : Store Value) (id name : String) (isActive : Bool)
    (rating : Float32) (hs : s.get id = none) (hfin : rating.isFinite = false) :
    CreateHotel (memStub Value) id name isActive rating s =
      (.error (.json .UnsupportedValueError), s) := by
  simp [CreateHotel, HotelExists_mem, hs, jsonMarshal, hfin]

theorem CreateHotel_ok (s : Store Value) (id name : String) (isActive : Bool)
    (rating : Float32) (hok : (CreateHotel (memStub Value) id name isActive rating s).1 = .ok ()) :
    ∃ v, s.get id = none ∧ jsonMarshal ⟨id, name, isActive, rating⟩ = .ok v ∧
      (CreateHotel (memStub Value) id name isActive rating s).2 = s.put id v := by
  cases hs : s.get id with
  | some v0 => simp [CreateHotel_present s id name isActive rating v0 hs] at hok
  | none =>
    cases hv : jsonMarshal ⟨id, name, isActive, rating⟩ with
    | error e => simp [CreateHotel, HotelExists_mem, hs, hv] at hok
    | ok v => exact ⟨v, rfl, rfl, by rw [CreateHotel_absent s id name isActive rating v hs hv]⟩

theorem ReadHotel_mem (s : Store Value) (id : String) :
    ReadHotel (memStub Value) id s =
      (match s.get id with
        | none => .error (errNotFound id)
        | some v =>
          match jsonUnmarshal v with
          | .error e => .error (.json e)
          | .ok h => .ok h, s) := by
  unfold ReadHotel
  simp only [memStub]
  cases s.get id with
  | none => rfl
  | some v => cases hv : jsonUnmarshal v <;> simp [hv]

theorem UpdateHotel_absent (s : Store Value) (id name : String) (isActive : Bool)
    (rating : Float32) (hs : s.get id = none) :
    UpdateHotel (memStub Value) id name isActive rating s = (.error (errNotFound id), s) := by
  simp [UpdateHotel, HotelExists_mem, hs]

theorem UpdateHotel_present (s : Store Value) (id name : String) (isActive : Bool)
    (rating : Float32) (v0 v : Value) (hs : s.get id = some v0)
    (hv : jsonMarshal ⟨id, name, isActive, rating⟩ = .ok v) :
    UpdateHotel (memStub Value) id name isActive rating s = (.ok (), s.put id v) := by
  unfold UpdateHotel
  rw [HotelExists_mem]
  simp [hs, hv, memStub]

theorem DeleteHotel_absent (s : Store Value) (id : String) (hs : s.get id = none) :
    DeleteHotel (memStub Value) id s = (.error (errNotFound id), s) := by
  simp [DeleteHotel, HotelExists_mem, hs]

theorem DeleteHotel_present (s : Store Value) (id : String) (v : Value)
    (hs : s.get id = some v) :
    DeleteHotel (memStub Value) id s = (.ok (), s.del id) := by
  unfold DeleteHotel
  rw [HotelExists_mem]
  simp [hs, memStub]

end Chaincode

namespace Smartcontract

theorem HotelExists_mem_nested (s : Store Value) (id : String) :
    HotelExists (memStub Value) id s = (.ok (s.get id).isSome, s) := by
  simp [HotelExists, memStub]

theorem CreateHotel_present_nested (sc : Strconv) (s : Store Value) (id name : String)
    (isActive : Bool) (rating : Float32) (v : Value) (hs : s.get id = some v) :
    CreateHotel sc (memStub Value) id name isActive rating s =
      (.error (errAlreadyExists id), s) := by
  simp [CreateHotel, HotelExists_mem_nested, hs]

theorem CreateHotel_absent_nested (sc : Strconv) (s : Store Value) (id name : String)
    (isActive : Bool) (rating : Float32) (v : Value) (hs : s.get id = none)
    (hv : jsonMarshal sc ⟨id, name, isActive, rating, none⟩ = .ok v) :
    CreateHotel sc (memStub Value) id name isActive rating s = (.ok (), s.put id v) := by
  unfold CreateHotel
  rw [HotelExists_mem_nested]
  simp [hs, hv, memStub]

theorem CreateHotel_not_finite_nested (sc : Strconv) (s : Store Value) (id name : String)
    (isActive : Bool) (rating : Float32) (hs : s.get id = none)
    (hfin : rating.isFinite = false) :
    CreateHotel sc (memStub Value) id name isActive rating s =
      (.error (.json .UnsupportedValueError), s) := by
  simp [CreateHotel, HotelExists_mem_nested, hs, jsonMarshal, hfin]

theorem CreateHotel_ok_nested (sc : Strconv) (s : Store Value) (id name : String) (isActive : Bool)
    (rating : Float32)
    (hok : (CreateHotel sc (memStub Value) id name isActive rating s).1 = .ok ()) :
    ∃ v, s.get id = none ∧ jsonMarshal sc ⟨id, name, isActive, rating, none⟩ = .ok v ∧
      (CreateHotel sc (memStub Value) id name isActive rating s).2 = s.put id v := by
  cases hs : s.get id with
  | some v0 => simp [CreateHotel_present_nested sc s id name isActive rating v0 hs] at hok
  | none =>
    cases hv : jsonMarshal sc ⟨id, name, isActive, rating, none⟩ with
    | error e => simp [CreateHotel, HotelExists_mem_nested, hs, hv] at hok
    | ok v => exact ⟨v, rfl, rfl, by rw [CreateHotel_absent_nested sc s id name isActive rating v hs hv]⟩

theorem ReadHotel_mem_nested (s : Store Value) (id : String) :
    ReadHotel (memStub Value) id s =
      (match s.get id with
        | none => .error (errNotFound id)
        | some v =>
          match jsonUnmarshal v with
          | .error e => .error (.json e)
          | .ok h => .ok h, s) := by
  unfold ReadHotel
  simp only [memStub]
  cases s.get id with
  | none => rfl
  | some v => cases hv : jsonUnmarshal v <;> simp [hv]

theorem UpdateHotel_absent_nested (sc : Strconv) (s : Store Value) (id name : String)
    (isActive : Bool) (rating : Float32) (hs : s.get id = none) :
    UpdateHotel sc (memStub Value) id name isActive rating s = (.error (errNotFound id), s) := by
  simp [UpdateHotel, HotelExists_mem_nested, hs]

theorem UpdateHotel_present_nested (sc : Strconv) (s : Store Value) (id name : String)
    (isActive : Bool) (rating : Float32) (v0 v : Value) (hs : s.get id = some v0)
    (hv : jsonMarshal sc ⟨id, name, isActive, rating, none⟩ = .ok v) :
    UpdateHotel sc (memStub Value) id name isActive rating s = (.ok (), s.put id v) := by
  unfold UpdateHotel
  rw [HotelExists_mem_nested]
  simp [hs, hv, memStub]

theorem DeleteHotel_absent_nested (s : Store Value) (id : String) (hs : s.get id = none) :
    DeleteHotel (memStub Value) id s = (.error (errNotFound id), s) := by
  simp [DeleteHotel, HotelExists_mem_nested, hs]

theorem DeleteHotel_present_nested (s : Store Value) (id : String) (v : Value)
    (hs : s.get id = some v) :
    DeleteHotel (memStub Value) id s = (.ok (), s.del id) := by
  unfold DeleteHotel
  rw [HotelExists_mem_nested]
  simp [hs, memStub]

end Smartcontract


/-! ## The key order of the world state -/

namespace Store

variable {V : Type}

theorem mem_keys_iff (s : Store V) (key : String) : key ∈ s.keys ↔ s.get key ≠ none := by
  induction s with
  | nil => simp [keys, get]
  | cons kv rest ih =>
    obtain ⟨k, v⟩ := kv
    by_cases h : k = key
    · simp [keys, get, h]
    · have ih1 : key ∈ List.map Prod.fst rest ↔ get rest key ≠ none := ih
      simp [keys, get, h, ih1, Ne.symm h]

theorem WF_nil : WF ([] : Store V) := by
  simp [WF, keys]

theorem WF_cons (k : String) (v : V) (rest : Store V) :
    WF ((k, v) :: rest) ↔ (∀ x ∈ rest.keys, k < x) ∧ WF rest := by
  simp [WF, keys, List.pairwise_cons]

theorem mem_keys_put (s : Store V) (key x : String) (val : V) :
    x ∈ (s.put key val).keys ↔ x = key ∨ x ∈ s.keys := by
  rw [mem_keys_iff, mem_keys_iff]
  by_cases h : x = key
  · subst h
    simp [get_put_self]
  · simp [get_put_other s key x val h, h]

theorem WF_put (s : Store V) (key : String) (val : V) (hwf : s.WF) : (s.put key val).WF := by
  induction s with
  | nil => simp [put, WF, keys]
  | cons kv rest ih =>
    obtain ⟨k, v⟩ := kv
    rw [WF_cons] at hwf
    by_cases h1 : k = key
    · subst h1
      simpa [put, WF_cons] using hwf
    · by_cases h2 : key.data < k.data
      · have hlt : key < k := String.lt_iff_toList_lt.mpr h2
        simp only [put, h1, h2, if_false, if_true]
        rw [WF_cons, WF_cons]
        refine ⟨?_, hwf⟩
        intro x hx
        simp only [keys, List.map_cons, List.mem_cons] at hx
        rcases hx with rfl | hx
        · exact hlt
        · exact lt_trans hlt (hwf.1 x hx)
      · have hlt : k < key := by
          rcases lt_trichotomy k key with h | h | h
          · exact h
          · exact absurd h h1
          · exact absurd (String.lt_iff_toList_lt.mp h) h2
        simp only [put, h1, h2, if_false]
        rw [WF_cons]
        refine ⟨?_, ih hwf.2⟩
        intro x hx
        rcases (mem_keys_put rest key x val).mp hx with rfl | hx
        · exact hlt
        · exact hwf.1 x hx

theorem WF_del (s : Store V) (key : String) (hwf : s.WF) : (s.del key).WF := by
  unfold WF keys del at *
  exact hwf.sublist ((List.filter_sublist s).map Prod.fst)

theorem get_of_mem (s : Store V) (hwf : s.WF) (kv : String × V) (hmem : kv ∈ s) :
    s.get kv.1 = some kv.2 := by
  induction s with
  | nil => cases hmem
  | cons hd rest ih =>
    obtain ⟨k, v⟩ := hd
    rw [WF_cons] at hwf
    rcases List.mem_cons.mp hmem with rfl | hrest
    · simp [get]
    · have hk : k < kv.1 := hwf.1 kv.1 (List.mem_map_of_mem Prod.fst hrest)
      simp [get, ne_of_lt hk, ih hwf.2 hrest]

theorem keys_ascending (s : Store V) (hwf : s.WF) (i j : Nat) (a b : String) (hij : i < j)
    (ha : s.keys[i]? = some a) (hb : s.keys[j]? = some b) : a < b := by
  obtain ⟨hi, rfl⟩ := List.getElem?_eq_some.mp ha
  obtain ⟨hj, rfl⟩ := List.getElem?_eq_some.mp hb
  exact List.pairwise_iff_getElem.mp hwf i j hi hj hij

/-- What a listing that decodes every stored value in stored order says about the
stored keys: as many elements as keys, the element at each position being the decoding
of the value stored under the key at that position. -/
theorem listing {H : Type} (s : Store V) (decode : V → Except JsonError H) (hotels : List H)
    (hwf : s.WF) (hmap : s.map (fun kv => decode kv.2) = hotels.map .ok) :
    hotels.length = s.keys.length ∧
    ∀ (i : Nat) (key : String), s.keys[i]? = some key →
      ∃ v h, s.get key = some v ∧ decode v = .ok h ∧ hotels[i]? = some h := by
  constructor
  · have := congrArg List.length hmap
    simpa [keys] using this.symm
  · intro i key hkey
    simp only [keys, List.getElem?_map, Option.map_eq_some'] at hkey
    obtain ⟨kv, hkv, rfl⟩ := hkey
    have h1 : (s.map (fun kv => decode kv.2))[i]? = some (decode kv.2) := by
      simp [List.getElem?_map, hkv]
    rw [hmap, List.getElem?_map, Option.map_eq_some'] at h1
    obtain ⟨h, hh, hok⟩ := h1
    exact ⟨kv.2, h, get_of_mem s hwf kv (List.getElem?_mem hkv), hok.symm, hh⟩

end Store

/-! ## Listing -/

namespace Chaincode

theorem GetAllHotels_loop_ok (kvs : Store Value) (acc : List Hotel)
    (hdec : ∀ kv ∈ kvs, ∃ h, jsonUnmarshal kv.2 = .ok h) :
    ∃ hotels, GetAllHotels.loop (kvs.map .ok) acc = .ok (acc ++ hotels) ∧
      kvs.map (fun kv => jsonUnmarshal kv.2) = hotels.map .ok := by
  induction kvs generalizing acc with
  | nil => exact ⟨[], by simp [GetAllHotels.loop], rfl⟩
  | cons kv rest ih =>
    obtain ⟨h, hh⟩ := hdec kv (List.mem_cons_self _ _)
    obtain ⟨hotels, hloop, hmap⟩ :=
      ih (acc ++ [h]) (fun x hx => hdec x (List.mem_cons_of_mem _ hx))
    refine ⟨h :: hotels, ?_, ?_⟩
    · simp [GetAllHotels.loop, hh, hloop]
    · simp [hh, hmap]

theorem GetAllHotels_loop_error (kvs : Store Value) (acc : List Hotel)
    (hbad : ∃ kv ∈ kvs, ∃ e, jsonUnmarshal kv.2 = .error e) :
    ∃ e, GetAllHotels.loop (kvs.map .ok) acc = .error (.json e) := by
  induction kvs generalizing acc with
  | nil =>
    obtain ⟨kv, hkv, _⟩ := hbad
    cases hkv
  | cons kv rest ih =>
    cases hh : jsonUnmarshal kv.2 with
    | error e => exact ⟨e, by simp [GetAllHotels.loop, hh]⟩
    | ok h =>
      obtain ⟨bad, hmem, e, he⟩ := hbad
      rcases List.mem_cons.mp hmem with rfl | hrest
      · rw [hh] at he
        cases he
      · obtain ⟨e1, h1⟩ := ih (acc ++ [h]) ⟨bad, hrest, e, he⟩
        exact ⟨e1, by simp [GetAllHotels.loop, hh, h1]⟩

theorem GetAllHotels_mem (s : Store Value) :
    GetAllHotels (memStub Value) s = (GetAllHotels.loop (s.map .ok) [], s) := by
  simp [GetAllHotels, memStub, Store.range_all]

end Chaincode

namespace Smartcontract

theorem GetAllHotels_loop_ok_nested (kvs : Store Value) (acc : List Hotel)
    (hdec : ∀ kv ∈ kvs, ∃ h, jsonUnmarshal kv.2 = .ok h) :
    ∃ hotels, GetAllHotels.loop (kvs.map .ok) acc = .ok (acc ++ hotels) ∧
      kvs.map (fun kv => jsonUnmarshal kv.2) = hotels.map .ok := by
  induction kvs generalizing acc with
  | nil => exact ⟨[], by simp [GetAllHotels.loop], rfl⟩
  | cons kv rest ih =>
    obtain ⟨h, hh⟩ := hdec kv (List.mem_cons_self _ _)
    obtain ⟨hotels, hloop, hmap⟩ :=
      ih (acc ++ [h]) (fun x hx => hdec x (List.mem_cons_of_mem _ hx))
    refine ⟨h :: hotels, ?_, ?_⟩
    · simp [GetAllHotels.loop, hh, hloop]
    · simp [hh, hmap]

theorem GetAllHotels_loop_error_nested (kvs : Store Value) (acc : List Hotel)
    (hbad : ∃ kv ∈ kvs, ∃ e, jsonUnmarshal kv.2 = .error e) :
    ∃ e, GetAllHotels.loop (kvs.map .ok) acc = .error (.json e) := by
  induction kvs generalizing acc with
  | nil =>
    obtain ⟨kv, hkv, _⟩ := hbad
    cases hkv
  | cons kv rest ih =>
    cases hh : jsonUnmarshal kv.2 with
    | error e => exact ⟨e, by simp [GetAllHotels.loop, hh]⟩
    | ok h =>
      obtain ⟨bad, hmem, e, he⟩ := hbad
      rcases List.mem_cons.mp hmem with rfl | hrest
      · rw [hh] at he
        cases he
      · obtain ⟨e1, h1⟩ := ih (acc ++ [h]) ⟨bad, hrest, e, he⟩
        exact ⟨e1, by simp [GetAllHotels.loop, hh, h1]⟩

theorem GetAllHotels_mem_nested (s : Store Value) :
    GetAllHotels (memStub Value) s = (GetAllHotels.loop (s.map .ok) [], s) := by
  simp [GetAllHotels, memStub, Store.range_all]

end Smartcontract


/-! ## Ascending keys are kept by every method -/

namespace Chaincode

theorem CreateHotel_WF (s : Store Value) (id name : String) (isActive : Bool)
    (rating : Float32) (hwf : s.WF) :
    (CreateHotel (memStub Value) id name isActive rating s).2.WF := by
  cases hs : s.get id with
  | some v0 => rw [CreateHotel_present s id name isActive rating v0 hs]; exact hwf
  | none =>
    cases hv : jsonMarshal ⟨id, name, isActive, rating⟩ with
    | error e =>
      have : CreateHotel (memStub Value) id name isActive rating s = (.error (.json e), s) := by
        unfold CreateHotel
        rw [HotelExists_mem]
        simp [hs, hv]
      rw [this]; exact hwf
    | ok v =>
      rw [CreateHotel_absent s id name isActive rating v hs hv]
      exact Store.WF_put s id v hwf

theorem UpdateHotel_WF (s : Store Value) (id name : String) (isActive : Bool)
    (rating : Float32) (hwf : s.WF) :
    (UpdateHotel (memStub Value) id name isActive rating s).2.WF := by
  cases hs : s.get id with
  | none => rw [UpdateHotel_absent s id name isActive rating hs]; exact hwf
  | some v0 =>
    cases hv : jsonMarshal ⟨id, name, isActive, rating⟩ with
    | error e =>
      have : UpdateHotel (memStub Value) id name isActive rating s = (.error (.json e), s) := by
        unfold UpdateHotel
        rw [HotelExists_mem]
        simp [hs, hv]
      rw [this]; exact hwf
    | ok v =>
      rw [UpdateHotel_present s id name isActive rating v0 v hs hv]
      exact Store.WF_put s id v hwf

theorem DeleteHotel_WF (s : Store Value) (id : String) (hwf : s.WF) :
    (DeleteHotel (memStub Value) id s).2.WF := by
  cases hs : s.get id with
  | none => rw [DeleteHotel_absent s id hs]; exact hwf
  | some v0 => rw [DeleteHotel_present s id v0 hs]; exact Store.WF_del s id hwf

theorem InitLedger_loop_WF (hotels : List Hotel) (s : Store Value) (hwf : s.WF) :
    (InitLedger.loop (memStub Value) hotels s).2.WF := by
  induction hotels generalizing s with
  | nil => exact hwf
  | cons h rest ih =>
    cases hv : jsonMarshal h with
    | error e => simpa [InitLedger.loop, hv] using hwf
    | ok v =>
      have : InitLedger.loop (memStub Value) (h :: rest) s =
          InitLedger.loop (memStub Value) rest (s.put h.ID v) := by
        simp [InitLedger.loop, hv, memStub]
      rw [this]
      exact ih (s.put h.ID v) (Store.WF_put s h.ID v hwf)

theorem InitLedger_WF (s : Store Value) (hwf : s.WF) : (InitLedger (memStub Value) s).2.WF :=
  InitLedger_loop_WF seedHotels s hwf

end Chaincode

namespace Smartcontract

theorem CreateHotel_WF_nested (sc : Strconv) (s : Store Value) (id name : String)
    (isActive : Bool) (rating : Float32) (hwf : s.WF) :
    (CreateHotel sc (memStub Value) id name isActive rating s).2.WF := by
  cases hs : s.get id with
  | some v0 => rw [CreateHotel_present_nested sc s id name isActive rating v0 hs]; exact hwf
  | none =>
    cases hv : jsonMarshal sc ⟨id, name, isActive, rating, none⟩ with
    | error e =>
      have : CreateHotel sc (memStub Value) id name isActive rating s =
          (.error (.json e), s) := by
        unfold CreateHotel
        rw [HotelExists_mem_nested]
        simp [hs, hv]
      rw [this]; exact hwf
    | ok v =>
      rw [CreateHotel_absent_nested sc s id name isActive rating v hs hv]
      exact Store.WF_put s id v hwf

theorem UpdateHotel_WF_nested (sc : Strconv) (s : Store Value) (id name : String)
    (isActive : Bool) (rating : Float32) (hwf : s.WF) :
    (UpdateHotel sc (memStub Value) id name isActive rating s).2.WF := by
  cases hs : s.get id with
  | none => rw [UpdateHotel_absent_nested sc s id name isActive rating hs]; exact hwf
  | some v0 =>
    cases hv : jsonMarshal sc ⟨id, name, isActive, rating, none⟩ with
    | error e =>
      have : UpdateHotel sc (memStub Value) id name isActive rating s =
          (.error (.json e), s) := by
        unfold UpdateHotel
        rw [HotelExists_mem_nested]
        simp [hs, hv]
      rw [this]; exact hwf
    | ok v =>
      rw [UpdateHotel_present_nested sc s id name isActive rating v0 v hs hv]
      exact Store.WF_put s id v hwf

theorem DeleteHotel_WF_nested (s : Store Value) (id : String) (hwf : s.WF) :
    (DeleteHotel (memStub Value) id s).2.WF := by
  cases hs : s.get id with
  | none => rw [DeleteHotel_absent_nested s id hs]; exact hwf
  | some v0 => rw [DeleteHotel_present_nested s id v0 hs]; exact Store.WF_del s id hwf

theorem InitLedger_loop_WF_nested (sc : Strconv) (hotels : List Hotel) (s : Store Value)
    (hwf : s.WF) : (InitLedger.loop sc (memStub Value) hotels s).2.WF := by
  induction hotels generalizing s with
  | nil => exact hwf
  | cons h rest ih =>
    cases hv : jsonMarshal sc h with
    | error e => simpa [InitLedger.loop, hv] using hwf
    | ok v =>
      have : InitLedger.loop sc (memStub Value) (h :: rest) s =
          InitLedger.loop sc (memStub Value) rest (s.put h.ID v) := by
        simp [InitLedger.loop, hv, memStub]
      rw [this]
      exact ih (s.put h.ID v) (Store.WF_put s h.ID v hwf)

theorem InitLedger_WF_nested (sc : Strconv) (s : Store Value) (hwf : s.WF) :
    (InitLedger sc (memStub Value) s).2.WF :=
  InitLedger_loop_WF_nested sc seedHotels s hwf

end Smartcontract

/-! ## Creating and reading -/

/-- On texts, in both packages: for every world state in which `id` is absent and every
finite rating, `CreateHotel` succeeds and a following `ReadHotel(id)` returns the hotel
built from exactly these fields, in the nested package with no service levels. -/
theorem CreateHotel_ReadHotel_text (s : Store Chaincode.Value) (t : Store Smartcontract.Value)
    (sc : Smartcontract.Strconv) (id name : String) (isActive : Bool) (rating : Float32)
    (hs : s.get id = none) (ht : t.get id = none) (hfin : rating.isFinite = true) :
    ((Chaincode.CreateHotel (memStub Chaincode.Value) id name isActive rating s).1 = .ok () ∧
      (Chaincode.ReadHotel (memStub Chaincode.Value) id
        (Chaincode.CreateHotel (memStub Chaincode.Value) id name isActive rating s).2).1 =
        .ok { ID := id, Name := name, IsActive := isActive, Rating := rating }) ∧
    ((Smartcontract.CreateHotel sc (memStub Smartcontract.Value) id name isActive rating t).1 =
        .ok () ∧
      (Smartcontract.ReadHotel (memStub Smartcontract.Value) id
        (Smartcontract.CreateHotel sc (memStub Smartcontract.Value) id name isActive rating t).2).1 =
        .ok { ID := id, Name := name, IsActive := isActive, Rating := rating,
              ServiceLevels := none }) := by
  constructor
  · cases hv : Chaincode.jsonMarshal ⟨id, name, isActive, rating⟩ with
    | error e =>
      have := Chaincode.jsonMarshal_ok ⟨id, name, isActive, rating⟩ hfin
      simp [hv, Except.isOk, Except.toBool] at this
    | ok v =>
      rw [Chaincode.CreateHotel_absent s id name isActive rating v hs hv,
        Chaincode.ReadHotel_mem]
      simp [Store.get_put_self, Chaincode.jsonUnmarshal_jsonMarshal _ v hv]
  · cases hv : Smartcontract.jsonMarshal sc ⟨id, name, isActive, rating, none⟩ with
    | error e =>
      have := Smartcontract.jsonMarshal_ok_nested sc id name isActive rating hfin
      simp [hv, Except.isOk, Except.toBool] at this
    | ok v =>
      rw [Smartcontract.CreateHotel_absent_nested sc t id name isActive rating v ht hv,
        Smartcontract.ReadHotel_mem_nested]
      simp [Store.get_put_self,
        Smartcontract.jsonUnmarshal_jsonMarshal_nested sc id name isActive rating v hv]

/-- C2: in both packages, for every world state in which `id` is present, `CreateHotel`
fails with the already-exists error and returns the world state unchanged, so that a
following `ReadHotel(id)` gives what it gave before; and whenever a first `CreateHotel`
on `id` has succeeded, a second one with any other fields fails in the same way and
`ReadHotel(id)` returns the hotel of the first call. -/
theorem create_existing_refused (s s0 : Store Chaincode.Value)
    (t t0 : Store Smartcontract.Value) (sc : Smartcontract.Strconv)
    (id name name2 : String) (isActive isActive2 : Bool) (rating rating2 : Float32)
    (v : Chaincode.Value) (u : Smartcontract.Value)
    (hs : s.get id = some v) (ht : t.get id = some u)
    (hfirst : (Chaincode.CreateHotel (memStub Chaincode.Value) id name isActive rating s0).1 =
      .ok ())
    (hfirst2 : (Smartcontract.CreateHotel sc (memStub Smartcontract.Value) id name isActive
      rating t0).1 = .ok ()) :
    (Chaincode.CreateHotel (memStub Chaincode.Value) id name isActive rating s =
        (.error (errAlreadyExists id), s) ∧
      Chaincode.ReadHotel (memStub Chaincode.Value) id
        (Chaincode.CreateHotel (memStub Chaincode.Value) id name isActive rating s).2 =
        Chaincode.ReadHotel (memStub Chaincode.Value) id s) ∧
    (Chaincode.CreateHotel (memStub Chaincode.Value) id name2 isActive2 rating2
        (Chaincode.CreateHotel (memStub Chaincode.Value) id name isActive rating s0).2 =
        (.error (errAlreadyExists id),
          (Chaincode.CreateHotel (memStub Chaincode.Value) id name isActive rating s0).2) ∧
      (Chaincode.ReadHotel (memStub Chaincode.Value) id
        (Chaincode.CreateHotel (memStub Chaincode.Value) id name2 isActive2 rating2
          (Chaincode.CreateHotel (memStub Chaincode.Value) id name isActive rating s0).2).2).1 =
        .ok { ID := id, Name := name, IsActive := isActive, Rating := rating }) ∧
    (Smartcontract.CreateHotel sc (memStub Smartcontract.Value) id name isActive rating t =
        (.error (errAlreadyExists id), t) ∧
      Smartcontract.ReadHotel (memStub Smartcontract.Value) id
        (Smartcontract.CreateHotel sc (memStub Smartcontract.Value) id name isActive rating t).2 =
        Smartcontract.ReadHotel (memStub Smartcontract.Value) id t) ∧
    (Smartcontract.CreateHotel sc (memStub Smartcontract.Value) id name2 isActive2 rating2
        (Smartcontract.CreateHotel sc (memStub Smartcontract.Value) id name isActive rating t0).2 =
        (.error (errAlreadyExists id),
          (Smartcontract.CreateHotel sc (memStub Smartcontract.Value) id name isActive rating
            t0).2) ∧
      (Smartcontract.ReadHotel (memStub Smartcontract.Value) id
        (Smartcontract.CreateHotel sc (memStub Smartcontract.Value) id name2 isActive2 rating2
          (Smartcontract.CreateHotel sc (memStub Smartcontract.Value) id name isActive rating
            t0).2).2).1 =
        .ok { ID := id, Name := name, IsActive := isActive, Rating := rating,
              ServiceLevels := none }) := by
  refine ⟨?_, ?_, ?_, ?_⟩
  · rw [Chaincode.CreateHotel_present s id name isActive rating v hs]
    exact ⟨rfl, rfl⟩
  · obtain ⟨w, _, hw, hput⟩ := Chaincode.CreateHotel_ok s0 id name isActive rating hfirst
    have hget : (s0.put id w).get id = some w := Store.get_put_self s0 id w
    rw [hput, Chaincode.CreateHotel_present _ id name2 isActive2 rating2 w hget,
      Chaincode.ReadHotel_mem]
    simp [hget, Chaincode.jsonUnmarshal_jsonMarshal _ w hw]
  · rw [Smartcontract.CreateHotel_present_nested sc t id name isActive rating u ht]
    exact ⟨rfl, rfl⟩
  · obtain ⟨w, _, hw, hput⟩ := Smartcontract.CreateHotel_ok_nested sc t0 id name isActive rating hfirst2
    have hget : (t0.put id w).get id = some w := Store.get_put_self t0 id w
    rw [hput, Smartcontract.CreateHotel_present_nested sc _ id name2 isActive2 rating2 w hget,
      Smartcontract.ReadHotel_mem_nested]
    simp [hget, Smartcontract.jsonUnmarshal_jsonMarshal_nested sc id name isActive rating w hw]

/-- Witness of C2: scenario 3 of the specification. With `"5"` stored, `CreateHotel("5",
"Legend Saigon", true, 8.1)` is refused; and on the empty world state that call succeeds,
after which `CreateHotel("5", "Milan", false, 4.5)` is refused and `ReadHotel("5")`
returns the hotel of the first call. -/
theorem create_existing_refused_witness :
    (Store.get [("5", Chaincode.legendSaigon)] "5" = some Chaincode.legendSaigon ∧
      Store.get [("5", Smartcontract.legendSaigon)] "5" = some Smartcontract.legendSaigon ∧
      (Chaincode.CreateHotel (memStub Chaincode.Value) "5" "Legend Saigon" true
        Float32.lit_8_1 []).1 = .ok () ∧
      (Smartcontract.CreateHotel Smartcontract.plainStrconv (memStub Smartcontract.Value) "5"
        "Legend Saigon" true Float32.lit_8_1 []).1 = .ok ()) ∧
    (Chaincode.CreateHotel (memStub Chaincode.Value) "5" "Legend Saigon" true Float32.lit_8_1
        [("5", Chaincode.legendSaigon)] =
        (.error (errAlreadyExists "5"), [("5", Chaincode.legendSaigon)]) ∧
      Chaincode.ReadHotel (memStub Chaincode.Value) "5"
        (Chaincode.CreateHotel (memStub Chaincode.Value) "5" "Legend Saigon" true
          Float32.lit_8_1 [("5", Chaincode.legendSaigon)]).2 =
        Chaincode.ReadHotel (memStub Chaincode.Value) "5" [("5", Chaincode.legendSaigon)]) ∧
    (Chaincode.CreateHotel (memStub Chaincode.Value) "5" "Milan" false Float32.lit_4_5
        (Chaincode.CreateHotel (memStub Chaincode.Value) "5" "Legend Saigon" true
          Float32.lit_8_1 []).2 =
        (.error (errAlreadyExists "5"),
          (Chaincode.CreateHotel (memStub Chaincode.Value) "5" "Legend Saigon" true
            Float32.lit_8_1 []).2) ∧
      (Chaincode.ReadHotel (memStub Chaincode.Value) "5"
        (Chaincode.CreateHotel (memStub Chaincode.Value) "5" "Milan" false Float32.lit_4_5
          (Chaincode.CreateHotel (memStub Chaincode.Value) "5" "Legend Saigon" true
            Float32.lit_8_1 []).2).2).1 =
        .ok { ID := "5", Name := "Legend Saigon", IsActive := true,
              Rating := Float32.lit_8_1 }) ∧
    (Smartcontract.CreateHotel Smartcontract.plainStrconv (memStub Smartcontract.Value) "5"
        "Legend Saigon" true Float32.lit_8_1 [("5", Smartcontract.legendSaigon)] =
        (.error (errAlreadyExists "5"), [("5", Smartcontract.legendSaigon)]) ∧
      Smartcontract.ReadHotel (memStub Smartcontract.Value) "5"
        (Smartcontract.CreateHotel Smartcontract.plainStrconv (memStub Smartcontract.Value) "5"
          "Legend Saigon" true Float32.lit_8_1 [("5", Smartcontract.legendSaigon)]).2 =
        Smartcontract.ReadHotel (memStub Smartcontract.Value) "5"
          [("5", Smartcontract.legendSaigon)]) ∧
    (Smartcontract.CreateHotel Smartcontract.plainStrconv (memStub Smartcontract.Value) "5"
        "Milan" false Float32.lit_4_5
        (Smartcontract.CreateHotel Smartcontract.plainStrconv (memStub Smartcontract.Value) "5"
          "Legend Saigon" true Float32.lit_8_1 []).2 =
        (.error (errAlreadyExists "5"),
          (Smartcontract.CreateHotel Smartcontract.plainStrconv (memStub Smartcontract.Value)
            "5" "Legend Saigon" true Float32.lit_8_1 []).2) ∧
      (Smartcontract.ReadHotel (memStub Smartcontract.Value) "5"
        (Smartcontract.CreateHotel Smartcontract.plainStrconv (memStub Smartcontract.Value) "5"
          "Milan" false Float32.lit_4_5
          (Smartcontract.CreateHotel Smartcontract.plainStrconv (memStub Smartcontract.Value)
            "5" "Legend Saigon" true Float32.lit_8_1 []).2).2).1 =
        .ok { ID := "5", Name := "Legend Saigon", IsActive := true,
              Rating := Float32.lit_8_1, ServiceLevels := none }) :=
  ⟨⟨rfl, rfl, rfl, rfl⟩,
    create_existing_refused [("5", Chaincode.legendSaigon)] []
      [("5", Smartcontract.legendSaigon)] [] Smartcontract.plainStrconv
      "5" "Legend Saigon" "Milan" true false Float32.lit_8_1 Float32.lit_4_5
      Chaincode.legendSaigon Smartcontract.legendSaigon rfl rfl rfl rfl⟩

/-! ## Updating and deleting what is not there -/

/-- C3: in both packages, for every world state in which `id` is absent, the empty one
included, `UpdateHotel(id, ...)` and `DeleteHotel(id)` both fail with the not-found error
and return the world state unchanged. -/
theorem update_delete_absent (s : Store Chaincode.Value) (t : Store Smartcontract.Value)
    (sc : Smartcontract.Strconv) (id name : String) (isActive : Bool) (rating : Float32)
    (hs : s.get id = none) (ht : t.get id = none) :
    (Chaincode.UpdateHotel (memStub Chaincode.Value) id name isActive rating s =
        (.error (errNotFound id), s) ∧
      Chaincode.DeleteHotel (memStub Chaincode.Value) id s = (.error (errNotFound id), s)) ∧
    (Smartcontract.UpdateHotel sc (memStub Smartcontract.Value) id name isActive rating t =
        (.error (errNotFound id), t) ∧
      Smartcontract.DeleteHotel (memStub Smartcontract.Value) id t =
        (.error (errNotFound id), t)) :=
  ⟨⟨Chaincode.UpdateHotel_absent s id name isActive rating hs,
      Chaincode.DeleteHotel_absent s id hs⟩,
    ⟨Smartcontract.UpdateHotel_absent_nested sc t id name isActive rating ht,
      Smartcontract.DeleteHotel_absent_nested t id ht⟩⟩

/-- Witness of C3: scenario 4 of the specification, `DeleteHotel("missing")` and
`UpdateHotel("missing", ...)` on the empty world state. -/
theorem update_delete_absent_witness :
    (Store.get ([] : Store Chaincode.Value) "missing" = none ∧
      Store.get ([] : Store Smartcontract.Value) "missing" = none) ∧
    (Chaincode.UpdateHotel (memStub Chaincode.Value) "missing" "Roma" true Float32.lit_4_2 [] =
        (.error (errNotFound "missing"), []) ∧
      Chaincode.DeleteHotel (memStub Chaincode.Value) "missing" [] =
        (.error (errNotFound "missing"), [])) ∧
    (Smartcontract.UpdateHotel Smartcontract.plainStrconv (memStub Smartcontract.Value)
        "missing" "Roma" true Float32.lit_4_2 [] = (.error (errNotFound "missing"), []) ∧
      Smartcontract.DeleteHotel (memStub Smartcontract.Value) "missing" [] =
        (.error (errNotFound "missing"), [])) :=
  ⟨⟨rfl, rfl⟩,
    update_delete_absent [] [] Smartcontract.plainStrconv "missing" "Roma" true
      Float32.lit_4_2 rfl rfl⟩

/-! ## Existence before and after -/

/-- C4: in both packages, for every world state and id: when `CreateHotel(id, ...)`
succeeds, `HotelExists(id)` was false before it and is true after it; and when
`HotelExists(id)` is true, `DeleteHotel(id)` succeeds, after which `HotelExists(id)` is
false and `ReadHotel(id)` fails with the not-found error. -/
theorem exists_flips (s s0 : Store Chaincode.Value) (t t0 : Store Smartcontract.Value)
    (sc : Smartcontract.Strconv) (id name : String) (isActive : Bool) (rating : Float32)
    (hcreate : (Chaincode.CreateHotel (memStub Chaincode.Value) id name isActive rating s0).1 =
      .ok ())
    (hyes : (Chaincode.HotelExists (memStub Chaincode.Value) id s).1 = .ok true)
    (hcreate2 : (Smartcontract.CreateHotel sc (memStub Smartcontract.Value) id name isActive
      rating t0).1 = .ok ())
    (hyes2 : (Smartcontract.HotelExists (memStub Smartcontract.Value) id t).1 = .ok true) :
    ((Chaincode.HotelExists (memStub Chaincode.Value) id s0).1 = .ok false ∧
      (Chaincode.HotelExists (memStub Chaincode.Value) id
        (Chaincode.CreateHotel (memStub Chaincode.Value) id name isActive rating s0).2).1 =
        .ok true ∧
      (Chaincode.DeleteHotel (memStub Chaincode.Value) id s).1 = .ok () ∧
      (Chaincode.HotelExists (memStub Chaincode.Value) id
        (Chaincode.DeleteHotel (memStub Chaincode.Value) id s).2).1 = .ok false ∧
      (Chaincode.ReadHotel (memStub Chaincode.Value) id
        (Chaincode.DeleteHotel (memStub Chaincode.Value) id s).2).1 =
        .error (errNotFound id)) ∧
    ((Smartcontract.HotelExists (memStub Smartcontract.Value) id t0).1 = .ok false ∧
      (Smartcontract.HotelExists (memStub Smartcontract.Value) id
        (Smartcontract.CreateHotel sc (memStub Smartcontract.Value) id name isActive rating
          t0).2).1 = .ok true ∧
      (Smartcontract.DeleteHotel (memStub Smartcontract.Value) id t).1 = .ok () ∧
      (Smartcontract.HotelExists (memStub Smartcontract.Value) id
        (Smartcontract.DeleteHotel (memStub Smartcontract.Value) id t).2).1 = .ok false ∧
      (Smartcontract.ReadHotel (memStub Smartcontract.Value) id
        (Smartcontract.DeleteHotel (memStub Smartcontract.Value) id t).2).1 =
        .error (errNotFound id)) := by
  constructor
  · obtain ⟨w, habs, _, hput⟩ := Chaincode.CreateHotel_ok s0 id name isActive rating hcreate
    refine ⟨by simp [Chaincode.HotelExists_mem, habs],
      by simp [hput, Chaincode.HotelExists_mem, Store.get_put_self], ?_⟩
    cases hs : s.get id with
    | none => simp [Chaincode.HotelExists_mem, hs] at hyes
    | some v =>
      rw [Chaincode.DeleteHotel_present s id v hs]
      simp [Chaincode.HotelExists_mem, Chaincode.ReadHotel_mem, Store.get_del_self]
  · obtain ⟨w, habs, _, hput⟩ :=
      Smartcontract.CreateHotel_ok_nested sc t0 id name isActive rating hcreate2
    refine ⟨by simp [Smartcontract.HotelExists_mem_nested, habs],
      by simp [hput, Smartcontract.HotelExists_mem_nested, Store.get_put_self], ?_⟩
    cases ht : t.get id with
    | none => simp [Smartcontract.HotelExists_mem_nested, ht] at hyes2
    | some v =>
      rw [Smartcontract.DeleteHotel_present_nested t id v ht]
      simp [Smartcontract.HotelExists_mem_nested, Smartcontract.ReadHotel_mem_nested, Store.get_del_self]

/-- Witness of C4: `"5"` is created on the empty world state, and deleted from the world
state that holds it. -/
theorem exists_flips_witness :
    ((Chaincode.CreateHotel (memStub Chaincode.Value) "5" "Legend Saigon" true
        Float32.lit_8_1 []).1 = .ok () ∧
      (Chaincode.HotelExists (memStub Chaincode.Value) "5"
        [("5", Chaincode.legendSaigon)]).1 = .ok true ∧
      (Smartcontract.CreateHotel Smartcontract.plainStrconv (memStub Smartcontract.Value) "5"
        "Legend Saigon" true Float32.lit_8_1 []).1 = .ok () ∧
      (Smartcontract.HotelExists (memStub Smartcontract.Value) "5"
        [("5", Smartcontract.legendSaigon)]).1 = .ok true) ∧
    ((Chaincode.HotelExists (memStub Chaincode.Value) "5" []).1 = .ok false ∧
      (Chaincode.HotelExists (memStub Chaincode.Value) "5"
        (Chaincode.CreateHotel (memStub Chaincode.Value) "5" "Legend Saigon" true
          Float32.lit_8_1 []).2).1 = .ok true ∧
      (Chaincode.DeleteHotel (memStub Chaincode.Value) "5"
        [("5", Chaincode.legendSaigon)]).1 = .ok () ∧
      (Chaincode.HotelExists (memStub Chaincode.Value) "5"
        (Chaincode.DeleteHotel (memStub Chaincode.Value) "5"
          [("5", Chaincode.legendSaigon)]).2).1 = .ok false ∧
      (Chaincode.ReadHotel (memStub Chaincode.Value) "5"
        (Chaincode.DeleteHotel (memStub Chaincode.Value) "5"
          [("5", Chaincode.legendSaigon)]).2).1 = .error (errNotFound "5")) ∧
    ((Smartcontract.HotelExists (memStub Smartcontract.Value) "5" []).1 = .ok false ∧
      (Smartcontract.HotelExists (memStub Smartcontract.Value) "5"
        (Smartcontract.CreateHotel Smartcontract.plainStrconv (memStub Smartcontract.Value) "5"
          "Legend Saigon" true Float32.lit_8_1 []).2).1 = .ok true ∧
      (Smartcontract.DeleteHotel (memStub Smartcontract.Value) "5"
        [("5", Smartcontract.legendSaigon)]).1 = .ok () ∧
      (Smartcontract.HotelExists (memStub Smartcontract.Value) "5"
        (Smartcontract.DeleteHotel (memStub Smartcontract.Value) "5"
          [("5", Smartcontract.legendSaigon)]).2).1 = .ok false ∧
      (Smartcontract.ReadHotel (memStub Smartcontract.Value) "5"
        (Smartcontract.DeleteHotel (memStub Smartcontract.Value) "5"
          [("5", Smartcontract.legendSaigon)]).2).1 = .error (errNotFound "5")) :=
  ⟨⟨rfl, rfl, rfl, rfl⟩,
    exists_flips [("5", Chaincode.legendSaigon)] [] [("5", Smartcontract.legendSaigon)] []
      Smartcontract.plainStrconv "5" "Legend Saigon" true Float32.lit_8_1 rfl rfl rfl rfl⟩


/-! ## Listing the world state -/

/-- C5: in both packages, for every world state (keys strictly ascending) whose values
all decode, `GetAllHotels` returns a list with exactly one element per stored key: the
list is as long as the list of stored keys, a key is in that list exactly when the world
state holds a value for it, the keys are met in ascending order, and the element at each
position is the decoding of the value stored under the key at that position. -/
theorem get_all_lists_the_store (s : Store Chaincode.Value) (t : Store Smartcontract.Value)
    (hs : s.WF) (ht : t.WF)
    (hsdec : ∀ kv ∈ s, ∃ h, Chaincode.jsonUnmarshal kv.2 = .ok h)
    (htdec : ∀ kv ∈ t, ∃ h, Smartcontract.jsonUnmarshal kv.2 = .ok h) :
    (∃ hotels, (Chaincode.GetAllHotels (memStub Chaincode.Value) s).1 = .ok hotels ∧
      hotels.length = s.keys.length ∧
      (∀ key, key ∈ s.keys ↔ s.get key ≠ none) ∧
      (∀ (i j : Nat) (a b : String), i < j → s.keys[i]? = some a → s.keys[j]? = some b → a < b) ∧
      (∀ (i : Nat) (key : String), s.keys[i]? = some key →
        ∃ v h, s.get key = some v ∧ Chaincode.jsonUnmarshal v = .ok h ∧ hotels[i]? = some h)) ∧
    (∃ hotels, (Smartcontract.GetAllHotels (memStub Smartcontract.Value) t).1 = .ok hotels ∧
      hotels.length = t.keys.length ∧
      (∀ key, key ∈ t.keys ↔ t.get key ≠ none) ∧
      (∀ (i j : Nat) (a b : String), i < j → t.keys[i]? = some a → t.keys[j]? = some b → a < b) ∧
      (∀ (i : Nat) (key : String), t.keys[i]? = some key →
        ∃ v h, t.get key = some v ∧ Smartcontract.jsonUnmarshal v = .ok h ∧
          hotels[i]? = some h)) := by
  constructor
  · obtain ⟨hotels, hloop, hmap⟩ := Chaincode.GetAllHotels_loop_ok s [] hsdec
    have hlist := Store.listing s Chaincode.jsonUnmarshal hotels hs hmap
    refine ⟨hotels, ?_, hlist.1, Store.mem_keys_iff s, Store.keys_ascending s hs, hlist.2⟩
    rw [Chaincode.GetAllHotels_mem, hloop]
    rfl
  · obtain ⟨hotels, hloop, hmap⟩ := Smartcontract.GetAllHotels_loop_ok_nested t [] htdec
    have hlist := Store.listing t Smartcontract.jsonUnmarshal hotels ht hmap
    refine ⟨hotels, ?_, hlist.1, Store.mem_keys_iff t, Store.keys_ascending t ht, hlist.2⟩
    rw [Smartcontract.GetAllHotels_mem_nested, hloop]
    rfl

/-- Witness of C5: the world states left by `InitLedger` on the empty one, three hotels
in the flat package and one in the nested package. -/
theorem get_all_lists_the_store_witness :
    (Chaincode.seeded.WF ∧ Smartcontract.seeded.WF ∧
      (∀ kv ∈ Chaincode.seeded, ∃ h, Chaincode.jsonUnmarshal kv.2 = .ok h) ∧
      (∀ kv ∈ Smartcontract.seeded, ∃ h, Smartcontract.jsonUnmarshal kv.2 = .ok h)) ∧
    (∃ hotels,
      (Chaincode.GetAllHotels (memStub Chaincode.Value) Chaincode.seeded).1 = .ok hotels ∧
      hotels.length = Chaincode.seeded.keys.length ∧
      (∀ key, key ∈ Chaincode.seeded.keys ↔ Chaincode.seeded.get key ≠ none) ∧
      (∀ (i j : Nat) (a b : String), i < j → Chaincode.seeded.keys[i]? = some a →
        Chaincode.seeded.keys[j]? = some b → a < b) ∧
      (∀ (i : Nat) (key : String), Chaincode.seeded.keys[i]? = some key →
        ∃ v h, Chaincode.seeded.get key = some v ∧ Chaincode.jsonUnmarshal v = .ok h ∧
          hotels[i]? = some h)) ∧
    (∃ hotels,
      (Smartcontract.GetAllHotels (memStub Smartcontract.Value) Smartcontract.seeded).1 =
        .ok hotels ∧
      hotels.length = Smartcontract.seeded.keys.length ∧
      (∀ key, key ∈ Smartcontract.seeded.keys ↔ Smartcontract.seeded.get key ≠ none) ∧
      (∀ (i j : Nat) (a b : String), i < j → Smartcontract.seeded.keys[i]? = some a →
        Smartcontract.seeded.keys[j]? = some b → a < b) ∧
      (∀ (i : Nat) (key : String), Smartcontract.seeded.keys[i]? = some key →
        ∃ v h, Smartcontract.seeded.get key = some v ∧ Smartcontract.jsonUnmarshal v = .ok h ∧
          hotels[i]? = some h)) :=
  have hs : Chaincode.seeded.WF :=
    Store.WF_put _ _ _ (Store.WF_put _ _ _ (Store.WF_put _ _ _ Store.WF_nil))
  have ht : Smartcontract.seeded.WF := Store.WF_put _ _ _ Store.WF_nil
  have hsdec : ∀ kv ∈ Chaincode.seeded, ∃ h, Chaincode.jsonUnmarshal kv.2 = .ok h := by
    intro kv hkv
    rcases List.mem_cons.mp hkv with rfl | hkv
    · exact ⟨_, rfl⟩
    rcases List.mem_cons.mp hkv with rfl | hkv
    · exact ⟨_, rfl⟩
    rcases List.mem_cons.mp hkv with rfl | hkv
    · exact ⟨_, rfl⟩
    cases hkv
  have htdec : ∀ kv ∈ Smartcontract.seeded, ∃ h, Smartcontract.jsonUnmarshal kv.2 = .ok h := by
    intro kv hkv
    rcases List.mem_cons.mp hkv with rfl | hkv
    · exact ⟨_, rfl⟩
    cases hkv
  ⟨⟨hs, ht, hsdec, htdec⟩,
    get_all_lists_the_store Chaincode.seeded Smartcontract.seeded hs ht hsdec htdec⟩


/-! ## Updating -/

/-- On texts, in both packages: for every world state in which `id` is present and every
finite rating, `UpdateHotel` succeeds and a following `ReadHotel(id)` returns the hotel
built wholly from the given fields, whatever was stored before. -/
theorem UpdateHotel_ReadHotel_text (s : Store Chaincode.Value) (t : Store Smartcontract.Value)
    (sc : Smartcontract.Strconv) (id name : String) (isActive : Bool) (rating : Float32)
    (hs : (s.get id).isSome = true) (ht : (t.get id).isSome = true)
    (hfin : rating.isFinite = true) :
    ((Chaincode.UpdateHotel (memStub Chaincode.Value) id name isActive rating s).1 = .ok () ∧
      (Chaincode.ReadHotel (memStub Chaincode.Value) id
        (Chaincode.UpdateHotel (memStub Chaincode.Value) id name isActive rating s).2).1 =
        .ok { ID := id, Name := name, IsActive := isActive, Rating := rating }) ∧
    ((Smartcontract.UpdateHotel sc (memStub Smartcontract.Value) id name isActive rating t).1 =
        .ok () ∧
      (Smartcontract.ReadHotel (memStub Smartcontract.Value) id
        (Smartcontract.UpdateHotel sc (memStub Smartcontract.Value) id name isActive rating t).2).1 =
        .ok { ID := id, Name := name, IsActive := isActive, Rating := rating,
              ServiceLevels := none }) := by
  constructor
  · obtain ⟨v0, hv0⟩ := Option.isSome_iff_exists.mp hs
    cases hv : Chaincode.jsonMarshal ⟨id, name, isActive, rating⟩ with
    | error e =>
      have := Chaincode.jsonMarshal_ok ⟨id, name, isActive, rating⟩ hfin
      simp [hv, Except.isOk, Except.toBool] at this
    | ok v =>
      rw [Chaincode.UpdateHotel_present s id name isActive rating v0 v hv0 hv,
        Chaincode.ReadHotel_mem]
      simp [Store.get_put_self, Chaincode.jsonUnmarshal_jsonMarshal _ v hv]
  · obtain ⟨u0, hu0⟩ := Option.isSome_iff_exists.mp ht
    cases hv : Smartcontract.jsonMarshal sc ⟨id, name, isActive, rating, none⟩ with
    | error e =>
      have := Smartcontract.jsonMarshal_ok_nested sc id name isActive rating hfin
      simp [hv, Except.isOk, Except.toBool] at this
    | ok v =>
      rw [Smartcontract.UpdateHotel_present_nested sc t id name isActive rating u0 v hu0 hv,
        Smartcontract.ReadHotel_mem_nested]
      simp [Store.get_put_self,
        Smartcontract.jsonUnmarshal_jsonMarshal_nested sc id name isActive rating v hv]

/-! ## Reading and existence -/

/-- C7: in both packages the outcome of `ReadHotel(id)` is decided by the value stored
at `id` alone, in three cases: no value gives the not-found error; a value that does not
decode gives the error of the decoder; a value that decodes gives the decoded hotel. An
error of the decoder is never the not-found error. The world state is returned as it
was. -/
theorem read_outcomes (s : Store Chaincode.Value) (t : Store Smartcontract.Value)
    (id : String) :
    Chaincode.ReadHotel (memStub Chaincode.Value) id s =
      (match s.get id with
        | none => .error (errNotFound id)
        | some v =>
          match Chaincode.jsonUnmarshal v with
          | .error e => .error (.json e)
          | .ok h => .ok h, s) ∧
    Smartcontract.ReadHotel (memStub Smartcontract.Value) id t =
      (match t.get id with
        | none => .error (errNotFound id)
        | some v =>
          match Smartcontract.jsonUnmarshal v with
          | .error e => .error (.json e)
          | .ok h => .ok h, t) ∧
    ∀ e : JsonError, Error.json e ≠ errNotFound id :=
  ⟨Chaincode.ReadHotel_mem s id, Smartcontract.ReadHotel_mem_nested t id,
    fun _ h => Error.noConfusion h⟩

/-- C8: in both packages `HotelExists(id)` returns true exactly when the world state
holds a value at `id`, and it does not decode that value: where `id` holds bytes that
do not decode, `HotelExists` is true, `CreateHotel` is refused with the already-exists
error, `DeleteHotel` succeeds, and `ReadHotel` fails with the error of the decoder. -/
theorem exists_is_presence (s b : Store Chaincode.Value) (t c : Store Smartcontract.Value)
    (sc : Smartcontract.Strconv) (id name : String) (isActive : Bool) (rating : Float32)
    (v : Chaincode.Value) (u : Smartcontract.Value) (e e2 : JsonError)
    (hb : b.get id = some v) (hv : Chaincode.jsonUnmarshal v = .error e)
    (hc : c.get id = some u) (hu : Smartcontract.jsonUnmarshal u = .error e2) :
    (Chaincode.HotelExists (memStub Chaincode.Value) id s = (.ok (s.get id).isSome, s) ∧
      Smartcontract.HotelExists (memStub Smartcontract.Value) id t =
        (.ok (t.get id).isSome, t)) ∧
    ((Chaincode.HotelExists (memStub Chaincode.Value) id b).1 = .ok true ∧
      Chaincode.CreateHotel (memStub Chaincode.Value) id name isActive rating b =
        (.error (errAlreadyExists id), b) ∧
      (Chaincode.DeleteHotel (memStub Chaincode.Value) id b).1 = .ok () ∧
      (Chaincode.ReadHotel (memStub Chaincode.Value) id b).1 = .error (.json e)) ∧
    ((Smartcontract.HotelExists (memStub Smartcontract.Value) id c).1 = .ok true ∧
      Smartcontract.CreateHotel sc (memStub Smartcontract.Value) id name isActive rating c =
        (.error (errAlreadyExists id), c) ∧
      (Smartcontract.DeleteHotel (memStub Smartcontract.Value) id c).1 = .ok () ∧
      (Smartcontract.ReadHotel (memStub Smartcontract.Value) id c).1 = .error (.json e2)) := by
  refine ⟨⟨Chaincode.HotelExists_mem s id, Smartcontract.HotelExists_mem_nested t id⟩, ⟨?_, ?_, ?_, ?_⟩,
    ⟨?_, ?_, ?_, ?_⟩⟩
  · simp [Chaincode.HotelExists_mem, hb]
  · exact Chaincode.CreateHotel_present b id name isActive rating v hb
  · rw [Chaincode.DeleteHotel_present b id v hb]
  · simp [Chaincode.ReadHotel_mem, hb, hv]
  · simp [Smartcontract.HotelExists_mem_nested, hc]
  · exact Smartcontract.CreateHotel_present_nested sc c id name isActive rating u hc
  · rw [Smartcontract.DeleteHotel_present_nested c id u hc]
  · simp [Smartcontract.ReadHotel_mem_nested, hc, hu]

/-- Witness of C8: the key `"6"` holds bytes that are not JSON. -/
theorem exists_is_presence_witness :
    (Chaincode.spoiled.get "6" = some (.malformed [123, 34, 105, 100]) ∧
      Chaincode.jsonUnmarshal (.malformed [123, 34, 105, 100]) = .error .SyntaxError ∧
      Smartcontract.spoiled.get "6" = some (.malformed [123, 34, 105, 100]) ∧
      Smartcontract.jsonUnmarshal (.malformed [123, 34, 105, 100]) = .error .SyntaxError) ∧
    (Chaincode.HotelExists (memStub Chaincode.Value) "6" [] =
        (.ok (Store.get ([] : Store Chaincode.Value) "6").isSome, []) ∧
      Smartcontract.HotelExists (memStub Smartcontract.Value) "6" [] =
        (.ok (Store.get ([] : Store Smartcontract.Value) "6").isSome, [])) ∧
    ((Chaincode.HotelExists (memStub Chaincode.Value) "6" Chaincode.spoiled).1 = .ok true ∧
      Chaincode.CreateHotel (memStub Chaincode.Value) "6" "Roma" true Float32.lit_4_2
        Chaincode.spoiled = (.error (errAlreadyExists "6"), Chaincode.spoiled) ∧
      (Chaincode.DeleteHotel (memStub Chaincode.Value) "6" Chaincode.spoiled).1 = .ok () ∧
      (Chaincode.ReadHotel (memStub Chaincode.Value) "6" Chaincode.spoiled).1 =
        .error (.json .SyntaxError)) ∧
    ((Smartcontract.HotelExists (memStub Smartcontract.Value) "6" Smartcontract.spoiled).1 =
        .ok true ∧
      Smartcontract.CreateHotel Smartcontract.plainStrconv (memStub Smartcontract.Value) "6"
        "Roma" true Float32.lit_4_2 Smartcontract.spoiled =
        (.error (errAlreadyExists "6"), Smartcontract.spoiled) ∧
      (Smartcontract.DeleteHotel (memStub Smartcontract.Value) "6" Smartcontract.spoiled).1 =
        .ok () ∧
      (Smartcontract.ReadHotel (memStub Smartcontract.Value) "6" Smartcontract.spoiled).1 =
        .error (.json .SyntaxError)) :=
  ⟨⟨rfl, rfl, rfl, rfl⟩,
    exists_is_presence [] Chaincode.spoiled [] Smartcontract.spoiled Smartcontract.plainStrconv
      "6" "Roma" true Float32.lit_4_2 (.malformed [123, 34, 105, 100])
      (.malformed [123, 34, 105, 100]) .SyntaxError .SyntaxError rfl rfl rfl rfl⟩


/-! ## Listing a world state that does not decode, and the seeds -/

/-- C9: in both packages, for every world state in which at least one stored value
fails to decode, wherever it stands in key order, `GetAllHotels` returns an error, the
error of the decoder, and no list. -/
theorem get_all_aborts (s : Store Chaincode.Value) (t : Store Smartcontract.Value)
    (hs : ∃ kv ∈ s, ∃ e, Chaincode.jsonUnmarshal kv.2 = .error e)
    (ht : ∃ kv ∈ t, ∃ e, Smartcontract.jsonUnmarshal kv.2 = .error e) :
    (∃ e, (Chaincode.GetAllHotels (memStub Chaincode.Value) s).1 = .error (.json e)) ∧
    (∃ e, (Smartcontract.GetAllHotels (memStub Smartcontract.Value) t).1 = .error (.json e)) := by
  constructor
  · obtain ⟨e, he⟩ := Chaincode.GetAllHotels_loop_error s [] hs
    exact ⟨e, by rw [Chaincode.GetAllHotels_mem, he]⟩
  · obtain ⟨e, he⟩ := Smartcontract.GetAllHotels_loop_error_nested t [] ht
    exact ⟨e, by rw [Smartcontract.GetAllHotels_mem_nested, he]⟩

/-- Witness of C9: three stored keys, the second holding bytes that are not JSON, after
a first value that decodes. -/
theorem get_all_aborts_witness :
    ((∃ kv ∈ Chaincode.spoiled, ∃ e, Chaincode.jsonUnmarshal kv.2 = .error e) ∧
      (∃ kv ∈ Smartcontract.spoiled, ∃ e, Smartcontract.jsonUnmarshal kv.2 = .error e)) ∧
    (∃ e, (Chaincode.GetAllHotels (memStub Chaincode.Value) Chaincode.spoiled).1 =
      .error (.json e)) ∧
    (∃ e, (Smartcontract.GetAllHotels (memStub Smartcontract.Value) Smartcontract.spoiled).1 =
      .error (.json e)) :=
  have hs : ∃ kv ∈ Chaincode.spoiled, ∃ e, Chaincode.jsonUnmarshal kv.2 = .error e :=
    ⟨("6", .malformed [123, 34, 105, 100]), by simp [Chaincode.spoiled], .SyntaxError, rfl⟩
  have ht : ∃ kv ∈ Smartcontract.spoiled, ∃ e, Smartcontract.jsonUnmarshal kv.2 = .error e :=
    ⟨("6", .malformed [123, 34, 105, 100]), by simp [Smartcontract.spoiled], .SyntaxError, rfl⟩
  ⟨⟨hs, ht⟩, get_all_aborts Chaincode.spoiled Smartcontract.spoiled hs ht⟩

/-- C10: in the flat package, `InitLedger` on the empty world state succeeds, and a
following `GetAllHotels` returns exactly the three seed hotels `(hotel1, Venice, true,
5.0)`, `(hotel2, Milan, true, 4.5)`, `(hotel3, Roma, true, 4.2)`, in this order, which is the
order of the keys `hotel1`, `hotel2`, `hotel3` of the world state. -/
theorem init_then_get_all :
    (Chaincode.InitLedger (memStub Chaincode.Value) []).1 = .ok () ∧
    (Chaincode.GetAllHotels (memStub Chaincode.Value)
      (Chaincode.InitLedger (memStub Chaincode.Value) []).2).1 =
      .ok [
        { ID := "hotel1", Name := "Venice", IsActive := true, Rating := Float32.lit_5_0 },
        { ID := "hotel2", Name := "Milan", IsActive := true, Rating := Float32.lit_4_5 },
        { ID := "hotel3", Name := "Roma", IsActive := true, Rating := Float32.lit_4_2 }] ∧
    Store.keys (Chaincode.InitLedger (memStub Chaincode.Value) []).2 =
      ["hotel1", "hotel2", "hotel3"] :=
  ⟨rfl, rfl, rfl⟩

/-! ## The codec on every value -/

theorem foldName_isApplied : foldName "isApplied" = "isapplied" := by decide

theorem foldName_totalFeedbacks : foldName "totalFeedbacks" = "totalfeedbacks" := by decide

theorem foldName_totalUnfulfilledCommitments :
    foldName "totalUnfulfilledCommitments" = "totalunfulfilledcommitments" := by decide

theorem foldName_isAppliedPenalty : foldName "isAppliedPenalty" = "isappliedpenalty" := by decide

theorem foldName_totalCompensations :
    foldName "totalCompensations" = "totalcompensations" := by decide

theorem foldName_totalNoCompensations :
    foldName "totalNoCompensations" = "totalnocompensations" := by decide

theorem foldName_serviceLevelId : foldName "serviceLevelId" = "servicelevelid" := by decide

theorem foldName_hotelId : foldName "hotelId" = "hotelid" := by decide

theorem foldName_isUsed : foldName "isUsed" = "isused" := by decide

theorem foldName_satisfactionRate :
    foldName "satisfactionRate" = "satisfactionrate" := by decide

theorem foldName_ruleAbidingRate : foldName "ruleAbidingRate" = "ruleabidingrate" := by decide

theorem foldName_agreements : foldName "agreements" = "agreements" := by decide

namespace Smartcontract

theorem readPtr_marshalAgreementPtr (sc : Strconv) (p : Option Agreement) :
    readPtr Agreement.zero setAgreementField (marshalAgreementPtr sc p) = .ok p := by
  cases p with
  | none => rfl
  | some a =>
    simp [marshalAgreementPtr, marshalAgreement, readPtr, setFields, setAgreementField,
      foldName_id, foldName_isApplied, foldName_totalFeedbacks,
      foldName_totalUnfulfilledCommitments, foldName_isAppliedPenalty,
      foldName_totalCompensations, foldName_totalNoCompensations, foldName_serviceLevelId,
      foldName_hotelId, Agreement.zero, uintLit, readString, readBool, readUint, Except.map]

theorem readPtrs_marshalAgreementPtrs (sc : Strconv) (ptrs : List (Option Agreement)) :
    readPtrs Agreement.zero setAgreementField (ptrs.map (marshalAgreementPtr sc)) = .ok ptrs := by
  induction ptrs with
  | nil => rfl
  | cons p rest ih => simp [readPtrs, readPtr_marshalAgreementPtr, ih]

theorem readSlice_marshalAgreements (sc : Strconv) (x : Option (List (Option Agreement))) :
    readSlice Agreement.zero setAgreementField (marshalAgreements sc x) = .ok x := by
  cases x with
  | none => rfl
  | some ptrs => simp [marshalAgreements, readSlice, readPtrs_marshalAgreementPtrs]

theorem readPtr_marshalServiceLevelPtr (sc : Strconv) (p : Option ServiceLevel)
    (doc : JSON Number) (hdoc : marshalServiceLevelPtr sc p = .ok doc) :
    readPtr ServiceLevel.zero setServiceLevelField doc = .ok p := by
  cases p with
  | none =>
    cases hdoc
    rfl
  | some l =>
    simp only [marshalServiceLevelPtr, marshalServiceLevel] at hdoc
    split at hdoc
    · cases hdoc
      simp [readPtr, setFields, setServiceLevelField, foldName_id, foldName_name,
        foldName_isUsed, foldName_satisfactionRate, foldName_ruleAbidingRate, foldName_hotelId,
        foldName_agreements, ServiceLevel.zero, floatLit, readString, readBool, readFloat32,
        readSlice_marshalAgreements, Except.map]
    · cases hdoc

theorem readPtrs_marshalServiceLevelPtrs (sc : Strconv) (ptrs : List (Option ServiceLevel))
    (docs : List (JSON Number)) (hdocs : marshalServiceLevelPtrs sc ptrs = .ok docs) :
    readPtrs ServiceLevel.zero setServiceLevelField docs = .ok ptrs := by
  induction ptrs generalizing docs with
  | nil =>
    cases hdocs
    rfl
  | cons p rest ih =>
    simp only [marshalServiceLevelPtrs] at hdocs
    cases hp : marshalServiceLevelPtr sc p with
    | error e => simp [hp] at hdocs
    | ok doc =>
      cases hrest : marshalServiceLevelPtrs sc rest with
      | error e => simp [hp, hrest] at hdocs
      | ok docs1 =>
        simp [hp, hrest] at hdocs
        subst hdocs
        simp [readPtrs, readPtr_marshalServiceLevelPtr sc p doc hp, ih docs1 hrest]

theorem readSlice_marshalServiceLevels (sc : Strconv)
    (x : Option (List (Option ServiceLevel))) (doc : JSON Number)
    (hdoc : marshalServiceLevels sc x = .ok doc) :
    readSlice ServiceLevel.zero setServiceLevelField doc = .ok x := by
  cases x with
  | none =>
    cases hdoc
    rfl
  | some ptrs =>
    simp only [marshalServiceLevels] at hdoc
    cases hptrs : marshalServiceLevelPtrs sc ptrs with
    | error e => simp [hptrs] at hdoc
    | ok docs =>
      simp [hptrs] at hdoc
      subst hdoc
      simp [readSlice, readPtrs_marshalServiceLevelPtrs sc ptrs docs hptrs]

/-- Reading back what `json.Marshal` printed for a hotel gives that hotel. -/
theorem jsonUnmarshal_jsonMarshal_any (sc : Strconv) (h : Hotel) (v : Value)
    (hv : jsonMarshal sc h = .ok v) : jsonUnmarshal v = .ok h := by
  unfold jsonMarshal at hv
  split at hv
  · cases hlv : marshalServiceLevels sc h.ServiceLevels with
    | error e => simp [hlv] at hv
    | ok levels =>
      simp [hlv] at hv
      subst hv
      simp [jsonUnmarshal, setFields, setField, foldName_id, foldName_name, foldName_isActive,
        foldName_rating, foldName_serviceLevels, Hotel.zero, floatLit, readString, readBool,
        readFloat32, readSlice_marshalServiceLevels sc h.ServiceLevels levels hlv, Except.map]
  · cases hv

theorem marshalServiceLevelPtrs_ok (sc : Strconv) (ptrs : List (Option ServiceLevel))
    (hfin : ptrs.all ptrIsFinite = true) : ∃ docs, marshalServiceLevelPtrs sc ptrs = .ok docs := by
  induction ptrs with
  | nil => exact ⟨[], rfl⟩
  | cons p rest ih =>
    simp only [List.all_cons, Bool.and_eq_true] at hfin
    obtain ⟨docs, hdocs⟩ := ih hfin.2
    cases p with
    | none => simp [marshalServiceLevelPtrs, marshalServiceLevelPtr, hdocs]
    | some l =>
      have hl : (l.SatisfactionRate.isFinite && l.RuleAbidingRate.isFinite) = true := hfin.1
      simp [marshalServiceLevelPtrs, marshalServiceLevelPtr, marshalServiceLevel, hl, hdocs]

theorem jsonMarshal_ok_any (sc : Strconv) (h : Hotel) (hfin : h.isFinite = true) :
    ∃ v, jsonMarshal sc h = .ok v := by
  obtain ⟨id, name, isActive, rating, levels⟩ := h
  simp only [Hotel.isFinite, Bool.and_eq_true] at hfin
  cases levels with
  | none => simp [jsonMarshal, hfin.1, marshalServiceLevels]
  | some ptrs =>
    obtain ⟨docs, hdocs⟩ := marshalServiceLevelPtrs_ok sc ptrs hfin.2
    simp [jsonMarshal, hfin.1, marshalServiceLevels, hdocs]

end Smartcontract

/-- On texts: for every flat hotel with a finite rating, and for every nested hotel whose
rating and rates are all finite, `json.Marshal` succeeds and `json.Unmarshal` of its
result returns the same value. -/
theorem jsonUnmarshal_jsonMarshal_text (x : Chaincode.Hotel) (sc : Smartcontract.Strconv)
    (y : Smartcontract.Hotel) (hx : x.Rating.isFinite = true) (hy : y.isFinite = true) :
    (∃ v, Chaincode.jsonMarshal x = .ok v ∧ Chaincode.jsonUnmarshal v = .ok x) ∧
    (∃ v, Smartcontract.jsonMarshal sc y = .ok v ∧ Smartcontract.jsonUnmarshal v = .ok y) := by
  constructor
  · cases hv : Chaincode.jsonMarshal x with
    | error e =>
      have := Chaincode.jsonMarshal_ok x hx
      simp [hv, Except.isOk, Except.toBool] at this
    | ok v => exact ⟨v, rfl, Chaincode.jsonUnmarshal_jsonMarshal x v hv⟩
  · obtain ⟨v, hv⟩ := Smartcontract.jsonMarshal_ok_any sc y hy
    exact ⟨v, hv, Smartcontract.jsonUnmarshal_jsonMarshal_any sc y v hv⟩

/-! ## The nested hotel through the ledger -/

namespace Smartcontract

theorem InitLedger_loop_single (sc : Strconv) (h : Hotel) (s : Store Value) :
    InitLedger.loop sc (memStub Value) [h] s =
      (match jsonMarshal sc h with
        | .error e => (.error (.json e), s)
        | .ok v => (.ok (), s.put h.ID v)) := by
  cases hv : jsonMarshal sc h <;> simp [InitLedger.loop, hv, memStub]

theorem ReadHotel_after_write (sc : Strconv) (s : Store Value) (h : Hotel)
    (hcreate : (InitLedger.loop sc (memStub Value) [h] s).1 = .ok ()) :
    (ReadHotel (memStub Value) h.ID (InitLedger.loop sc (memStub Value) [h] s).2).1 = .ok h := by
  rw [InitLedger_loop_single] at hcreate ⊢
  cases hv : jsonMarshal sc h with
  | error e => simp [hv] at hcreate
  | ok v =>
    simp only [hv]
    rw [ReadHotel_mem_nested]
    simp [Store.get_put_self, jsonUnmarshal_jsonMarshal_any sc h v hv]

end Smartcontract

/-- C12: in the nested package, for every hotel with one service level that holds two
agreements: when the hotel is written the way `InitLedger` writes a hotel, and the write
succeeds, a following `ReadHotel` on its id returns the hotel, with every field of the
hotel, of the service level and of both agreements, in order. `InitLedger` itself
succeeds on every world state and leaves hotel `"1"` reading back as the seed hotel,
with its service level `"1"` and the agreements `"1"` and `"2"`. -/
theorem nested_read_back (sc : Smartcontract.Strconv) (s : Store Smartcontract.Value)
    (id name : String) (isActive : Bool) (rating : Float32)
    (l : Smartcontract.ServiceLevel) (a1 a2 : Smartcontract.Agreement)
    (hcreate : (Smartcontract.InitLedger.loop sc (memStub Smartcontract.Value)
      [{ ID := id, Name := name, IsActive := isActive, Rating := rating,
         ServiceLevels := some [some { l with Agreements := some [some a1, some a2] }] }] s).1 =
      .ok ()) :
    (Smartcontract.ReadHotel (memStub Smartcontract.Value) id
        (Smartcontract.InitLedger.loop sc (memStub Smartcontract.Value)
          [{ ID := id, Name := name, IsActive := isActive, Rating := rating,
             ServiceLevels := some [some { l with Agreements := some [some a1, some a2] }] }]
          s).2).1 =
      .ok { ID := id, Name := name, IsActive := isActive, Rating := rating,
            ServiceLevels := some [some { l with Agreements := some [some a1, some a2] }] } ∧
    (Smartcontract.InitLedger sc (memStub Smartcontract.Value) s).1 = .ok () ∧
    (Smartcontract.ReadHotel (memStub Smartcontract.Value) "1"
        (Smartcontract.InitLedger sc (memStub Smartcontract.Value) s).2).1 =
      .ok { ID := "1", Name := "Rex Hotel", IsActive := true, Rating := Float32.lit_8_4,
            ServiceLevels := some [
              some { ID := "1", Name := "Standard", IsUsed := true,
                     SatisfactionRate := Float32.lit_0_84, RuleAbidingRate := Float32.zero,
                     HotelID := "1",
                     Agreements := some [
                       some { ID := "1", IsApplied := true, TotalFeedbacks := 100,
                              TotalUnfulfilledCommitments := 16, IsAppliedPenalty := false,
                              TotalCompensations := 0, TotalNoCompensations := 0,
                              ServiceLevelID := "", HotelID := "" },
                       some { ID := "2", IsApplied := true, TotalFeedbacks := 1000,
                              TotalUnfulfilledCommitments := 100, IsAppliedPenalty := false,
                              TotalCompensations := 0, TotalNoCompensations := 0,
                              ServiceLevelID := "", HotelID := "" }] }] } :=
  ⟨Smartcontract.ReadHotel_after_write sc s _ hcreate, rfl,
    Smartcontract.ReadHotel_after_write sc s Smartcontract.seedHotel rfl⟩

/-- Witness of C12: the seed hotel `"1"`, with its service level `"Standard"` and the
agreements `"1"` and `"2"`, written on the empty world state. -/
theorem nested_read_back_witness :
    (Smartcontract.InitLedger.loop Smartcontract.plainStrconv (memStub Smartcontract.Value)
      [{ ID := "1", Name := "Rex Hotel", IsActive := true, Rating := Float32.lit_8_4,
         ServiceLevels := some [some
           { ({ ID := "1", Name := "Standard", IsUsed := true,
                SatisfactionRate := Float32.lit_0_84, RuleAbidingRate := Float32.zero,
                HotelID := "1", Agreements := none } : Smartcontract.ServiceLevel) with
             Agreements := some [
               some { Smartcontract.Agreement.zero with
                 ID := "1", IsApplied := true, TotalFeedbacks := 100,
                 TotalUnfulfilledCommitments := 16 },
               some { Smartcontract.Agreement.zero with
                 ID := "2", IsApplied := true, TotalFeedbacks := 1000,
                 TotalUnfulfilledCommitments := 100 }] }] }] []).1 = .ok () ∧
    (Smartcontract.ReadHotel (memStub Smartcontract.Value) "1"
        (Smartcontract.InitLedger.loop Smartcontract.plainStrconv (memStub Smartcontract.Value)
          [Smartcontract.seedHotel] []).2).1 = .ok Smartcontract.seedHotel :=
  ⟨rfl,
    (nested_read_back Smartcontract.plainStrconv [] "1" "Rex Hotel" true Float32.lit_8_4
      { ID := "1", Name := "Standard", IsUsed := true,
        SatisfactionRate := Float32.lit_0_84, RuleAbidingRate := Float32.zero,
        HotelID := "1", Agreements := none }
      { Smartcontract.Agreement.zero with
        ID := "1", IsApplied := true, TotalFeedbacks := 100, TotalUnfulfilledCommitments := 16 }
      { Smartcontract.Agreement.zero with
        ID := "2", IsApplied := true, TotalFeedbacks := 1000,
        TotalUnfulfilledCommitments := 100 }
      rfl).1⟩

/-! ## Writing the same key again -/

namespace Store

variable {V : Type}

theorem put_append_below (pre rest : Store V) (key : String) (val : V)
    (hpre : ∀ x ∈ pre, x.1 < key) : put (pre ++ rest) key val = pre ++ put rest key val := by
  induction pre with
  | nil => rfl
  | cons hd tl ih =>
    obtain ⟨k, v⟩ := hd
    have hk : k < key := hpre (k, v) (List.mem_cons_self _ _)
    have h1 : ¬ k = key := ne_of_lt hk
    have h2 : ¬ key.data < k.data := fun h =>
      lt_asymm hk (String.lt_iff_toList_lt.mpr h)
    have ih1 := ih (fun x hx => hpre x (List.mem_cons_of_mem _ hx))
    show put ((k, v) :: (tl ++ rest)) key val = (k, v) :: (tl ++ put rest key val)
    simp only [put, h1, h2, if_false]
    rw [ih1]

theorem seated_put (s : Store V) (key : String) (val : V) : (s.put key val).Seated key val := by
  induction s with
  | nil => exact ⟨[], [], by simp, rfl⟩
  | cons hd tl ih =>
    obtain ⟨k, v⟩ := hd
    by_cases h1 : k = key
    · exact ⟨[], tl, by simp, by simp [put, h1]⟩
    · by_cases h2 : key.data < k.data
      · exact ⟨[], (k, v) :: tl, by simp, by simp [put, h1, h2]⟩
      · obtain ⟨pre, post, hpre, heq⟩ := ih
        have hk : k < key := by
          rcases lt_trichotomy k key with h | h | h
          · exact h
          · exact absurd h h1
          · exact absurd (String.lt_iff_toList_lt.mp h) h2
        refine ⟨(k, v) :: pre, post, ?_, by simp [put, h1, h2, heq]⟩
        intro x hx
        rcases List.mem_cons.mp hx with rfl | hx
        · exact hk
        · exact hpre x hx

theorem put_of_seated (s : Store V) (key : String) (val : V) (hs : s.Seated key val) :
    s.put key val = s := by
  obtain ⟨pre, post, hpre, rfl⟩ := hs
  rw [put_append_below pre _ key val hpre]
  simp [put]

theorem seated_put_above (s : Store V) (key other : String) (val w : V)
    (hs : s.Seated key val) (hlt : key < other) : (s.put other w).Seated key val := by
  obtain ⟨pre, post, hpre, rfl⟩ := hs
  refine ⟨pre, put post other w, hpre, ?_⟩
  rw [put_append_below pre _ other w (fun x hx => lt_trans (hpre x hx) hlt)]
  have h1 : ¬ key = other := ne_of_lt hlt
  have h2 : ¬ other.data < key.data := fun h =>
    lt_asymm hlt (String.lt_iff_toList_lt.mpr h)
  simp [put, h1, h2]

theorem put_put_self (s : Store V) (key : String) (val : V) :
    (s.put key val).put key val = s.put key val :=
  put_of_seated _ key val (seated_put s key val)

end Store

namespace Store

variable {V : Type}

theorem get_of_seated (s : Store V) (key : String) (val : V) (hs : s.Seated key val) :
    s.get key = some val := by
  obtain ⟨pre, post, hpre, rfl⟩ := hs
  induction pre with
  | nil => simp [get]
  | cons hd tl ih =>
    obtain ⟨k, v⟩ := hd
    have hk : k < key := hpre (k, v) (List.mem_cons_self _ _)
    have h1 : ¬ k = key := ne_of_lt hk
    show get ((k, v) :: (tl ++ (key, val) :: post)) key = some val
    simp only [get, h1, if_false]
    exact ih (fun x hx => hpre x (List.mem_cons_of_mem _ hx))

theorem seated_putAll_above (kvs : List (String × V)) (s : Store V) (key : String) (val : V)
    (hs : s.Seated key val) (habove : ∀ kv ∈ kvs, key < kv.1) :
    (putAll kvs s).Seated key val := by
  induction kvs generalizing s with
  | nil => exact hs
  | cons kv rest ih =>
    exact ih (s.put kv.1 kv.2)
      (seated_put_above s key kv.1 val kv.2 hs (habove kv (List.mem_cons_self _ _)))
      (fun x hx => habove x (List.mem_cons_of_mem _ hx))

theorem seated_putAll (kvs : List (String × V)) (s : Store V)
    (hasc : kvs.Pairwise (fun a b => a.1 < b.1)) :
    ∀ kv ∈ kvs, (putAll kvs s).Seated kv.1 kv.2 := by
  induction kvs generalizing s with
  | nil => intro kv hkv; cases hkv
  | cons hd rest ih =>
    rw [List.pairwise_cons] at hasc
    intro kv hkv
    rcases List.mem_cons.mp hkv with rfl | hrest
    · exact seated_putAll_above rest _ kv.1 kv.2 (seated_put s kv.1 kv.2) hasc.1
    · exact ih (s.put hd.1 hd.2) hasc.2 kv hrest

theorem putAll_of_seated (kvs : List (String × V)) (s : Store V)
    (hs : ∀ kv ∈ kvs, s.Seated kv.1 kv.2) : putAll kvs s = s := by
  induction kvs with
  | nil => rfl
  | cons hd rest ih =>
    show putAll rest (s.put hd.1 hd.2) = s
    rw [put_of_seated s hd.1 hd.2 (hs hd (List.mem_cons_self _ _))]
    exact ih (fun x hx => hs x (List.mem_cons_of_mem _ hx))

theorem putAll_putAll (kvs : List (String × V)) (s : Store V)
    (hasc : kvs.Pairwise (fun a b => a.1 < b.1)) :
    putAll kvs (putAll kvs s) = putAll kvs s :=
  putAll_of_seated kvs _ (seated_putAll kvs s hasc)

theorem get_putAll_other (kvs : List (String × V)) (s : Store V) (key : String)
    (hother : ∀ kv ∈ kvs, kv.1 ≠ key) : (putAll kvs s).get key = s.get key := by
  induction kvs generalizing s with
  | nil => rfl
  | cons hd rest ih =>
    show (putAll rest (s.put hd.1 hd.2)).get key = s.get key
    rw [ih (s.put hd.1 hd.2) (fun x hx => hother x (List.mem_cons_of_mem _ hx))]
    exact get_put_other s hd.1 key hd.2 (Ne.symm (hother hd (List.mem_cons_self _ _)))

end Store

/-! ## Seeding -/

namespace Chaincode

theorem InitLedger_mem (s : Store Value) :
    InitLedger (memStub Value) s = (.ok (), Store.putAll seedWrites s) := rfl

theorem seedWrites_ascending : seedWrites.Pairwise (fun a b => a.1 < b.1) := by
  have h12 : "hotel1" < "hotel2" := String.lt_iff_toList_lt.mpr (by decide)
  have h13 : "hotel1" < "hotel3" := String.lt_iff_toList_lt.mpr (by decide)
  have h23 : "hotel2" < "hotel3" := String.lt_iff_toList_lt.mpr (by decide)
  show List.Pairwise _ [("hotel1", _), ("hotel2", _), ("hotel3", _)]
  refine List.pairwise_cons.mpr ⟨?_, List.pairwise_cons.mpr ⟨?_, List.pairwise_cons.mpr
    ⟨?_, List.Pairwise.nil⟩⟩⟩
  · intro x hx
    rcases List.mem_cons.mp hx with rfl | hx
    · exact h12
    rcases List.mem_cons.mp hx with rfl | hx
    · exact h13
    cases hx
  · intro x hx
    rcases List.mem_cons.mp hx with rfl | hx
    · exact h23
    cases hx
  · intro x hx
    cases hx

theorem seedWrites_decode :
    ∀ h ∈ seedHotels, ∃ v, (h.ID, v) ∈ seedWrites ∧ jsonUnmarshal v = .ok h := by
  intro h hh
  rcases List.mem_cons.mp hh with rfl | hh
  · exact ⟨_, List.mem_cons_self _ _, rfl⟩
  rcases List.mem_cons.mp hh with rfl | hh
  · exact ⟨_, List.mem_cons_of_mem _ (List.mem_cons_self _ _), rfl⟩
  rcases List.mem_cons.mp hh with rfl | hh
  · exact ⟨_, List.mem_cons_of_mem _ (List.mem_cons_of_mem _ (List.mem_cons_self _ _)), rfl⟩
  cases hh

theorem seedWrites_keys : ∀ kv ∈ seedWrites, ∃ h ∈ seedHotels, h.ID = kv.1 := by
  intro kv hkv
  rcases List.mem_cons.mp hkv with rfl | hkv
  · exact ⟨_, List.mem_cons_self _ _, rfl⟩
  rcases List.mem_cons.mp hkv with rfl | hkv
  · exact ⟨_, List.mem_cons_of_mem _ (List.mem_cons_self _ _), rfl⟩
  rcases List.mem_cons.mp hkv with rfl | hkv
  · exact ⟨_, List.mem_cons_of_mem _ (List.mem_cons_of_mem _ (List.mem_cons_self _ _)), rfl⟩
  cases hkv

end Chaincode

namespace Smartcontract

theorem InitLedger_mem_nested (sc : Strconv) (s : Store Value) :
    InitLedger sc (memStub Value) s = (.ok (), Store.putAll (seedWrites sc) s) := rfl

theorem seedWrites_ascending_nested (sc : Strconv) :
    (seedWrites sc).Pairwise (fun a b => a.1 < b.1) := by
  show List.Pairwise _ [("1", _)]
  simp

theorem seedWrites_decode_nested (sc : Strconv) :
    ∀ h ∈ seedHotels, ∃ v, (h.ID, v) ∈ seedWrites sc ∧ jsonUnmarshal v = .ok h := by
  intro h hh
  rcases List.mem_cons.mp hh with rfl | hh
  · exact ⟨_, List.mem_cons_self _ _, rfl⟩
  cases hh

theorem seedWrites_keys_nested (sc : Strconv) :
    ∀ kv ∈ seedWrites sc, ∃ h ∈ seedHotels, h.ID = kv.1 := by
  intro kv hkv
  rcases List.mem_cons.mp hkv with rfl | hkv
  · exact ⟨_, List.mem_cons_self _ _, rfl⟩
  cases hkv

end Smartcontract

/-- C13: in both packages `InitLedger` writes its seeds whatever the world state holds:
for every prior world state, also one where a seed key holds another or an undecodable
value, `InitLedger` succeeds; afterwards `ReadHotel` on the id of every seed hotel returns
that seed hotel; every key that is the id of no seed hotel holds what it held before; and
`InitLedger` run again succeeds and leaves the world state as the first run left it. -/
theorem init_overwrites (s : Store Chaincode.Value) (t : Store Smartcontract.Value)
    (sc : Smartcontract.Strconv) :
    ((Chaincode.InitLedger (memStub Chaincode.Value) s).1 = .ok () ∧
      (∀ h ∈ Chaincode.seedHotels,
        (Chaincode.ReadHotel (memStub Chaincode.Value) h.ID
          (Chaincode.InitLedger (memStub Chaincode.Value) s).2).1 = .ok h) ∧
      (∀ key, (∀ h ∈ Chaincode.seedHotels, h.ID ≠ key) →
        (Chaincode.InitLedger (memStub Chaincode.Value) s).2.get key = s.get key) ∧
      Chaincode.InitLedger (memStub Chaincode.Value)
          (Chaincode.InitLedger (memStub Chaincode.Value) s).2 =
        (.ok (), (Chaincode.InitLedger (memStub Chaincode.Value) s).2)) ∧
    ((Smartcontract.InitLedger sc (memStub Smartcontract.Value) t).1 = .ok () ∧
      (∀ h ∈ Smartcontract.seedHotels,
        (Smartcontract.ReadHotel (memStub Smartcontract.Value) h.ID
          (Smartcontract.InitLedger sc (memStub Smartcontract.Value) t).2).1 = .ok h) ∧
      (∀ key, (∀ h ∈ Smartcontract.seedHotels, h.ID ≠ key) →
        (Smartcontract.InitLedger sc (memStub Smartcontract.Value) t).2.get key = t.get key) ∧
      Smartcontract.InitLedger sc (memStub Smartcontract.Value)
          (Smartcontract.InitLedger sc (memStub Smartcontract.Value) t).2 =
        (.ok (), (Smartcontract.InitLedger sc (memStub Smartcontract.Value) t).2)) := by
  refine ⟨⟨rfl, ?_, ?_, ?_⟩, ⟨rfl, ?_, ?_, ?_⟩⟩
  · intro h hh
    obtain ⟨v, hmem, hdec⟩ := Chaincode.seedWrites_decode h hh
    have hseat := Store.seated_putAll Chaincode.seedWrites s Chaincode.seedWrites_ascending
      (h.ID, v) hmem
    rw [Chaincode.InitLedger_mem, Chaincode.ReadHotel_mem]
    simp [Store.get_of_seated _ _ _ hseat, hdec]
  · intro key hkey
    rw [Chaincode.InitLedger_mem]
    apply Store.get_putAll_other
    intro kv hkv
    obtain ⟨h, hh, hid⟩ := Chaincode.seedWrites_keys kv hkv
    exact hid ▸ hkey h hh
  · simp only [Chaincode.InitLedger_mem]
    rw [Store.putAll_putAll _ _ Chaincode.seedWrites_ascending]
  · intro h hh
    obtain ⟨v, hmem, hdec⟩ := Smartcontract.seedWrites_decode_nested sc h hh
    have hseat := Store.seated_putAll (Smartcontract.seedWrites sc) t
      (Smartcontract.seedWrites_ascending_nested sc) (h.ID, v) hmem
    rw [Smartcontract.InitLedger_mem_nested, Smartcontract.ReadHotel_mem_nested]
    simp [Store.get_of_seated _ _ _ hseat, hdec]
  · intro key hkey
    rw [Smartcontract.InitLedger_mem_nested]
    apply Store.get_putAll_other
    intro kv hkv
    obtain ⟨h, hh, hid⟩ := Smartcontract.seedWrites_keys_nested sc kv hkv
    exact hid ▸ hkey h hh
  · simp only [Smartcontract.InitLedger_mem_nested]
    rw [Store.putAll_putAll _ _ (Smartcontract.seedWrites_ascending_nested sc)]

/-! ## What an invocation does to the world state -/

namespace Store

variable {V : Type}

theorem mem_put (s : Store V) (key : String) (val : V) (x : String × V)
    (hx : x ∈ s.put key val) : x = (key, val) ∨ x ∈ s := by
  induction s with
  | nil => simpa [put] using hx
  | cons hd tl ih =>
    obtain ⟨k, v⟩ := hd
    by_cases h1 : k = key
    · simp only [put, h1, if_true, List.mem_cons] at hx ⊢
      rcases hx with hx | hx
      · exact Or.inl hx
      · exact Or.inr (Or.inr hx)
    · by_cases h2 : key.data < k.data
      · simp only [put, h1, h2, if_false, if_true, List.mem_cons] at hx ⊢
        exact hx
      · simp only [put, h1, h2, if_false, List.mem_cons] at hx ⊢
        rcases hx with hx | hx
        · exact Or.inr (Or.inl hx)
        · rcases ih hx with h | h
          · exact Or.inl h
          · exact Or.inr (Or.inr h)

theorem mem_del (s : Store V) (key : String) (x : String × V) (hx : x ∈ s.del key) : x ∈ s :=
  (List.mem_filter.mp hx).1

theorem mem_putAll (kvs : List (String × V)) (s : Store V) (x : String × V)
    (hx : x ∈ putAll kvs s) : x ∈ kvs ∨ x ∈ s := by
  induction kvs generalizing s with
  | nil => exact Or.inr hx
  | cons hd rest ih =>
    rcases ih (s.put hd.1 hd.2) hx with h | h
    · exact Or.inl (List.mem_cons_of_mem _ h)
    · rcases mem_put s hd.1 hd.2 x h with h | h
      · exact Or.inl (h ▸ List.mem_cons_self _ _)
      · exact Or.inr h

end Store

namespace Chaincode

theorem CreateHotel_state (s : Store Value) (id name : String) (isActive : Bool)
    (rating : Float32) :
    (CreateHotel (memStub Value) id name isActive rating s).2 = s ∨
    ∃ v, jsonMarshal ⟨id, name, isActive, rating⟩ = .ok v ∧
      (CreateHotel (memStub Value) id name isActive rating s).2 = s.put id v := by
  cases hs : s.get id with
  | some v0 => exact Or.inl (by rw [CreateHotel_present s id name isActive rating v0 hs])
  | none =>
    cases hv : jsonMarshal ⟨id, name, isActive, rating⟩ with
    | error e =>
      left
      unfold CreateHotel
      rw [HotelExists_mem]
      simp [hs, hv]
    | ok v => exact Or.inr ⟨v, rfl, by rw [CreateHotel_absent s id name isActive rating v hs hv]⟩

theorem UpdateHotel_state (s : Store Value) (id name : String) (isActive : Bool)
    (rating : Float32) :
    (UpdateHotel (memStub Value) id name isActive rating s).2 = s ∨
    ∃ v, jsonMarshal ⟨id, name, isActive, rating⟩ = .ok v ∧
      (UpdateHotel (memStub Value) id name isActive rating s).2 = s.put id v := by
  cases hs : s.get id with
  | none => exact Or.inl (by rw [UpdateHotel_absent s id name isActive rating hs])
  | some v0 =>
    cases hv : jsonMarshal ⟨id, name, isActive, rating⟩ with
    | error e =>
      left
      unfold UpdateHotel
      rw [HotelExists_mem]
      simp [hs, hv]
    | ok v =>
      exact Or.inr ⟨v, rfl, by rw [UpdateHotel_present s id name isActive rating v0 v hs hv]⟩

theorem DeleteHotel_state (s : Store Value) (id : String) :
    (DeleteHotel (memStub Value) id s).2 = s ∨
    (DeleteHotel (memStub Value) id s).2 = s.del id := by
  cases hs : s.get id with
  | none => exact Or.inl (by rw [DeleteHotel_absent s id hs])
  | some v0 => exact Or.inr (by rw [DeleteHotel_present s id v0 hs])

/-- An invariant of the stored pairs that holds of every pair a method writes holds after
every sequence of invocations. -/
theorem run_invariant (P : String × Value → Prop)
    (hwrite : ∀ id name isActive rating v,
      jsonMarshal ⟨id, name, isActive, rating⟩ = .ok v → P (id, v))
    (hseed : ∀ kv ∈ seedWrites, P kv) (calls : List Call) (s : Store Value)
    (hs : ∀ kv ∈ s, P kv) : ∀ kv ∈ (run (memStub Value) calls s).2, P kv := by
  induction calls generalizing s with
  | nil => exact hs
  | cons c rest ih =>
    apply ih
    cases c with
    | InitLedger =>
      intro kv hkv
      have hkv1 : kv ∈ Store.putAll seedWrites s := hkv
      rcases Store.mem_putAll _ _ _ hkv1 with h | h
      · exact hseed kv h
      · exact hs kv h
    | CreateHotel id name isActive rating =>
      intro kv hkv
      have hkv1 : kv ∈ (CreateHotel (memStub Value) id name isActive rating s).2 := hkv
      rcases CreateHotel_state s id name isActive rating with h | ⟨v, hv, h⟩
      · exact hs kv (h ▸ hkv1)
      · rw [h] at hkv1
        rcases Store.mem_put _ _ _ _ hkv1 with h1 | h1
        · exact h1 ▸ hwrite id name isActive rating v hv
        · exact hs kv h1
    | UpdateHotel id name isActive rating =>
      intro kv hkv
      have hkv1 : kv ∈ (UpdateHotel (memStub Value) id name isActive rating s).2 := hkv
      rcases UpdateHotel_state s id name isActive rating with h | ⟨v, hv, h⟩
      · exact hs kv (h ▸ hkv1)
      · rw [h] at hkv1
        rcases Store.mem_put _ _ _ _ hkv1 with h1 | h1
        · exact h1 ▸ hwrite id name isActive rating v hv
        · exact hs kv h1
    | DeleteHotel id =>
      intro kv hkv
      have hkv1 : kv ∈ (DeleteHotel (memStub Value) id s).2 := hkv
      rcases DeleteHotel_state s id with h | h
      · exact hs kv (h ▸ hkv1)
      · rw [h] at hkv1
        exact hs kv (Store.mem_del _ _ _ hkv1)
    | ReadHotel id =>
      intro kv hkv
      have hkv1 : kv ∈ (ReadHotel (memStub Value) id s).2 := hkv
      rw [ReadHotel_mem] at hkv1
      exact hs kv hkv1
    | HotelExists id =>
      intro kv hkv
      have hkv1 : kv ∈ (HotelExists (memStub Value) id s).2 := hkv
      rw [HotelExists_mem] at hkv1
      exact hs kv hkv1
    | GetAllHotels =>
      intro kv hkv
      have hkv1 : kv ∈ (GetAllHotels (memStub Value) s).2 := hkv
      rw [GetAllHotels_mem] at hkv1
      exact hs kv hkv1

end Chaincode

namespace Smartcontract

theorem CreateHotel_state_nested (sc : Strconv) (s : Store Value) (id name : String)
    (isActive : Bool) (rating : Float32) :
    (CreateHotel sc (memStub Value) id name isActive rating s).2 = s ∨
    ∃ v, jsonMarshal sc ⟨id, name, isActive, rating, none⟩ = .ok v ∧
      (CreateHotel sc (memStub Value) id name isActive rating s).2 = s.put id v := by
  cases hs : s.get id with
  | some v0 => exact Or.inl (by rw [CreateHotel_present_nested sc s id name isActive rating v0 hs])
  | none =>
    cases hv : jsonMarshal sc ⟨id, name, isActive, rating, none⟩ with
    | error e =>
      left
      unfold CreateHotel
      rw [HotelExists_mem_nested]
      simp [hs, hv]
    | ok v =>
      exact Or.inr ⟨v, rfl, by rw [CreateHotel_absent_nested sc s id name isActive rating v hs hv]⟩

theorem UpdateHotel_state_nested (sc : Strconv) (s : Store Value) (id name : String)
    (isActive : Bool) (rating : Float32) :
    (UpdateHotel sc (memStub Value) id name isActive rating s).2 = s ∨
    ∃ v, jsonMarshal sc ⟨id, name, isActive, rating, none⟩ = .ok v ∧
      (UpdateHotel sc (memStub Value) id name isActive rating s).2 = s.put id v := by
  cases hs : s.get id with
  | none => exact Or.inl (by rw [UpdateHotel_absent_nested sc s id name isActive rating hs])
  | some v0 =>
    cases hv : jsonMarshal sc ⟨id, name, isActive, rating, none⟩ with
    | error e =>
      left
      unfold UpdateHotel
      rw [HotelExists_mem_nested]
      simp [hs, hv]
    | ok v =>
      exact Or.inr ⟨v, rfl,
        by rw [UpdateHotel_present_nested sc s id name isActive rating v0 v hs hv]⟩

theorem DeleteHotel_state_nested (s : Store Value) (id : String) :
    (DeleteHotel (memStub Value) id s).2 = s ∨
    (DeleteHotel (memStub Value) id s).2 = s.del id := by
  cases hs : s.get id with
  | none => exact Or.inl (by rw [DeleteHotel_absent_nested s id hs])
  | some v0 => exact Or.inr (by rw [DeleteHotel_present_nested s id v0 hs])

/-- An invariant of the stored pairs that holds of every pair a method writes holds after
every sequence of invocations. -/
theorem run_invariant_nested (sc : Strconv) (P : String × Value → Prop)
    (hwrite : ∀ id name isActive rating v,
      jsonMarshal sc ⟨id, name, isActive, rating, none⟩ = .ok v → P (id, v))
    (hseed : ∀ kv ∈ seedWrites sc, P kv) (calls : List Call) (s : Store Value)
    (hs : ∀ kv ∈ s, P kv) : ∀ kv ∈ (run sc (memStub Value) calls s).2, P kv := by
  induction calls generalizing s with
  | nil => exact hs
  | cons c rest ih =>
    apply ih
    cases c with
    | InitLedger =>
      intro kv hkv
      have hkv1 : kv ∈ Store.putAll (seedWrites sc) s := hkv
      rcases Store.mem_putAll _ _ _ hkv1 with h | h
      · exact hseed kv h
      · exact hs kv h
    | CreateHotel id name isActive rating =>
      intro kv hkv
      have hkv1 : kv ∈ (CreateHotel sc (memStub Value) id name isActive rating s).2 := hkv
      rcases CreateHotel_state_nested sc s id name isActive rating with h | ⟨v, hv, h⟩
      · exact hs kv (h ▸ hkv1)
      · rw [h] at hkv1
        rcases Store.mem_put _ _ _ _ hkv1 with h1 | h1
        · exact h1 ▸ hwrite id name isActive rating v hv
        · exact hs kv h1
    | UpdateHotel id name isActive rating =>
      intro kv hkv
      have hkv1 : kv ∈ (UpdateHotel sc (memStub Value) id name isActive rating s).2 := hkv
      rcases UpdateHotel_state_nested sc s id name isActive rating with h | ⟨v, hv, h⟩
      · exact hs kv (h ▸ hkv1)
      · rw [h] at hkv1
        rcases Store.mem_put _ _ _ _ hkv1 with h1 | h1
        · exact h1 ▸ hwrite id name isActive rating v hv
        · exact hs kv h1
    | DeleteHotel id =>
      intro kv hkv
      have hkv1 : kv ∈ (DeleteHotel (memStub Value) id s).2 := hkv
      rcases DeleteHotel_state_nested s id with h | h
      · exact hs kv (h ▸ hkv1)
      · rw [h] at hkv1
        exact hs kv (Store.mem_del _ _ _ hkv1)
    | ReadHotel id =>
      intro kv hkv
      have hkv1 : kv ∈ (ReadHotel (memStub Value) id s).2 := hkv
      rw [ReadHotel_mem_nested] at hkv1
      exact hs kv hkv1
    | HotelExists id =>
      intro kv hkv
      have hkv1 : kv ∈ (HotelExists (memStub Value) id s).2 := hkv
      rw [HotelExists_mem_nested] at hkv1
      exact hs kv hkv1
    | GetAllHotels =>
      intro kv hkv
      have hkv1 : kv ∈ (GetAllHotels (memStub Value) s).2 := hkv
      rw [GetAllHotels_mem_nested] at hkv1
      exact hs kv hkv1

end Smartcontract

namespace Store

variable {V : Type}

theorem mem_of_get (s : Store V) (key : String) (val : V) (hget : s.get key = some val) :
    (key, val) ∈ s := by
  induction s with
  | nil => simp [get] at hget
  | cons hd tl ih =>
    obtain ⟨k, v⟩ := hd
    by_cases h1 : k = key
    · simp only [get, h1, if_true, Option.some.injEq] at hget
      subst h1 hget
      exact List.mem_cons_self _ _
    · simp only [get, h1, if_false] at hget
      exact List.mem_cons_of_mem _ (ih hget)

end Store

/-! ## The key of a stored hotel -/

/-- C14: in both packages, in every world state reached from the empty one by a sequence
of invocations (`InitLedger`, `CreateHotel`, `UpdateHotel`, `DeleteHotel`, and the queries,
which change nothing), every stored value decodes and the `id` of the decoded hotel is
the very key the value is stored under: this holds of every stored pair, and so of every
value `get` returns. -/
theorem key_is_id (sc : Smartcontract.Strconv) (calls : List Call) :
    ((∀ kv ∈ (Chaincode.run (memStub Chaincode.Value) calls []).2,
        ∃ h, Chaincode.jsonUnmarshal kv.2 = .ok h ∧ h.ID = kv.1) ∧
      (∀ key v, (Chaincode.run (memStub Chaincode.Value) calls []).2.get key = some v →
        ∃ h, Chaincode.jsonUnmarshal v = .ok h ∧ h.ID = key)) ∧
    ((∀ kv ∈ (Smartcontract.run sc (memStub Smartcontract.Value) calls []).2,
        ∃ h, Smartcontract.jsonUnmarshal kv.2 = .ok h ∧ h.ID = kv.1) ∧
      (∀ key v, (Smartcontract.run sc (memStub Smartcontract.Value) calls []).2.get key = some v →
        ∃ h, Smartcontract.jsonUnmarshal v = .ok h ∧ h.ID = key)) := by
  have hflat : ∀ kv ∈ (Chaincode.run (memStub Chaincode.Value) calls []).2,
      ∃ h, Chaincode.jsonUnmarshal kv.2 = .ok h ∧ h.ID = kv.1 := by
    apply Chaincode.run_invariant
    · intro id name isActive rating v hv
      exact ⟨_, Chaincode.jsonUnmarshal_jsonMarshal _ v hv, rfl⟩
    · intro kv hkv
      obtain ⟨h, hh, hid⟩ := Chaincode.seedWrites_keys kv hkv
      obtain ⟨v, hmem, hdec⟩ := Chaincode.seedWrites_decode h hh
      have hv : kv.2 = v := by
        have h1 := Store.get_of_seated _ _ _
          (Store.seated_putAll Chaincode.seedWrites [] Chaincode.seedWrites_ascending kv hkv)
        have h2 := Store.get_of_seated _ _ _
          (Store.seated_putAll Chaincode.seedWrites [] Chaincode.seedWrites_ascending _ hmem)
        rw [← hid] at h1
        rw [h2] at h1
        exact (Option.some.inj h1).symm
      exact ⟨h, hv ▸ hdec, hid⟩
    · intro kv hkv
      cases hkv
  have hnested : ∀ kv ∈ (Smartcontract.run sc (memStub Smartcontract.Value) calls []).2,
      ∃ h, Smartcontract.jsonUnmarshal kv.2 = .ok h ∧ h.ID = kv.1 := by
    apply Smartcontract.run_invariant_nested
    · intro id name isActive rating v hv
      exact ⟨_, Smartcontract.jsonUnmarshal_jsonMarshal_any sc _ v hv, rfl⟩
    · intro kv hkv
      rcases List.mem_cons.mp hkv with rfl | hkv
      · exact ⟨Smartcontract.seedHotel,
          Smartcontract.jsonUnmarshal_jsonMarshal_any sc Smartcontract.seedHotel _ rfl, rfl⟩
      · cases hkv
    · intro kv hkv
      cases hkv
  exact ⟨⟨hflat, fun key v hget => hflat (key, v) (Store.mem_of_get _ key v hget)⟩,
    ⟨hnested, fun key v hget => hnested (key, v) (Store.mem_of_get _ key v hget)⟩⟩

/-! ## Keys other than the one written -/

namespace Chaincode

theorem CreateHotel_get_other (s : Store Value) (id key name : String) (isActive : Bool)
    (rating : Float32) (hne : key ≠ id) :
    (CreateHotel (memStub Value) id name isActive rating s).2.get key = s.get key := by
  rcases CreateHotel_state s id name isActive rating with h | ⟨v, _, h⟩
  · rw [h]
  · rw [h, Store.get_put_other s id key v hne]

theorem UpdateHotel_get_other (s : Store Value) (id key name : String) (isActive : Bool)
    (rating : Float32) (hne : key ≠ id) :
    (UpdateHotel (memStub Value) id name isActive rating s).2.get key = s.get key := by
  rcases UpdateHotel_state s id name isActive rating with h | ⟨v, _, h⟩
  · rw [h]
  · rw [h, Store.get_put_other s id key v hne]

theorem DeleteHotel_get_other (s : Store Value) (id key : String) (hne : key ≠ id) :
    (DeleteHotel (memStub Value) id s).2.get key = s.get key := by
  rcases DeleteHotel_state s id with h | h
  · rw [h]
  · rw [h, Store.get_del_other s id key hne]

theorem queries_of_get (s s1 : Store Value) (key : String) (hget : s1.get key = s.get key) :
    (HotelExists (memStub Value) key s1).1 = (HotelExists (memStub Value) key s).1 ∧
    (ReadHotel (memStub Value) key s1).1 = (ReadHotel (memStub Value) key s).1 := by
  simp [HotelExists_mem, ReadHotel_mem, hget]

end Chaincode

namespace Smartcontract

theorem CreateHotel_get_other_nested (sc : Strconv) (s : Store Value) (id key name : String)
    (isActive : Bool) (rating : Float32) (hne : key ≠ id) :
    (CreateHotel sc (memStub Value) id name isActive rating s).2.get key = s.get key := by
  rcases CreateHotel_state_nested sc s id name isActive rating with h | ⟨v, _, h⟩
  · rw [h]
  · rw [h, Store.get_put_other s id key v hne]

theorem UpdateHotel_get_other_nested (sc : Strconv) (s : Store Value) (id key name : String)
    (isActive : Bool) (rating : Float32) (hne : key ≠ id) :
    (UpdateHotel sc (memStub Value) id name isActive rating s).2.get key = s.get key := by
  rcases UpdateHotel_state_nested sc s id name isActive rating with h | ⟨v, _, h⟩
  · rw [h]
  · rw [h, Store.get_put_other s id key v hne]

theorem DeleteHotel_get_other_nested (s : Store Value) (id key : String) (hne : key ≠ id) :
    (DeleteHotel (memStub Value) id s).2.get key = s.get key := by
  rcases DeleteHotel_state_nested s id with h | h
  · rw [h]
  · rw [h, Store.get_del_other s id key hne]

theorem queries_of_get_nested (s s1 : Store Value) (key : String)
    (hget : s1.get key = s.get key) :
    (HotelExists (memStub Value) key s1).1 = (HotelExists (memStub Value) key s).1 ∧
    (ReadHotel (memStub Value) key s1).1 = (ReadHotel (memStub Value) key s).1 := by
  simp [HotelExists_mem_nested, ReadHotel_mem_nested, hget]

end Smartcontract

/-- C15: in both packages, for every world state and every two distinct keys `id` and
`key`, `CreateHotel`, `UpdateHotel` and `DeleteHotel` applied to `id`, whether they succeed
or fail, leave the value at `key` as it was, so that `HotelExists(key)` and
`ReadHotel(key)` give the same result after the call as before it. -/
theorem other_keys_untouched (s : Store Chaincode.Value) (t : Store Smartcontract.Value)
    (sc : Smartcontract.Strconv) (id key name : String) (isActive : Bool) (rating : Float32)
    (hne : key ≠ id) :
    (((Chaincode.CreateHotel (memStub Chaincode.Value) id name isActive rating s).2.get key =
          s.get key ∧
        (Chaincode.HotelExists (memStub Chaincode.Value) key
          (Chaincode.CreateHotel (memStub Chaincode.Value) id name isActive rating s).2).1 =
          (Chaincode.HotelExists (memStub Chaincode.Value) key s).1 ∧
        (Chaincode.ReadHotel (memStub Chaincode.Value) key
          (Chaincode.CreateHotel (memStub Chaincode.Value) id name isActive rating s).2).1 =
          (Chaincode.ReadHotel (memStub Chaincode.Value) key s).1) ∧
      ((Chaincode.UpdateHotel (memStub Chaincode.Value) id name isActive rating s).2.get key =
          s.get key ∧
        (Chaincode.HotelExists (memStub Chaincode.Value) key
          (Chaincode.UpdateHotel (memStub Chaincode.Value) id name isActive rating s).2).1 =
          (Chaincode.HotelExists (memStub Chaincode.Value) key s).1 ∧
        (Chaincode.ReadHotel (memStub Chaincode.Value) key
          (Chaincode.UpdateHotel (memStub Chaincode.Value) id name isActive rating s).2).1 =
          (Chaincode.ReadHotel (memStub Chaincode.Value) key s).1) ∧
      ((Chaincode.DeleteHotel (memStub Chaincode.Value) id s).2.get key = s.get key ∧
        (Chaincode.HotelExists (memStub Chaincode.Value) key
          (Chaincode.DeleteHotel (memStub Chaincode.Value) id s).2).1 =
          (Chaincode.HotelExists (memStub Chaincode.Value) key s).1 ∧
        (Chaincode.ReadHotel (memStub Chaincode.Value) key
          (Chaincode.DeleteHotel (memStub Chaincode.Value) id s).2).1 =
          (Chaincode.ReadHotel (memStub Chaincode.Value) key s).1)) ∧
    (((Smartcontract.CreateHotel sc (memStub Smartcontract.Value) id name isActive rating
          t).2.get key = t.get key ∧
        (Smartcontract.HotelExists (memStub Smartcontract.Value) key
          (Smartcontract.CreateHotel sc (memStub Smartcontract.Value) id name isActive rating
            t).2).1 = (Smartcontract.HotelExists (memStub Smartcontract.Value) key t).1 ∧
        (Smartcontract.ReadHotel (memStub Smartcontract.Value) key
          (Smartcontract.CreateHotel sc (memStub Smartcontract.Value) id name isActive rating
            t).2).1 = (Smartcontract.ReadHotel (memStub Smartcontract.Value) key t).1) ∧
      ((Smartcontract.UpdateHotel sc (memStub Smartcontract.Value) id name isActive rating
          t).2.get key = t.get key ∧
        (Smartcontract.HotelExists (memStub Smartcontract.Value) key
          (Smartcontract.UpdateHotel sc (memStub Smartcontract.Value) id name isActive rating
            t).2).1 = (Smartcontract.HotelExists (memStub Smartcontract.Value) key t).1 ∧
        (Smartcontract.ReadHotel (memStub Smartcontract.Value) key
          (Smartcontract.UpdateHotel sc (memStub Smartcontract.Value) id name isActive rating
            t).2).1 = (Smartcontract.ReadHotel (memStub Smartcontract.Value) key t).1) ∧
      ((Smartcontract.DeleteHotel (memStub Smartcontract.Value) id t).2.get key = t.get key ∧
        (Smartcontract.HotelExists (memStub Smartcontract.Value) key
          (Smartcontract.DeleteHotel (memStub Smartcontract.Value) id t).2).1 =
          (Smartcontract.HotelExists (memStub Smartcontract.Value) key t).1 ∧
        (Smartcontract.ReadHotel (memStub Smartcontract.Value) key
          (Smartcontract.DeleteHotel (memStub Smartcontract.Value) id t).2).1 =
          (Smartcontract.ReadHotel (memStub Smartcontract.Value) key t).1)) :=
  have c := Chaincode.CreateHotel_get_other s id key name isActive rating hne
  have u := Chaincode.UpdateHotel_get_other s id key name isActive rating hne
  have d := Chaincode.DeleteHotel_get_other s id key hne
  have c2 := Smartcontract.CreateHotel_get_other_nested sc t id key name isActive rating hne
  have u2 := Smartcontract.UpdateHotel_get_other_nested sc t id key name isActive rating hne
  have d2 := Smartcontract.DeleteHotel_get_other_nested t id key hne
  ⟨⟨⟨c, Chaincode.queries_of_get s _ key c⟩, ⟨u, Chaincode.queries_of_get s _ key u⟩,
      ⟨d, Chaincode.queries_of_get s _ key d⟩⟩,
    ⟨⟨c2, Smartcontract.queries_of_get_nested t _ key c2⟩,
      ⟨u2, Smartcontract.queries_of_get_nested t _ key u2⟩,
      ⟨d2, Smartcontract.queries_of_get_nested t _ key d2⟩⟩⟩

/-- Witness of C15: the key `"1"` is looked at while `"5"` is created, updated and deleted,
in the flat package with one hotel stored under `"1"`, in the nested package after
`InitLedger`; shown is the first statement of each group, the value stored under `"1"`. -/
theorem other_keys_untouched_witness :
    ("1" ≠ "5") ∧
    ((Chaincode.CreateHotel (memStub Chaincode.Value) "5" "Legend Saigon" true Float32.lit_8_1
        (Store.put [] "1" Chaincode.legendSaigon)).2.get "1" =
        (Store.put [] "1" Chaincode.legendSaigon).get "1" ∧
      (Chaincode.UpdateHotel (memStub Chaincode.Value) "5" "Legend Saigon" true Float32.lit_8_1
        (Store.put [] "1" Chaincode.legendSaigon)).2.get "1" =
        (Store.put [] "1" Chaincode.legendSaigon).get "1" ∧
      (Chaincode.DeleteHotel (memStub Chaincode.Value) "5"
        (Store.put [] "1" Chaincode.legendSaigon)).2.get "1" =
        (Store.put [] "1" Chaincode.legendSaigon).get "1") ∧
    ((Smartcontract.CreateHotel Smartcontract.plainStrconv (memStub Smartcontract.Value) "5"
        "Legend Saigon" true Float32.lit_8_1 Smartcontract.seeded).2.get "1" =
        Smartcontract.seeded.get "1" ∧
      (Smartcontract.UpdateHotel Smartcontract.plainStrconv (memStub Smartcontract.Value) "5"
        "Legend Saigon" true Float32.lit_8_1 Smartcontract.seeded).2.get "1" =
        Smartcontract.seeded.get "1" ∧
      (Smartcontract.DeleteHotel (memStub Smartcontract.Value) "5"
        Smartcontract.seeded).2.get "1" = Smartcontract.seeded.get "1") :=
  have w := other_keys_untouched (Store.put [] "1" Chaincode.legendSaigon) Smartcontract.seeded
    Smartcontract.plainStrconv "5" "1" "Legend Saigon" true Float32.lit_8_1 (by decide)
  ⟨by decide, ⟨w.1.1.1, w.1.2.1.1, w.1.2.2.1⟩, ⟨w.2.1.1, w.2.2.1.1, w.2.2.2.1⟩⟩

/-! ## A write that fails during seeding -/

/-- C16: `InitLedger` does not undo its writes. In the flat package, on a ledger that
refuses the write of the first, the second or the third seed hotel, `InitLedger` returns
the error built from the ledger's error; the world state is then the prior one with
exactly the earlier seeds written, as `InitLedger` writes them, and the keys of the
refused seed and of the later ones hold what they held before. On a ledger that accepts
three writes it succeeds and leaves what it leaves on a ledger that never fails. In the
nested package, with its single seed, a refused write returns the error and leaves the
world state as it was. -/
theorem init_not_rolled_back (s : Store Chaincode.Value) (t : Store Smartcontract.Value)
    (sc : Smartcontract.Strconv) (n : Nat) :
    (Chaincode.InitLedger (failingStub Chaincode.Value) (s, 0) =
        (.error (.errorf ("failed to put to world state: " ++ "write refused")), (s, 0)) ∧
      Chaincode.InitLedger (failingStub Chaincode.Value) (s, 1) =
        (.error (.errorf ("failed to put to world state: " ++ "write refused")),
          ((Chaincode.InitLedger.loop (memStub Chaincode.Value)
            (Chaincode.seedHotels.take 1) s).2, 0)) ∧
      Chaincode.InitLedger (failingStub Chaincode.Value) (s, 2) =
        (.error (.errorf ("failed to put to world state: " ++ "write refused")),
          ((Chaincode.InitLedger.loop (memStub Chaincode.Value)
            (Chaincode.seedHotels.take 2) s).2, 0)) ∧
      Chaincode.InitLedger (failingStub Chaincode.Value) (s, n + 3) =
        (.ok (), ((Chaincode.InitLedger (memStub Chaincode.Value) s).2, n))) ∧
    (((Chaincode.InitLedger (failingStub Chaincode.Value) (s, 1)).2.1.get "hotel1" =
          (Chaincode.InitLedger (memStub Chaincode.Value) s).2.get "hotel1" ∧
        (Chaincode.InitLedger (failingStub Chaincode.Value) (s, 1)).2.1.get "hotel2" =
          s.get "hotel2" ∧
        (Chaincode.InitLedger (failingStub Chaincode.Value) (s, 1)).2.1.get "hotel3" =
          s.get "hotel3") ∧
      ((Chaincode.InitLedger (failingStub Chaincode.Value) (s, 2)).2.1.get "hotel1" =
          (Chaincode.InitLedger (memStub Chaincode.Value) s).2.get "hotel1" ∧
        (Chaincode.InitLedger (failingStub Chaincode.Value) (s, 2)).2.1.get "hotel2" =
          (Chaincode.InitLedger (memStub Chaincode.Value) s).2.get "hotel2" ∧
        (Chaincode.InitLedger (failingStub Chaincode.Value) (s, 2)).2.1.get "hotel3" =
          s.get "hotel3")) ∧
    Smartcontract.InitLedger sc (failingStub Smartcontract.Value) (t, 0) =
      (.error (.errorf ("failed to put to world state: " ++ "write refused")), (t, 0)) ∧
    Smartcontract.InitLedger sc (failingStub Smartcontract.Value) (t, n + 1) =
      (.ok (), ((Smartcontract.InitLedger sc (memStub Smartcontract.Value) t).2, n)) := by
  have h12 : ("hotel2" : String) ≠ "hotel1" := by decide
  have h13 : ("hotel3" : String) ≠ "hotel1" := by decide
  have h23 : ("hotel3" : String) ≠ "hotel2" := by decide
  refine ⟨⟨rfl, rfl, rfl, rfl⟩, ⟨⟨?_, ?_, ?_⟩, ⟨?_, ?_, ?_⟩⟩, rfl, rfl⟩
  · show (Store.put s "hotel1" _).get "hotel1" =
      (Store.put (Store.put (Store.put s "hotel1" _) "hotel2" _) "hotel3" _).get "hotel1"
    rw [Store.get_put_other _ "hotel3" "hotel1" _ (Ne.symm h13),
      Store.get_put_other _ "hotel2" "hotel1" _ (Ne.symm h12)]
  · show (Store.put s "hotel1" _).get "hotel2" = s.get "hotel2"
    rw [Store.get_put_other _ "hotel1" "hotel2" _ h12]
  · show (Store.put s "hotel1" _).get "hotel3" = s.get "hotel3"
    rw [Store.get_put_other _ "hotel1" "hotel3" _ h13]
  · show (Store.put (Store.put s "hotel1" _) "hotel2" _).get "hotel1" =
      (Store.put (Store.put (Store.put s "hotel1" _) "hotel2" _) "hotel3" _).get "hotel1"
    rw [Store.get_put_other _ "hotel3" "hotel1" _ (Ne.symm h13)]
  · show (Store.put (Store.put s "hotel1" _) "hotel2" _).get "hotel2" =
      (Store.put (Store.put (Store.put s "hotel1" _) "hotel2" _) "hotel3" _).get "hotel2"
    rw [Store.get_put_other _ "hotel3" "hotel2" _ (Ne.symm h23)]
  · show (Store.put (Store.put s "hotel1" _) "hotel2" _).get "hotel3" = s.get "hotel3"
    rw [Store.get_put_other _ "hotel2" "hotel3" _ h23,
      Store.get_put_other _ "hotel1" "hotel3" _ h13]

/-! ## The two packages side by side -/

theorem paired_decode (sc : Smartcontract.Strconv) (v : Chaincode.Value)
    (u : Smartcontract.Value) (h : Paired sc v u) :
    ∃ x, Smartcontract.jsonUnmarshal u = .ok x ∧ Chaincode.jsonUnmarshal v = .ok x.flat := by
  obtain ⟨id, name, isActive, rating, hv, hu⟩ := h
  exact ⟨⟨id, name, isActive, rating, none⟩,
    Smartcontract.jsonUnmarshal_jsonMarshal_any sc _ u hu,
    Chaincode.jsonUnmarshal_jsonMarshal _ v hv⟩

theorem marshal_paired (sc : Smartcontract.Strconv) (id name : String) (isActive : Bool)
    (rating : Float32) :
    (Chaincode.jsonMarshal ⟨id, name, isActive, rating⟩ = .error .UnsupportedValueError ∧
      Smartcontract.jsonMarshal sc ⟨id, name, isActive, rating, none⟩ =
        .error .UnsupportedValueError) ∨
    ∃ v u, Chaincode.jsonMarshal ⟨id, name, isActive, rating⟩ = .ok v ∧
      Smartcontract.jsonMarshal sc ⟨id, name, isActive, rating, none⟩ = .ok u ∧
      Paired sc v u := by
  cases hfin : rating.isFinite with
  | false =>
    exact Or.inl ⟨Chaincode.jsonMarshal_not_finite _ hfin,
      Smartcontract.jsonMarshal_not_finite_nested sc id name isActive rating hfin⟩
  | true =>
    right
    cases hv : Chaincode.jsonMarshal ⟨id, name, isActive, rating⟩ with
    | error e =>
      have := Chaincode.jsonMarshal_ok ⟨id, name, isActive, rating⟩ hfin
      simp [hv, Except.isOk, Except.toBool] at this
    | ok v =>
      cases hu : Smartcontract.jsonMarshal sc ⟨id, name, isActive, rating, none⟩ with
      | error e =>
        have := Smartcontract.jsonMarshal_ok_nested sc id name isActive rating hfin
        simp [hu, Except.isOk, Except.toBool] at this
      | ok u => exact ⟨v, u, rfl, rfl, id, name, isActive, rating, hv, hu⟩

theorem parallel_get (sc : Smartcontract.Strconv) (s : Store Chaincode.Value)
    (t : Store Smartcontract.Value) (h : Parallel sc s t) (key : String) :
    (s.get key = none ∧ t.get key = none) ∨
    ∃ v u, s.get key = some v ∧ t.get key = some u ∧ Paired sc v u := by
  induction h with
  | nil => exact Or.inl ⟨rfl, rfl⟩
  | @cons a b s1 t1 hab _ ih =>
    obtain ⟨ka, va⟩ := a
    obtain ⟨kb, vb⟩ := b
    obtain ⟨hk, hp⟩ := hab
    simp only at hk hp
    subst hk
    by_cases h1 : ka = key
    · exact Or.inr ⟨va, vb, by simp [Store.get, h1], by simp [Store.get, h1], hp⟩
    · simpa [Store.get, h1] using ih

theorem parallel_put (sc : Smartcontract.Strconv) (s : Store Chaincode.Value)
    (t : Store Smartcontract.Value) (h : Parallel sc s t) (key : String)
    (v : Chaincode.Value) (u : Smartcontract.Value) (hvu : Paired sc v u) :
    Parallel sc (s.put key v) (t.put key u) := by
  induction h with
  | nil => exact List.Forall₂.cons ⟨rfl, hvu⟩ List.Forall₂.nil
  | @cons a b s1 t1 hab hrest ih =>
    obtain ⟨ka, va⟩ := a
    obtain ⟨kb, vb⟩ := b
    obtain ⟨hk, hp⟩ := hab
    simp only at hk hp
    subst hk
    by_cases h1 : ka = key
    · simp only [Store.put, h1, if_true]
      exact List.Forall₂.cons ⟨rfl, hvu⟩ hrest
    · by_cases h2 : key.data < ka.data
      · simp only [Store.put, h1, h2, if_false, if_true]
        exact List.Forall₂.cons ⟨rfl, hvu⟩ (List.Forall₂.cons ⟨rfl, hp⟩ hrest)
      · simp only [Store.put, h1, h2, if_false]
        exact List.Forall₂.cons ⟨rfl, hp⟩ ih

theorem parallel_del (sc : Smartcontract.Strconv) (s : Store Chaincode.Value)
    (t : Store Smartcontract.Value) (h : Parallel sc s t) (key : String) :
    Parallel sc (s.del key) (t.del key) := by
  induction h with
  | nil => exact List.Forall₂.nil
  | @cons a b s1 t1 hab hrest ih =>
    obtain ⟨ka, va⟩ := a
    obtain ⟨kb, vb⟩ := b
    obtain ⟨hk, hp⟩ := hab
    simp only at hk hp
    subst hk
    have ih1 : List.Forall₂ (fun a b => a.1 = b.1 ∧ Paired sc a.2 b.2)
        (List.filter (fun kv => decide (kv.1 ≠ key)) s1)
        (List.filter (fun kv => decide (kv.1 ≠ key)) t1) := ih
    by_cases h1 : ka = key
    · simpa [Store.del, Parallel, List.filter_cons, h1] using ih1
    · simp only [Store.del, Parallel, List.filter_cons, h1, ne_eq, not_false_eq_true,
        decide_True, if_true]
      exact List.Forall₂.cons ⟨rfl, hp⟩ ih1

theorem parallel_keys (sc : Smartcontract.Strconv) (s : Store Chaincode.Value)
    (t : Store Smartcontract.Value) (h : Parallel sc s t) : t.keys = s.keys := by
  induction h with
  | nil => rfl
  | @cons a b s1 t1 hab _ ih =>
    have ih1 : List.map Prod.fst t1 = List.map Prod.fst s1 := ih
    simp [Store.keys, hab.1, ih1]

theorem parallel_loop (sc : Smartcontract.Strconv) (s : Store Chaincode.Value)
    (t : Store Smartcontract.Value) (h : Parallel sc s t) (accF : List Chaincode.Hotel)
    (accN : List Smartcontract.Hotel) (hacc : accN.map Smartcontract.Hotel.flat = accF) :
    (Smartcontract.GetAllHotels.loop (t.map .ok) accN).map (List.map Smartcontract.Hotel.flat) =
      Chaincode.GetAllHotels.loop (s.map .ok) accF := by
  induction h generalizing accF accN with
  | nil => simp [Smartcontract.GetAllHotels.loop, Chaincode.GetAllHotels.loop, Except.map, hacc]
  | @cons a b s1 t1 hab _ ih =>
    obtain ⟨x, hx, hxf⟩ := paired_decode sc a.2 b.2 hab.2
    simp only [List.map_cons, Smartcontract.GetAllHotels.loop, Chaincode.GetAllHotels.loop,
      hx, hxf]
    exact ih (accF ++ [x.flat]) (accN ++ [x]) (by simp [hacc])

theorem parallel_invoke (sc : Smartcontract.Strconv) (s : Store Chaincode.Value)
    (t : Store Smartcontract.Value) (h : Parallel sc s t) (c : Call)
    (hc : c ≠ Call.InitLedger) :
    (Smartcontract.invoke sc (memStub Smartcontract.Value) c t).1.map Smartcontract.Hotel.flat =
      (Chaincode.invoke (memStub Chaincode.Value) c s).1 ∧
    Parallel sc (Chaincode.invoke (memStub Chaincode.Value) c s).2
      (Smartcontract.invoke sc (memStub Smartcontract.Value) c t).2 := by
  cases c with
  | InitLedger => exact absurd rfl hc
  | CreateHotel id name isActive rating =>
    simp only [Smartcontract.invoke, Chaincode.invoke, Reply.map]
    rcases parallel_get sc s t h id with ⟨hs, ht⟩ | ⟨v0, u0, hs, ht, _⟩
    · rcases marshal_paired sc id name isActive rating with ⟨hv, hu⟩ | ⟨v, u, hv, hu, hvu⟩
      · have hfin : rating.isFinite = false := by
          cases hf : rating.isFinite with
          | false => rfl
          | true =>
            have := Chaincode.jsonMarshal_ok ⟨id, name, isActive, rating⟩ hf
            simp [hv, Except.isOk, Except.toBool] at this
        rw [Chaincode.CreateHotel_not_finite s id name isActive rating hs hfin,
          Smartcontract.CreateHotel_not_finite_nested sc t id name isActive rating ht hfin]
        exact ⟨rfl, h⟩
      · rw [Chaincode.CreateHotel_absent s id name isActive rating v hs hv,
          Smartcontract.CreateHotel_absent_nested sc t id name isActive rating u ht hu]
        exact ⟨rfl, parallel_put sc s t h id v u hvu⟩
    · rw [Chaincode.CreateHotel_present s id name isActive rating v0 hs,
        Smartcontract.CreateHotel_present_nested sc t id name isActive rating u0 ht]
      exact ⟨rfl, h⟩
  | UpdateHotel id name isActive rating =>
    simp only [Smartcontract.invoke, Chaincode.invoke, Reply.map]
    rcases parallel_get sc s t h id with ⟨hs, ht⟩ | ⟨v0, u0, hs, ht, _⟩
    · rw [Chaincode.UpdateHotel_absent s id name isActive rating hs,
        Smartcontract.UpdateHotel_absent_nested sc t id name isActive rating ht]
      exact ⟨rfl, h⟩
    · rcases marshal_paired sc id name isActive rating with ⟨hv, hu⟩ | ⟨v, u, hv, hu, hvu⟩
      · have hF : Chaincode.UpdateHotel (memStub Chaincode.Value) id name isActive rating s =
            (.error (.json .UnsupportedValueError), s) := by
          unfold Chaincode.UpdateHotel
          rw [Chaincode.HotelExists_mem]
          simp [hs, hv]
        have hN : Smartcontract.UpdateHotel sc (memStub Smartcontract.Value) id name isActive
            rating t = (.error (.json .UnsupportedValueError), t) := by
          unfold Smartcontract.UpdateHotel
          rw [Smartcontract.HotelExists_mem_nested]
          simp [ht, hu]
        rw [hF, hN]
        exact ⟨rfl, h⟩
      · rw [Chaincode.UpdateHotel_present s id name isActive rating v0 v hs hv,
          Smartcontract.UpdateHotel_present_nested sc t id name isActive rating u0 u ht hu]
        exact ⟨rfl, parallel_put sc s t h id v u hvu⟩
  | DeleteHotel id =>
    simp only [Smartcontract.invoke, Chaincode.invoke, Reply.map]
    rcases parallel_get sc s t h id with ⟨hs, ht⟩ | ⟨v0, u0, hs, ht, _⟩
    · rw [Chaincode.DeleteHotel_absent s id hs, Smartcontract.DeleteHotel_absent_nested t id ht]
      exact ⟨rfl, h⟩
    · rw [Chaincode.DeleteHotel_present s id v0 hs,
        Smartcontract.DeleteHotel_present_nested t id u0 ht]
      exact ⟨rfl, parallel_del sc s t h id⟩
  | ReadHotel id =>
    simp only [Smartcontract.invoke, Chaincode.invoke, Reply.map]
    rw [Chaincode.ReadHotel_mem, Smartcontract.ReadHotel_mem_nested]
    refine ⟨?_, h⟩
    rcases parallel_get sc s t h id with ⟨hs, ht⟩ | ⟨v0, u0, hs, ht, hvu⟩
    · simp [hs, ht, Except.map]
    · obtain ⟨x, hx, hxf⟩ := paired_decode sc v0 u0 hvu
      simp [hs, ht, hx, hxf, Except.map]
  | HotelExists id =>
    simp only [Smartcontract.invoke, Chaincode.invoke, Reply.map]
    rw [Chaincode.HotelExists_mem, Smartcontract.HotelExists_mem_nested]
    refine ⟨?_, h⟩
    rcases parallel_get sc s t h id with ⟨hs, ht⟩ | ⟨v0, u0, hs, ht, _⟩
    · simp [hs, ht]
    · simp [hs, ht]
  | GetAllHotels =>
    simp only [Smartcontract.invoke, Chaincode.invoke, Reply.map]
    rw [Chaincode.GetAllHotels_mem, Smartcontract.GetAllHotels_mem_nested]
    refine ⟨?_, h⟩
    have := parallel_loop sc s t h [] [] rfl
    simp [this]

theorem parallel_run (sc : Smartcontract.Strconv) (calls : List Call)
    (s : Store Chaincode.Value) (t : Store Smartcontract.Value) (h : Parallel sc s t)
    (hno : ∀ c ∈ calls, c ≠ Call.InitLedger) :
    (Smartcontract.run sc (memStub Smartcontract.Value) calls t).1.map
        (Reply.map Smartcontract.Hotel.flat) =
      (Chaincode.run (memStub Chaincode.Value) calls s).1 ∧
    Parallel sc (Chaincode.run (memStub Chaincode.Value) calls s).2
      (Smartcontract.run sc (memStub Smartcontract.Value) calls t).2 := by
  induction calls generalizing s t with
  | nil => exact ⟨rfl, h⟩
  | cons c rest ih =>
    obtain ⟨h1, h2⟩ := parallel_invoke sc s t h c (hno c (List.mem_cons_self _ _))
    obtain ⟨h3, h4⟩ := ih _ _ h2 (fun x hx => hno x (List.mem_cons_of_mem _ hx))
    exact ⟨by simp [Smartcontract.run, Chaincode.run, h1, h3], h4⟩

/-- C17: for every sequence of `CreateHotel`, `UpdateHotel`, `DeleteHotel`, `HotelExists`,
`ReadHotel` and `GetAllHotels` invocations, made with the same arguments on the two
packages from the empty world state: at every step the nested package returns what the
flat one returns, the same success or the same error, and the same hotels once each
nested hotel is projected onto `(id, name, isActive, rating)`; and at the end the two
world states hold the same keys. -/
theorem packages_parallel (sc : Smartcontract.Strconv) (calls : List Call)
    (hno : ∀ c ∈ calls, c ≠ Call.InitLedger) :
    (Smartcontract.run sc (memStub Smartcontract.Value) calls []).1.map
        (Reply.map Smartcontract.Hotel.flat) =
      (Chaincode.run (memStub Chaincode.Value) calls []).1 ∧
    (Smartcontract.run sc (memStub Smartcontract.Value) calls []).2.keys =
      (Chaincode.run (memStub Chaincode.Value) calls []).2.keys :=
  have h := parallel_run sc calls [] [] List.Forall₂.nil hno
  ⟨h.1, parallel_keys sc _ _ h.2⟩

/-- Witness of C17: `"5"` is created twice, read, a missing `"6"` is updated, all hotels
are listed, `"5"` is deleted and looked up. -/
theorem packages_parallel_witness :
    (∀ c ∈ [Call.CreateHotel "5" "Legend Saigon" true Float32.lit_8_1,
        Call.CreateHotel "5" "Milan" false Float32.lit_4_5,
        Call.ReadHotel "5",
        Call.UpdateHotel "6" "Roma" true Float32.lit_4_2,
        Call.GetAllHotels,
        Call.DeleteHotel "5",
        Call.HotelExists "5"], c ≠ Call.InitLedger) ∧
    (Smartcontract.run Smartcontract.plainStrconv (memStub Smartcontract.Value)
        [Call.CreateHotel "5" "Legend Saigon" true Float32.lit_8_1,
          Call.CreateHotel "5" "Milan" false Float32.lit_4_5,
          Call.ReadHotel "5",
          Call.UpdateHotel "6" "Roma" true Float32.lit_4_2,
          Call.GetAllHotels,
          Call.DeleteHotel "5",
          Call.HotelExists "5"] []).1.map (Reply.map Smartcontract.Hotel.flat) =
      (Chaincode.run (memStub Chaincode.Value)
        [Call.CreateHotel "5" "Legend Saigon" true Float32.lit_8_1,
          Call.CreateHotel "5" "Milan" false Float32.lit_4_5,
          Call.ReadHotel "5",
          Call.UpdateHotel "6" "Roma" true Float32.lit_4_2,
          Call.GetAllHotels,
          Call.DeleteHotel "5",
          Call.HotelExists "5"] []).1 ∧
    (Smartcontract.run Smartcontract.plainStrconv (memStub Smartcontract.Value)
        [Call.CreateHotel "5" "Legend Saigon" true Float32.lit_8_1,
          Call.CreateHotel "5" "Milan" false Float32.lit_4_5,
          Call.ReadHotel "5",
          Call.UpdateHotel "6" "Roma" true Float32.lit_4_2,
          Call.GetAllHotels,
          Call.DeleteHotel "5",
          Call.HotelExists "5"] []).2.keys =
      (Chaincode.run (memStub Chaincode.Value)
        [Call.CreateHotel "5" "Legend Saigon" true Float32.lit_8_1,
          Call.CreateHotel "5" "Milan" false Float32.lit_4_5,
          Call.ReadHotel "5",
          Call.UpdateHotel "6" "Roma" true Float32.lit_4_2,
          Call.GetAllHotels,
          Call.DeleteHotel "5",
          Call.HotelExists "5"] []).2.keys :=
  have hno : ∀ c ∈ [Call.CreateHotel "5" "Legend Saigon" true Float32.lit_8_1,
      Call.CreateHotel "5" "Milan" false Float32.lit_4_5,
      Call.ReadHotel "5",
      Call.UpdateHotel "6" "Roma" true Float32.lit_4_2,
      Call.GetAllHotels,
      Call.DeleteHotel "5",
      Call.HotelExists "5"], c ≠ Call.InitLedger := by
    intro c hc
    simp only [List.mem_cons, List.mem_singleton, List.not_mem_nil, or_false] at hc
    rcases hc with rfl | rfl | rfl | rfl | rfl | rfl | rfl <;> exact Call.noConfusion
  ⟨hno, packages_parallel Smartcontract.plainStrconv _ hno⟩

/-! ## Closing the iterator -/

/-- C18: in both packages, on a ledger that counts the calls of the iterator's `Close()`:
when the range query yields an iterator, `GetAllHotels` closes it exactly once whatever
the iterator returns, be it on normal completion, on an error of `Next()`, or on a value
that does not decode; when the range query itself fails, `GetAllHotels` returns the error
built from it and closes nothing. -/
theorem iterator_closed_once (n : Nat) (msg : String) (key : String) (raw : List Nat)
    (its : List (Except String (String × Chaincode.Value)))
    (itt : List (Except String (String × Smartcontract.Value))) :
    ((Chaincode.GetAllHotels (scanStub Chaincode.Value (.ok its)) n).2 = n + 1 ∧
      Chaincode.GetAllHotels (scanStub Chaincode.Value (.ok [])) n = (.ok [], n + 1) ∧
      Chaincode.GetAllHotels (scanStub Chaincode.Value (.ok (.error msg :: its))) n =
        (.error (.ledger msg), n + 1) ∧
      Chaincode.GetAllHotels (scanStub Chaincode.Value
          (.ok (.ok (key, .malformed raw) :: its))) n =
        (.error (.json .SyntaxError), n + 1) ∧
      Chaincode.GetAllHotels (scanStub Chaincode.Value (.error msg)) n =
        (.error (.errorf ("failed to read from world state: " ++ msg)), n)) ∧
    ((Smartcontract.GetAllHotels (scanStub Smartcontract.Value (.ok itt)) n).2 = n + 1 ∧
      Smartcontract.GetAllHotels (scanStub Smartcontract.Value (.ok [])) n = (.ok [], n + 1) ∧
      Smartcontract.GetAllHotels (scanStub Smartcontract.Value (.ok (.error msg :: itt))) n =
        (.error (.ledger msg), n + 1) ∧
      Smartcontract.GetAllHotels (scanStub Smartcontract.Value
          (.ok (.ok (key, .malformed raw) :: itt))) n =
        (.error (.json .SyntaxError), n + 1) ∧
      Smartcontract.GetAllHotels (scanStub Smartcontract.Value (.error msg)) n =
        (.error (.errorf ("failed to read from world state: " ++ msg)), n)) :=
  ⟨⟨rfl, rfl, rfl, rfl, rfl⟩, ⟨rfl, rfl, rfl, rfl, rfl⟩⟩

/-! ## Service levels -/

/-- C19: in the nested package, in every world state reached from the empty one by a
sequence of invocations, every stored value decodes to a hotel whose service levels are
nil, unless it is the value stored under `"1"` and decodes to exactly the seed hotel of
`InitLedger`. `CreateHotel` and `UpdateHotel`, on every world state, either leave it as it
is or write under `id` the encoding of the hotel with the given fields and nil service
levels, so that whenever they succeed `ReadHotel(id)` returns that hotel: no invocation
adds or changes a service level or an agreement. -/
theorem service_levels_only_seeded (sc : Smartcontract.Strconv) (calls : List Call)
    (s : Store Smartcontract.Value) (id name : String) (isActive : Bool) (rating : Float32) :
    (∀ kv ∈ (Smartcontract.run sc (memStub Smartcontract.Value) calls []).2,
      ∃ h, Smartcontract.jsonUnmarshal kv.2 = .ok h ∧
        (h.ServiceLevels = none ∨ (kv.1 = "1" ∧ h = Smartcontract.seedHotel))) ∧
    ((Smartcontract.CreateHotel sc (memStub Smartcontract.Value) id name isActive rating s).2 =
        s ∨
      ∃ v, Smartcontract.jsonMarshal sc
          { ID := id, Name := name, IsActive := isActive, Rating := rating,
            ServiceLevels := none } = .ok v ∧
        (Smartcontract.CreateHotel sc (memStub Smartcontract.Value) id name isActive rating
          s).2 = s.put id v) ∧
    ((Smartcontract.UpdateHotel sc (memStub Smartcontract.Value) id name isActive rating s).2 =
        s ∨
      ∃ v, Smartcontract.jsonMarshal sc
          { ID := id, Name := name, IsActive := isActive, Rating := rating,
            ServiceLevels := none } = .ok v ∧
        (Smartcontract.UpdateHotel sc (memStub Smartcontract.Value) id name isActive rating
          s).2 = s.put id v) ∧
    ((Smartcontract.CreateHotel sc (memStub Smartcontract.Value) id name isActive rating s).1 =
        .ok () →
      (Smartcontract.ReadHotel (memStub Smartcontract.Value) id
        (Smartcontract.CreateHotel sc (memStub Smartcontract.Value) id name isActive rating
          s).2).1 =
        .ok { ID := id, Name := name, IsActive := isActive, Rating := rating,
              ServiceLevels := none }) ∧
    ((Smartcontract.UpdateHotel sc (memStub Smartcontract.Value) id name isActive rating s).1 =
        .ok () →
      (Smartcontract.ReadHotel (memStub Smartcontract.Value) id
        (Smartcontract.UpdateHotel sc (memStub Smartcontract.Value) id name isActive rating
          s).2).1 =
        .ok { ID := id, Name := name, IsActive := isActive, Rating := rating,
              ServiceLevels := none }) := by
  refine ⟨?_, Smartcontract.CreateHotel_state_nested sc s id name isActive rating,
    Smartcontract.UpdateHotel_state_nested sc s id name isActive rating, ?_, ?_⟩
  · apply Smartcontract.run_invariant_nested
    · intro id name isActive rating v hv
      exact ⟨_, Smartcontract.jsonUnmarshal_jsonMarshal_any sc _ v hv, Or.inl rfl⟩
    · intro kv hkv
      rcases List.mem_cons.mp hkv with rfl | hkv
      · exact ⟨Smartcontract.seedHotel,
          Smartcontract.jsonUnmarshal_jsonMarshal_any sc Smartcontract.seedHotel _ rfl,
          Or.inr ⟨rfl, rfl⟩⟩
      · cases hkv
    · intro kv hkv
      cases hkv
  · intro hok
    obtain ⟨v, _, hv, hput⟩ := Smartcontract.CreateHotel_ok_nested sc s id name isActive rating hok
    rw [hput, Smartcontract.ReadHotel_mem_nested]
    simp [Store.get_put_self, Smartcontract.jsonUnmarshal_jsonMarshal_any sc _ v hv]
  · intro hok
    cases hs : s.get id with
    | none =>
      rw [Smartcontract.UpdateHotel_absent_nested sc s id name isActive rating hs] at hok
      cases hok
    | some v0 =>
      cases hv : Smartcontract.jsonMarshal sc ⟨id, name, isActive, rating, none⟩ with
      | error e =>
        have hfail : Smartcontract.UpdateHotel sc (memStub Smartcontract.Value) id name isActive
            rating s = (.error (.json e), s) := by
          unfold Smartcontract.UpdateHotel
          rw [Smartcontract.HotelExists_mem_nested]
          simp [hs, hv]
        rw [hfail] at hok
        cases hok
      | ok v =>
        rw [Smartcontract.UpdateHotel_present_nested sc s id name isActive rating v0 v hs hv,
          Smartcontract.ReadHotel_mem_nested]
        simp [Store.get_put_self, Smartcontract.jsonUnmarshal_jsonMarshal_any sc _ v hv]

/-! ## Queries -/

/-- C20: in both packages the queries `ReadHotel`, `HotelExists` and `GetAllHotels` never
write. For every world state and argument, whether they succeed or fail, they return the
world state as it was, so that the same query made again gives the same result; and
they make no use of `PutState` and `DelState`: on any ledger, putting other functions in
their place changes nothing in what a query returns and leaves. -/
theorem queries_do_not_write (s : Store Chaincode.Value) (t : Store Smartcontract.Value)
    (id : String) (σ : Type) (w : σ) (stub : ChaincodeStub σ Chaincode.Value)
    (stub2 : ChaincodeStub σ Smartcontract.Value)
    (put : String → Chaincode.Value → σ → Except String Unit × σ)
    (put2 : String → Smartcontract.Value → σ → Except String Unit × σ)
    (del : String → σ → Except String Unit × σ) :
    (((Chaincode.ReadHotel (memStub Chaincode.Value) id s).2 = s ∧
        (Chaincode.HotelExists (memStub Chaincode.Value) id s).2 = s ∧
        (Chaincode.GetAllHotels (memStub Chaincode.Value) s).2 = s) ∧
      (Chaincode.ReadHotel (memStub Chaincode.Value) id
          (Chaincode.ReadHotel (memStub Chaincode.Value) id s).2 =
          Chaincode.ReadHotel (memStub Chaincode.Value) id s ∧
        Chaincode.HotelExists (memStub Chaincode.Value) id
          (Chaincode.HotelExists (memStub Chaincode.Value) id s).2 =
          Chaincode.HotelExists (memStub Chaincode.Value) id s ∧
        Chaincode.GetAllHotels (memStub Chaincode.Value)
          (Chaincode.GetAllHotels (memStub Chaincode.Value) s).2 =
          Chaincode.GetAllHotels (memStub Chaincode.Value) s) ∧
      (Chaincode.ReadHotel { stub with PutState := put, DelState := del } id w =
          Chaincode.ReadHotel stub id w ∧
        Chaincode.HotelExists { stub with PutState := put, DelState := del } id w =
          Chaincode.HotelExists stub id w ∧
        Chaincode.GetAllHotels { stub with PutState := put, DelState := del } w =
          Chaincode.GetAllHotels stub w)) ∧
    (((Smartcontract.ReadHotel (memStub Smartcontract.Value) id t).2 = t ∧
        (Smartcontract.HotelExists (memStub Smartcontract.Value) id t).2 = t ∧
        (Smartcontract.GetAllHotels (memStub Smartcontract.Value) t).2 = t) ∧
      (Smartcontract.ReadHotel (memStub Smartcontract.Value) id
          (Smartcontract.ReadHotel (memStub Smartcontract.Value) id t).2 =
          Smartcontract.ReadHotel (memStub Smartcontract.Value) id t ∧
        Smartcontract.HotelExists (memStub Smartcontract.Value) id
          (Smartcontract.HotelExists (memStub Smartcontract.Value) id t).2 =
          Smartcontract.HotelExists (memStub Smartcontract.Value) id t ∧
        Smartcontract.GetAllHotels (memStub Smartcontract.Value)
          (Smartcontract.GetAllHotels (memStub Smartcontract.Value) t).2 =
          Smartcontract.GetAllHotels (memStub Smartcontract.Value) t) ∧
      (Smartcontract.ReadHotel { stub2 with PutState := put2, DelState := del } id w =
          Smartcontract.ReadHotel stub2 id w ∧
        Smartcontract.HotelExists { stub2 with PutState := put2, DelState := del } id w =
          Smartcontract.HotelExists stub2 id w ∧
        Smartcontract.GetAllHotels { stub2 with PutState := put2, DelState := del } w =
          Smartcontract.GetAllHotels stub2 w)) := by
  have r1 := Chaincode.ReadHotel_mem s id
  have e1 := Chaincode.HotelExists_mem s id
  have g1 := Chaincode.GetAllHotels_mem s
  have r2 := Smartcontract.ReadHotel_mem_nested t id
  have e2 := Smartcontract.HotelExists_mem_nested t id
  have g2 := Smartcontract.GetAllHotels_mem_nested t
  refine ⟨⟨⟨by rw [r1], by rw [e1], by rw [g1]⟩, ⟨?_, ?_, ?_⟩, ⟨rfl, rfl, rfl⟩⟩,
    ⟨⟨by rw [r2], by rw [e2], by rw [g2]⟩, ⟨?_, ?_, ?_⟩, ⟨rfl, rfl, rfl⟩⟩⟩
  · have h : (Chaincode.ReadHotel (memStub Chaincode.Value) id s).2 = s := by rw [r1]
    rw [h]
  · have h : (Chaincode.HotelExists (memStub Chaincode.Value) id s).2 = s := by rw [e1]
    rw [h]
  · have h : (Chaincode.GetAllHotels (memStub Chaincode.Value) s).2 = s := by rw [g1]
    rw [h]
  · have h : (Smartcontract.ReadHotel (memStub Smartcontract.Value) id t).2 = t := by rw [r2]
    rw [h]
  · have h : (Smartcontract.HotelExists (memStub Smartcontract.Value) id t).2 = t := by rw [e2]
    rw [h]
  · have h : (Smartcontract.GetAllHotels (memStub Smartcontract.Value) t).2 = t := by rw [g2]
    rw [h]

/-! ## Instances of the statements on reached world states -/

/-- Witness of C13: the world state holds bytes that are not JSON under the seed keys
`"hotel1"` (flat) and `"1"` (nested), and a hotel under `"5"`, which is no seed key. After
`InitLedger` the seed keys read back as the seed hotels and `"5"` holds what it held. -/
theorem init_overwrites_witness :
    (Store.get [("5", Chaincode.legendSaigon), ("hotel1", .malformed [123])] "hotel1" =
        some (.malformed [123]) ∧
      Store.get [("1", Bytes.malformed [123]), ("5", Smartcontract.legendSaigon)] "1" =
        some (.malformed [123])) ∧
    ((Chaincode.ReadHotel (memStub Chaincode.Value) "hotel1"
        (Chaincode.InitLedger (memStub Chaincode.Value)
          [("5", Chaincode.legendSaigon), ("hotel1", .malformed [123])]).2).1 =
        .ok { ID := "hotel1", Name := "Venice", IsActive := true, Rating := Float32.lit_5_0 } ∧
      (Chaincode.InitLedger (memStub Chaincode.Value)
          [("5", Chaincode.legendSaigon), ("hotel1", .malformed [123])]).2.get "5" =
        Store.get [("5", Chaincode.legendSaigon), ("hotel1", .malformed [123])] "5") ∧
    ((Smartcontract.ReadHotel (memStub Smartcontract.Value) "1"
        (Smartcontract.InitLedger Smartcontract.plainStrconv (memStub Smartcontract.Value)
          [("1", .malformed [123]), ("5", Smartcontract.legendSaigon)]).2).1 =
        .ok Smartcontract.seedHotel ∧
      (Smartcontract.InitLedger Smartcontract.plainStrconv (memStub Smartcontract.Value)
          [("1", .malformed [123]), ("5", Smartcontract.legendSaigon)]).2.get "5" =
        Store.get [("1", Bytes.malformed [123]), ("5", Smartcontract.legendSaigon)] "5") :=
  have w := init_overwrites [("5", Chaincode.legendSaigon), ("hotel1", .malformed [123])]
    [("1", .malformed [123]), ("5", Smartcontract.legendSaigon)] Smartcontract.plainStrconv
  have hflat : ∀ h ∈ Chaincode.seedHotels, h.ID ≠ "5" := by
    intro h hh
    rcases List.mem_cons.mp hh with rfl | hh
    · decide
    rcases List.mem_cons.mp hh with rfl | hh
    · decide
    rcases List.mem_cons.mp hh with rfl | hh
    · decide
    cases hh
  have hnested : ∀ h ∈ Smartcontract.seedHotels, h.ID ≠ "5" := by
    intro h hh
    rcases List.mem_cons.mp hh with rfl | hh
    · decide
    cases hh
  ⟨⟨rfl, rfl⟩,
    ⟨w.1.2.1 { ID := "hotel1", Name := "Venice", IsActive := true, Rating := Float32.lit_5_0 }
        (List.mem_cons_self _ _),
      w.1.2.2.1 "5" hflat⟩,
    ⟨w.2.2.1 Smartcontract.seedHotel (List.mem_cons_self _ _), w.2.2.2.1 "5" hnested⟩⟩

/-- Witness of C14: after `InitLedger`, `CreateHotel("5", ...)`, `UpdateHotel("hotel1", ...)`
and `DeleteHotel("hotel2")`, the flat world state holds a value under `"5"`, and it
decodes to a hotel with the id `"5"`; so does the nested one. -/
theorem key_is_id_witness :
    ((Chaincode.run (memStub Chaincode.Value)
        [Call.InitLedger, Call.CreateHotel "5" "Legend Saigon" true Float32.lit_8_1,
          Call.UpdateHotel "hotel1" "Roma" false Float32.lit_4_2,
          Call.DeleteHotel "hotel2"] []).2.get "5" = some Chaincode.legendSaigon ∧
      (Smartcontract.run Smartcontract.plainStrconv (memStub Smartcontract.Value)
        [Call.InitLedger, Call.CreateHotel "5" "Legend Saigon" true Float32.lit_8_1,
          Call.UpdateHotel "hotel1" "Roma" false Float32.lit_4_2,
          Call.DeleteHotel "hotel2"] []).2.get "5" = some Smartcontract.legendSaigon) ∧
    (∃ h, Chaincode.jsonUnmarshal Chaincode.legendSaigon = .ok h ∧ h.ID = "5") ∧
    (∃ h, Smartcontract.jsonUnmarshal Smartcontract.legendSaigon = .ok h ∧ h.ID = "5") :=
  have w := key_is_id Smartcontract.plainStrconv
    [Call.InitLedger, Call.CreateHotel "5" "Legend Saigon" true Float32.lit_8_1,
      Call.UpdateHotel "hotel1" "Roma" false Float32.lit_4_2, Call.DeleteHotel "hotel2"]
  ⟨⟨rfl, rfl⟩, w.1.2 "5" Chaincode.legendSaigon rfl, w.2.2 "5" Smartcontract.legendSaigon rfl⟩

/-- Witness of C19: after `InitLedger` and `CreateHotel("5", ...)` the nested world state
holds the seed hotel under `"1"` and a hotel with nil service levels under `"5"`; and
`CreateHotel("5", ...)` on the empty world state, `UpdateHotel("1", ...)` on the seeded
one succeed and leave hotels that read back with nil service levels. -/
theorem service_levels_only_seeded_witness :
    ((Smartcontract.CreateHotel Smartcontract.plainStrconv (memStub Smartcontract.Value) "1"
        "Roma" false Float32.lit_4_2 []).1 = .ok () ∧
      (Smartcontract.UpdateHotel Smartcontract.plainStrconv (memStub Smartcontract.Value) "1"
        "Roma" false Float32.lit_4_2 Smartcontract.seeded).1 = .ok ()) ∧
    ((Smartcontract.ReadHotel (memStub Smartcontract.Value) "1"
        (Smartcontract.CreateHotel Smartcontract.plainStrconv (memStub Smartcontract.Value) "1"
          "Roma" false Float32.lit_4_2 []).2).1 =
        .ok { ID := "1", Name := "Roma", IsActive := false, Rating := Float32.lit_4_2,
              ServiceLevels := none } ∧
      (Smartcontract.ReadHotel (memStub Smartcontract.Value) "1"
        (Smartcontract.UpdateHotel Smartcontract.plainStrconv (memStub Smartcontract.Value) "1"
          "Roma" false Float32.lit_4_2 Smartcontract.seeded).2).1 =
        .ok { ID := "1", Name := "Roma", IsActive := false, Rating := Float32.lit_4_2,
              ServiceLevels := none }) ∧
    (∀ kv ∈ (Smartcontract.run Smartcontract.plainStrconv (memStub Smartcontract.Value)
        [Call.InitLedger, Call.CreateHotel "5" "Legend Saigon" true Float32.lit_8_1] []).2,
      ∃ h, Smartcontract.jsonUnmarshal kv.2 = .ok h ∧
        (h.ServiceLevels = none ∨ (kv.1 = "1" ∧ h = Smartcontract.seedHotel))) :=
  have w1 := service_levels_only_seeded Smartcontract.plainStrconv
    [Call.InitLedger, Call.CreateHotel "5" "Legend Saigon" true Float32.lit_8_1]
    [] "1" "Roma" false Float32.lit_4_2
  have w2 := service_levels_only_seeded Smartcontract.plainStrconv []
    Smartcontract.seeded "1" "Roma" false Float32.lit_4_2
  ⟨⟨rfl, rfl⟩, ⟨w1.2.2.2.1 rfl, w2.2.2.2.2 rfl⟩, w1.1⟩

/-! ## Go strings: encoding and decoding -/

namespace GoString

theorem char_range (c : Char) :
    c.toNat < 0xD800 ∨ (0xDFFF < c.toNat ∧ c.toNat < 0x110000) := by
  have h := c.valid
  simp only [UInt32.isValidChar, Nat.isValidChar] at h
  have : c.toNat = c.val.toNat := rfl
  omega

theorem decodeRunes_encodeRune (c : Char) (rest : List Nat) :
    decodeRunes 0 (encodeRune c ++ rest) = c :: decodeRunes 0 rest := by
  have hr := char_range c
  have hc := Char.ofNat_toNat c
  unfold encodeRune
  generalize c.toNat = n at hr hc
  by_cases h1 : n < 0x80
  · simp only [h1, if_true, List.cons_append, List.nil_append, decodeRunes, decodeRune, hc,
      Nat.sub_self]
  · by_cases h2 : n < 0x800
    · have a1 : ¬ (0xC0 + n / 64 < 0x80) := by omega
      have a2 : 0xC2 ≤ 0xC0 + n / 64 ∧ 0xC0 + n / 64 ≤ 0xDF := by omega
      have a3 : 0x80 ≤ 0x80 + n % 64 ∧ 0x80 + n % 64 ≤ 0xBF := by omega
      have a4 : (0xC0 + n / 64 - 0xC0) * 64 + (0x80 + n % 64 - 0x80) = n := by omega
      simp only [h1, h2, if_true, if_false, List.cons_append, List.nil_append, decodeRunes,
        decodeRune, a1, a2, a3, a4, hc, and_self]
    · by_cases h3 : n < 0x10000
      · have a1 : ¬ (0xE0 + n / 4096 < 0x80) := by omega
        have a2 : ¬ (0xC2 ≤ 0xE0 + n / 4096 ∧ 0xE0 + n / 4096 ≤ 0xDF) := by omega
        have a3 : 0xE0 ≤ 0xE0 + n / 4096 ∧ 0xE0 + n / 4096 ≤ 0xEF := by omega
        have a4 : (if 0xE0 + n / 4096 = 0xE0 then 0xA0 else 0x80) ≤ 0x80 + n / 64 % 64 ∧
            0x80 + n / 64 % 64 ≤ (if 0xE0 + n / 4096 = 0xED then 0x9F else 0xBF) ∧
            0x80 ≤ 0x80 + n % 64 ∧ 0x80 + n % 64 ≤ 0xBF := by
          split_ifs <;> omega
        have a5 : (0xE0 + n / 4096 - 0xE0) * 4096 + (0x80 + n / 64 % 64 - 0x80) * 64 +
            (0x80 + n % 64 - 0x80) = n := by omega
        simp only [h1, h2, h3, if_true, if_false, List.cons_append, List.nil_append,
          decodeRunes, decodeRune, a1, a2, a3, a5, hc, and_self]
        rw [if_pos a4]
        simp only [a5, hc]
        rfl
      · have a1 : ¬ (0xF0 + n / 262144 < 0x80) := by omega
        have a2 : ¬ (0xC2 ≤ 0xF0 + n / 262144 ∧ 0xF0 + n / 262144 ≤ 0xDF) := by omega
        have a3 : ¬ (0xE0 ≤ 0xF0 + n / 262144 ∧ 0xF0 + n / 262144 ≤ 0xEF) := by omega
        have a3b : 0xF0 ≤ 0xF0 + n / 262144 ∧ 0xF0 + n / 262144 ≤ 0xF4 := by omega
        have a4 : (if 0xF0 + n / 262144 = 0xF0 then 0x90 else 0x80) ≤ 0x80 + n / 4096 % 64 ∧
            0x80 + n / 4096 % 64 ≤ (if 0xF0 + n / 262144 = 0xF4 then 0x8F else 0xBF) ∧
            0x80 ≤ 0x80 + n / 64 % 64 ∧ 0x80 + n / 64 % 64 ≤ 0xBF ∧
            0x80 ≤ 0x80 + n % 64 ∧ 0x80 + n % 64 ≤ 0xBF := by
          split_ifs <;> omega
        have a5 : (0xF0 + n / 262144 - 0xF0) * 262144 + (0x80 + n / 4096 % 64 - 0x80) * 4096 +
            (0x80 + n / 64 % 64 - 0x80) * 64 + (0x80 + n % 64 - 0x80) = n := by omega
        simp only [h1, h2, h3, if_true, if_false, List.cons_append, List.nil_append,
          decodeRunes, decodeRune, a1, a2, a3, a3b, and_self]
        rw [if_pos a4]
        simp only [a5, hc]
        rfl

theorem decodeRunes_ofText (cs : List Char) :
    decodeRunes 0 ((cs.map encodeRune).flatten) = cs := by
  induction cs with
  | nil => rfl
  | cons c cs ih =>
    rw [List.map_cons, List.flatten_cons, decodeRunes_encodeRune, ih]

theorem toValidUTF8_ofText (s : String) : toValidUTF8 (ofText s) = s := by
  unfold toValidUTF8 ofText
  rw [decodeRunes_ofText]


theorem toNat_ofNat (n : Nat) (h : n < 0xD800 ∨ (0xDFFF < n ∧ n < 0x110000)) :
    (Char.ofNat n).toNat = n := by
  have hv : n.isValidChar := h
  simp only [Char.ofNat, hv, dite_true, Char.ofNatAux, Char.toNat]
  rfl

theorem encodeRune_decodeRune (b0 : Nat) (rest : List Nat)
    (h : decodeRune b0 rest ≠ (runeError, 1)) :
    encodeRune (decodeRune b0 rest).1 ++ rest.drop ((decodeRune b0 rest).2 - 1) = b0 :: rest := by
  unfold decodeRune at h ⊢
  by_cases h1 : b0 < 0x80
  · simp only [h1, if_true] at h ⊢
    have : (Char.ofNat b0).toNat = b0 := toNat_ofNat b0 (by omega)
    simp [encodeRune, this, h1]
  · simp only [h1, if_false] at h ⊢
    by_cases h2 : 0xC2 ≤ b0 ∧ b0 ≤ 0xDF
    · simp only [h2, and_self, if_true] at h ⊢
      cases rest with
      | nil => exact absurd rfl h
      | cons b1 r =>
        simp only at h ⊢
        by_cases c1 : 0x80 ≤ b1 ∧ b1 ≤ 0xBF
        · simp only [c1, and_self, if_true] at h ⊢
          have hn : (Char.ofNat ((b0 - 0xC0) * 64 + (b1 - 0x80))).toNat =
              (b0 - 0xC0) * 64 + (b1 - 0x80) := toNat_ofNat _ (by omega)
          have e1 : ¬ ((b0 - 0xC0) * 64 + (b1 - 0x80) < 0x80) := by omega
          have e2 : (b0 - 0xC0) * 64 + (b1 - 0x80) < 0x800 := by omega
          have e3 : 0xC0 + ((b0 - 0xC0) * 64 + (b1 - 0x80)) / 64 = b0 := by omega
          have e4 : 0x80 + ((b0 - 0xC0) * 64 + (b1 - 0x80)) % 64 = b1 := by omega
          simp [encodeRune, hn, e1, e2, e3, e4]
        · rw [if_neg c1] at h
          exact absurd rfl h
    · simp only [h2, if_false] at h ⊢
      by_cases h3 : 0xE0 ≤ b0 ∧ b0 ≤ 0xEF
      · simp only [h3, and_self, if_true] at h ⊢
        match rest, h with
        | [], h => exact absurd rfl h
        | [_], h => exact absurd rfl h
        | b1 :: b2 :: r, h =>
          simp only at h ⊢
          by_cases c1 : (if b0 = 0xE0 then 0xA0 else 0x80) ≤ b1 ∧
              b1 ≤ (if b0 = 0xED then 0x9F else 0xBF) ∧ 0x80 ≤ b2 ∧ b2 ≤ 0xBF
          · rw [if_pos c1] at h ⊢
            have c2 : (b0 = 0xE0 → 0xA0 ≤ b1) ∧ (b0 = 0xED → b1 ≤ 0x9F) ∧ 0x80 ≤ b1 ∧
                b1 ≤ 0xBF ∧ 0x80 ≤ b2 ∧ b2 ≤ 0xBF := by
              split_ifs at c1 <;> omega
            have hn : (Char.ofNat ((b0 - 0xE0) * 4096 + (b1 - 0x80) * 64 + (b2 - 0x80))).toNat =
                (b0 - 0xE0) * 4096 + (b1 - 0x80) * 64 + (b2 - 0x80) := toNat_ofNat _ (by omega)
            have e1 : ¬ ((b0 - 0xE0) * 4096 + (b1 - 0x80) * 64 + (b2 - 0x80) < 0x80) := by omega
            have e2 : ¬ ((b0 - 0xE0) * 4096 + (b1 - 0x80) * 64 + (b2 - 0x80) < 0x800) := by
              omega
            have e3 : (b0 - 0xE0) * 4096 + (b1 - 0x80) * 64 + (b2 - 0x80) < 0x10000 := by omega
            have e4 : 0xE0 + ((b0 - 0xE0) * 4096 + (b1 - 0x80) * 64 + (b2 - 0x80)) / 4096 = b0 := by
              omega
            have e5 : 0x80 + ((b0 - 0xE0) * 4096 + (b1 - 0x80) * 64 + (b2 - 0x80)) / 64 % 64 =
                b1 := by omega
            have e6 : 0x80 + ((b0 - 0xE0) * 4096 + (b1 - 0x80) * 64 + (b2 - 0x80)) % 64 = b2 := by
              omega
            simp [encodeRune, hn, e1, e2, e3, e4, e5, e6]
          · rw [if_neg c1] at h
            exact absurd rfl h
      · simp only [h3, if_false] at h ⊢
        by_cases h4 : 0xF0 ≤ b0 ∧ b0 ≤ 0xF4
        · simp only [h4, and_self, if_true] at h ⊢
          match rest, h with
          | [], h => exact absurd rfl h
          | [_], h => exact absurd rfl h
          | [_, _], h => exact absurd rfl h
          | b1 :: b2 :: b3 :: r, h =>
            simp only at h ⊢
            by_cases c1 : (if b0 = 0xF0 then 0x90 else 0x80) ≤ b1 ∧
                b1 ≤ (if b0 = 0xF4 then 0x8F else 0xBF) ∧ 0x80 ≤ b2 ∧ b2 ≤ 0xBF ∧
                0x80 ≤ b3 ∧ b3 ≤ 0xBF
            · rw [if_pos c1] at h ⊢
              have c2 : (b0 = 0xF0 → 0x90 ≤ b1) ∧ (b0 = 0xF4 → b1 ≤ 0x8F) ∧ 0x80 ≤ b1 ∧
                  b1 ≤ 0xBF ∧ 0x80 ≤ b2 ∧ b2 ≤ 0xBF ∧ 0x80 ≤ b3 ∧ b3 ≤ 0xBF := by
                split_ifs at c1 <;> omega
              have hn : (Char.ofNat ((b0 - 0xF0) * 262144 + (b1 - 0x80) * 4096 +
                  (b2 - 0x80) * 64 + (b3 - 0x80))).toNat =
                  (b0 - 0xF0) * 262144 + (b1 - 0x80) * 4096 + (b2 - 0x80) * 64 + (b3 - 0x80) :=
                toNat_ofNat _ (by omega)
              have e1 : ¬ ((b0 - 0xF0) * 262144 + (b1 - 0x80) * 4096 + (b2 - 0x80) * 64 +
                  (b3 - 0x80) < 0x80) := by omega
              have e2 : ¬ ((b0 - 0xF0) * 262144 + (b1 - 0x80) * 4096 + (b2 - 0x80) * 64 +
                  (b3 - 0x80) < 0x800) := by omega
              have e3 : ¬ ((b0 - 0xF0) * 262144 + (b1 - 0x80) * 4096 + (b2 - 0x80) * 64 +
                  (b3 - 0x80) < 0x10000) := by omega
              have e4 : 0xF0 + ((b0 - 0xF0) * 262144 + (b1 - 0x80) * 4096 + (b2 - 0x80) * 64 +
                  (b3 - 0x80)) / 262144 = b0 := by omega
              have e5 : 0x80 + ((b0 - 0xF0) * 262144 + (b1 - 0x80) * 4096 + (b2 - 0x80) * 64 +
                  (b3 - 0x80)) / 4096 % 64 = b1 := by omega
              have e6 : 0x80 + ((b0 - 0xF0) * 262144 + (b1 - 0x80) * 4096 + (b2 - 0x80) * 64 +
                  (b3 - 0x80)) / 64 % 64 = b2 := by omega
              have e7 : 0x80 + ((b0 - 0xF0) * 262144 + (b1 - 0x80) * 4096 + (b2 - 0x80) * 64 +
                  (b3 - 0x80)) % 64 = b3 := by omega
              simp [encodeRune, hn, e1, e2, e3, e4, e5, e6, e7]
            · rw [if_neg c1] at h
              exact absurd rfl h
        · simp only [h4, if_false] at h
          exact absurd rfl h

theorem flatten_decodeRunes (g : List Nat) :
    ∀ skip, validRunes skip g = true →
      ((decodeRunes skip g).map encodeRune).flatten = g.drop skip := by
  induction g with
  | nil => intro skip _; cases skip <;> rfl
  | cons b0 rest ih =>
    intro skip hv
    cases skip with
    | succ k => exact ih k hv
    | zero =>
      simp only [validRunes, Bool.and_eq_true, decide_eq_true_eq] at hv
      simp only [decodeRunes, List.map_cons, List.flatten_cons, List.drop_zero]
      rw [ih _ hv.2]
      exact encodeRune_decodeRune b0 rest hv.1

theorem ofText_toValidUTF8 (g : GoString) (h : g.isValidUTF8 = true) :
    ofText (toValidUTF8 g) = g :=
  flatten_decodeRunes g 0 h


theorem ofNat_ne_runeError (n : Nat) (h : n < 0x80) : Char.ofNat n ≠ runeError := by
  intro he
  have h1 := toNat_ofNat n (by omega)
  rw [he] at h1
  have h2 : runeError.toNat = 0xFFFD := by decide
  omega

theorem validRunes_encodeRune (c : Char) (rest : List Nat) :
    validRunes 0 (encodeRune c ++ rest) = validRunes 0 rest := by
  have hr := char_range c
  have hc := Char.ofNat_toNat c
  unfold encodeRune
  generalize c.toNat = n at hr hc
  by_cases h1 : n < 0x80
  · have := ofNat_ne_runeError n h1
    simp [h1, validRunes, decodeRune, this]
  · by_cases h2 : n < 0x800
    · have a1 : ¬ (0xC0 + n / 64 < 0x80) := by omega
      have a2 : 0xC2 ≤ 0xC0 + n / 64 ∧ 0xC0 + n / 64 ≤ 0xDF := by omega
      have a3 : 0x80 ≤ 0x80 + n % 64 ∧ 0x80 + n % 64 ≤ 0xBF := by omega
      simp only [h1, h2, if_true, if_false, List.cons_append, List.nil_append, validRunes,
        decodeRune, a1, a2, a3, and_self]
      simp
    · by_cases h3 : n < 0x10000
      · have a1 : ¬ (0xE0 + n / 4096 < 0x80) := by omega
        have a2 : ¬ (0xC2 ≤ 0xE0 + n / 4096 ∧ 0xE0 + n / 4096 ≤ 0xDF) := by omega
        have a3 : 0xE0 ≤ 0xE0 + n / 4096 ∧ 0xE0 + n / 4096 ≤ 0xEF := by omega
        have a4 : (if 0xE0 + n / 4096 = 0xE0 then 0xA0 else 0x80) ≤ 0x80 + n / 64 % 64 ∧
            0x80 + n / 64 % 64 ≤ (if 0xE0 + n / 4096 = 0xED then 0x9F else 0xBF) ∧
            0x80 ≤ 0x80 + n % 64 ∧ 0x80 + n % 64 ≤ 0xBF := by
          split_ifs <;> omega
        simp only [h1, h2, h3, if_true, if_false, List.cons_append, List.nil_append,
          validRunes, decodeRune, a1, a2, a3, and_self]
        rw [if_pos a4]
        simp [validRunes]
      · have a1 : ¬ (0xF0 + n / 262144 < 0x80) := by omega
        have a2 : ¬ (0xC2 ≤ 0xF0 + n / 262144 ∧ 0xF0 + n / 262144 ≤ 0xDF) := by omega
        have a3 : ¬ (0xE0 ≤ 0xF0 + n / 262144 ∧ 0xF0 + n / 262144 ≤ 0xEF) := by omega
        have a3b : 0xF0 ≤ 0xF0 + n / 262144 ∧ 0xF0 + n / 262144 ≤ 0xF4 := by omega
        have a4 : (if 0xF0 + n / 262144 = 0xF0 then 0x90 else 0x80) ≤ 0x80 + n / 4096 % 64 ∧
            0x80 + n / 4096 % 64 ≤ (if 0xF0 + n / 262144 = 0xF4 then 0x8F else 0xBF) ∧
            0x80 ≤ 0x80 + n / 64 % 64 ∧ 0x80 + n / 64 % 64 ≤ 0xBF ∧
            0x80 ≤ 0x80 + n % 64 ∧ 0x80 + n % 64 ≤ 0xBF := by
          split_ifs <;> omega
        simp only [h1, h2, h3, if_true, if_false, List.cons_append, List.nil_append,
          validRunes, decodeRune, a1, a2, a3, a3b, and_self]
        rw [if_pos a4]
        simp [validRunes]

theorem isValidUTF8_ofText (s : String) : (ofText s).isValidUTF8 = true := by
  unfold isValidUTF8 ofText
  induction s.data with
  | nil => rfl
  | cons c cs ih => rw [List.map_cons, List.flatten_cons, validRunes_encodeRune, ih]

theorem isValidUTF8_iff (g : GoString) : g.isValidUTF8 = true ↔ ∃ s : String, g = ofText s :=
  ⟨fun h => ⟨toValidUTF8 g, (ofText_toValidUTF8 g h).symm⟩,
    fun ⟨s, hs⟩ => hs ▸ isValidUTF8_ofText s⟩


end GoString

/-! ## The codec and the methods on Go strings -/

namespace Chaincode.Go

theorem jsonMarshal_ok_bytes (h : Hotel) (hfin : h.Rating.isFinite = true) :
    ∃ v, jsonMarshal h = .ok v := by
  simp [jsonMarshal, hfin]

/-- Reading back what `json.Marshal` printed gives the hotel with each `string` replaced
by the encoding of the text written for it. -/
theorem jsonUnmarshal_jsonMarshal_bytes (h : Hotel) (v : Value) (hv : jsonMarshal h = .ok v) :
    jsonUnmarshal v =
      .ok { h with
        ID := GoString.ofText (GoString.toValidUTF8 h.ID),
        Name := GoString.ofText (GoString.toValidUTF8 h.Name) } := by
  unfold jsonMarshal at hv
  split at hv
  · cases hv
    simp [jsonUnmarshal, setFields, setField, foldName_id, foldName_name, foldName_isActive,
      foldName_rating, Hotel.zero]
  · cases hv

theorem jsonUnmarshal_jsonMarshal_valid (h : Hotel) (v : Value) (hvalid : h.isValidUTF8 = true)
    (hv : jsonMarshal h = .ok v) : jsonUnmarshal v = .ok h := by
  simp only [Hotel.isValidUTF8, Bool.and_eq_true] at hvalid
  rw [jsonUnmarshal_jsonMarshal_bytes h v hv, GoString.ofText_toValidUTF8 _ hvalid.1,
    GoString.ofText_toValidUTF8 _ hvalid.2]

theorem CreateHotel_absent_bytes (s : Store Value) (id : String) (name : GoString)
    (isActive : Bool) (rating : Float32) (v : Value) (hs : s.get id = none)
    (hv : jsonMarshal ⟨GoString.ofText id, name, isActive, rating⟩ = .ok v) :
    CreateHotel (memStub Value) id name isActive rating s = (.ok (), s.put id v) := by
  unfold CreateHotel
  rw [HotelExists_mem]
  simp [hs, hv, memStub]

theorem ReadHotel_mem_bytes (s : Store Value) (id : String) :
    ReadHotel (memStub Value) id s =
      (match s.get id with
        | none => .error (errNotFound id)
        | some v =>
          match jsonUnmarshal v with
          | .error e => .error (.json e)
          | .ok h => .ok h, s) := by
  unfold ReadHotel
  simp only [memStub]
  cases s.get id with
  | none => rfl
  | some v => cases hv : jsonUnmarshal v <;> simp [hv]

theorem UpdateHotel_present_bytes (s : Store Value) (id : String) (name : GoString)
    (isActive : Bool) (rating : Float32) (v0 v : Value) (hs : s.get id = some v0)
    (hv : jsonMarshal ⟨GoString.ofText id, name, isActive, rating⟩ = .ok v) :
    UpdateHotel (memStub Value) id name isActive rating s = (.ok (), s.put id v) := by
  unfold UpdateHotel
  rw [HotelExists_mem]
  simp [hs, hv, memStub]

end Chaincode.Go

namespace Smartcontract.Go

theorem readPtr_marshalAgreementPtr_bytes (sc : Strconv) (p : Option Agreement)
    (hp : agreementPtrIsValidUTF8 p = true) :
    readPtr Agreement.zero setAgreementField (marshalAgreementPtr sc p) = .ok p := by
  cases p with
  | none => rfl
  | some a =>
    simp only [agreementPtrIsValidUTF8, Agreement.isValidUTF8, Bool.and_eq_true] at hp
    simp [marshalAgreementPtr, marshalAgreement, readPtr, setFields, setAgreementField,
      foldName_id, foldName_isApplied, foldName_totalFeedbacks,
      foldName_totalUnfulfilledCommitments, foldName_isAppliedPenalty,
      foldName_totalCompensations, foldName_totalNoCompensations, foldName_serviceLevelId,
      foldName_hotelId, Agreement.zero, uintLit, readString, readBool, readUint, Except.map,
      GoString.ofText_toValidUTF8 _ hp.1.1, GoString.ofText_toValidUTF8 _ hp.1.2,
      GoString.ofText_toValidUTF8 _ hp.2]

theorem readPtrs_marshalAgreementPtrs_bytes (sc : Strconv) (ptrs : List (Option Agreement))
    (hp : ptrs.all agreementPtrIsValidUTF8 = true) :
    readPtrs Agreement.zero setAgreementField (ptrs.map (marshalAgreementPtr sc)) = .ok ptrs := by
  induction ptrs with
  | nil => rfl
  | cons p rest ih =>
    simp only [List.all_cons, Bool.and_eq_true] at hp
    simp [readPtrs, readPtr_marshalAgreementPtr_bytes sc p hp.1, ih hp.2]

theorem readSlice_marshalAgreements_bytes (sc : Strconv) (x : Option (List (Option Agreement)))
    (hx : (match x with
      | none => true
      | some ptrs => ptrs.all agreementPtrIsValidUTF8) = true) :
    readSlice Agreement.zero setAgreementField (marshalAgreements sc x) = .ok x := by
  cases x with
  | none => rfl
  | some ptrs => simp [marshalAgreements, readSlice, readPtrs_marshalAgreementPtrs_bytes sc ptrs hx]

theorem readPtr_marshalServiceLevelPtr_bytes (sc : Strconv) (p : Option ServiceLevel)
    (doc : JSON Number) (hp : ptrIsValidUTF8 p = true)
    (hdoc : marshalServiceLevelPtr sc p = .ok doc) :
    readPtr ServiceLevel.zero setServiceLevelField doc = .ok p := by
  cases p with
  | none =>
    cases hdoc
    rfl
  | some l =>
    simp only [ptrIsValidUTF8, ServiceLevel.isValidUTF8, Bool.and_eq_true] at hp
    simp only [marshalServiceLevelPtr, marshalServiceLevel] at hdoc
    split at hdoc
    · cases hdoc
      simp [readPtr, setFields, setServiceLevelField, foldName_id, foldName_name,
        foldName_isUsed, foldName_satisfactionRate, foldName_ruleAbidingRate, foldName_hotelId,
        foldName_agreements, ServiceLevel.zero, floatLit, readString, readBool, readFloat32,
        readSlice_marshalAgreements_bytes sc l.Agreements hp.2, Except.map,
        GoString.ofText_toValidUTF8 _ hp.1.1.1, GoString.ofText_toValidUTF8 _ hp.1.1.2,
        GoString.ofText_toValidUTF8 _ hp.1.2]
    · cases hdoc

theorem readPtrs_marshalServiceLevelPtrs_bytes (sc : Strconv)
    (ptrs : List (Option ServiceLevel)) (docs : List (JSON Number))
    (hp : ptrs.all ptrIsValidUTF8 = true)
    (hdocs : marshalServiceLevelPtrs sc ptrs = .ok docs) :
    readPtrs ServiceLevel.zero setServiceLevelField docs = .ok ptrs := by
  induction ptrs generalizing docs with
  | nil =>
    cases hdocs
    rfl
  | cons p rest ih =>
    simp only [List.all_cons, Bool.and_eq_true] at hp
    simp only [marshalServiceLevelPtrs] at hdocs
    cases hq : marshalServiceLevelPtr sc p with
    | error e => simp [hq] at hdocs
    | ok doc =>
      cases hrest : marshalServiceLevelPtrs sc rest with
      | error e => simp [hq, hrest] at hdocs
      | ok docs1 =>
        simp [hq, hrest] at hdocs
        subst hdocs
        simp [readPtrs, readPtr_marshalServiceLevelPtr_bytes sc p doc hp.1 hq,
          ih docs1 hp.2 hrest]

theorem readSlice_marshalServiceLevels_bytes (sc : Strconv)
    (x : Option (List (Option ServiceLevel))) (doc : JSON Number)
    (hx : (match x with
      | none => true
      | some ptrs => ptrs.all ptrIsValidUTF8) = true)
    (hdoc : marshalServiceLevels sc x = .ok doc) :
    readSlice ServiceLevel.zero setServiceLevelField doc = .ok x := by
  cases x with
  | none =>
    cases hdoc
    rfl
  | some ptrs =>
    simp only [marshalServiceLevels] at hdoc
    cases hptrs : marshalServiceLevelPtrs sc ptrs with
    | error e => simp [hptrs] at hdoc
    | ok docs =>
      simp [hptrs] at hdoc
      subst hdoc
      simp [readSlice, readPtrs_marshalServiceLevelPtrs_bytes sc ptrs docs hx hptrs]

/-- Reading back what `json.Marshal` printed for a hotel whose strings are valid UTF-8
gives that hotel. -/
theorem jsonUnmarshal_jsonMarshal_any_bytes (sc : Strconv) (h : Hotel) (v : Value)
    (hvalid : h.isValidUTF8 = true) (hv : jsonMarshal sc h = .ok v) :
    jsonUnmarshal v = .ok h := by
  simp only [Hotel.isValidUTF8, Bool.and_eq_true] at hvalid
  unfold jsonMarshal at hv
  split at hv
  · cases hlv : marshalServiceLevels sc h.ServiceLevels with
    | error e => simp [hlv] at hv
    | ok levels =>
      simp [hlv] at hv
      subst hv
      simp [jsonUnmarshal, setFields, setField, foldName_id, foldName_name, foldName_isActive,
        foldName_rating, foldName_serviceLevels, Hotel.zero, floatLit, readString, readBool,
        readFloat32,
        readSlice_marshalServiceLevels_bytes sc h.ServiceLevels levels hvalid.2 hlv, Except.map,
        GoString.ofText_toValidUTF8 _ hvalid.1.1, GoString.ofText_toValidUTF8 _ hvalid.1.2]
  · cases hv

theorem marshalServiceLevelPtrs_ok_bytes (sc : Strconv) (ptrs : List (Option ServiceLevel))
    (hfin : ptrs.all ptrIsFinite = true) : ∃ docs, marshalServiceLevelPtrs sc ptrs = .ok docs := by
  induction ptrs with
  | nil => exact ⟨[], rfl⟩
  | cons p rest ih =>
    simp only [List.all_cons, Bool.and_eq_true] at hfin
    obtain ⟨docs, hdocs⟩ := ih hfin.2
    cases p with
    | none => simp [marshalServiceLevelPtrs, marshalServiceLevelPtr, hdocs]
    | some l =>
      have hl : (l.SatisfactionRate.isFinite && l.RuleAbidingRate.isFinite) = true := hfin.1
      simp [marshalServiceLevelPtrs, marshalServiceLevelPtr, marshalServiceLevel, hl, hdocs]

theorem jsonMarshal_ok_any_bytes (sc : Strconv) (h : Hotel) (hfin : h.isFinite = true) :
    ∃ v, jsonMarshal sc h = .ok v := by
  obtain ⟨id, name, isActive, rating, levels⟩ := h
  simp only [Hotel.isFinite, Bool.and_eq_true] at hfin
  cases levels with
  | none => simp [jsonMarshal, hfin.1, marshalServiceLevels]
  | some ptrs =>
    obtain ⟨docs, hdocs⟩ := marshalServiceLevelPtrs_ok_bytes sc ptrs hfin.2
    simp [jsonMarshal, hfin.1, marshalServiceLevels, hdocs]

theorem CreateHotel_absent_bytes_nested (sc : Strconv) (s : Store Value) (id : String)
    (name : GoString) (isActive : Bool) (rating : Float32) (v : Value) (hs : s.get id = none)
    (hv : jsonMarshal sc ⟨GoString.ofText id, name, isActive, rating, none⟩ = .ok v) :
    CreateHotel sc (memStub Value) id name isActive rating s = (.ok (), s.put id v) := by
  unfold CreateHotel
  rw [HotelExists_mem_nested]
  simp [hs, hv, memStub]

theorem ReadHotel_mem_bytes_nested (s : Store Value) (id : String) :
    ReadHotel (memStub Value) id s =
      (match s.get id with
        | none => .error (errNotFound id)
        | some v =>
          match jsonUnmarshal v with
          | .error e => .error (.json e)
          | .ok h => .ok h, s) := by
  unfold ReadHotel
  simp only [memStub]
  cases s.get id with
  | none => rfl
  | some v => cases hv : jsonUnmarshal v <;> simp [hv]

theorem UpdateHotel_present_bytes_nested (sc : Strconv) (s : Store Value) (id : String)
    (name : GoString) (isActive : Bool) (rating : Float32) (v0 v : Value)
    (hs : s.get id = some v0)
    (hv : jsonMarshal sc ⟨GoString.ofText id, name, isActive, rating, none⟩ = .ok v) :
    UpdateHotel sc (memStub Value) id name isActive rating s = (.ok (), s.put id v) := by
  unfold UpdateHotel
  rw [HotelExists_mem_nested]
  simp [hs, hv, memStub]

end Smartcontract.Go

/-! ## The contracts on texts are the contracts on Go strings that are valid UTF-8 -/

namespace Chaincode

theorem jsonMarshal_toGo (h : Hotel) : Go.jsonMarshal h.toGo = jsonMarshal h := by
  simp [Go.jsonMarshal, jsonMarshal, Hotel.toGo, GoString.toValidUTF8_ofText]

theorem setField_toGo (h : Hotel) (m : String × JSON Number) :
    Go.setField h.toGo m = (setField h m).map Hotel.toGo := by
  obtain ⟨name, doc⟩ := m
  unfold Go.setField setField
  simp only
  split_ifs <;> cases doc <;> first | rfl | (rename_i n; obtain ⟨_ | f⟩ := n <;> rfl)

theorem setFields_toGo (ms : List (String × JSON Number)) (h : Hotel) :
    Go.setFields h.toGo ms = (setFields h ms).map Hotel.toGo := by
  induction ms generalizing h with
  | nil => rfl
  | cons m rest ih =>
    simp only [Go.setFields, setFields, setField_toGo]
    cases setField h m with
    | error e => rfl
    | ok h1 => exact ih h1

/-- The hotel `json.Unmarshal` gives on Go strings is the one it gives on texts. -/
theorem jsonUnmarshal_toGo (v : Value) :
    Go.jsonUnmarshal v = (jsonUnmarshal v).map Hotel.toGo := by
  cases v with
  | malformed raw => rfl
  | text doc =>
    cases doc with
    | object members => exact setFields_toGo members Hotel.zero
    | _ => rfl

variable {σ : Type}

/-- On a name that is the encoding of a text, `CreateHotel` is the method on texts. -/
theorem CreateHotel_ofText (stub : ChaincodeStub σ Value) (id name : String) (isActive : Bool)
    (rating : Float32) (w : σ) :
    Go.CreateHotel stub id (GoString.ofText name) isActive rating w =
      CreateHotel stub id name isActive rating w := by
  have h := jsonMarshal_toGo ⟨id, name, isActive, rating⟩
  simp only [Hotel.toGo] at h
  simp only [Go.CreateHotel, CreateHotel, h]

/-- On a name that is the encoding of a text, `UpdateHotel` is the method on texts. -/
theorem UpdateHotel_ofText (stub : ChaincodeStub σ Value) (id name : String) (isActive : Bool)
    (rating : Float32) (w : σ) :
    Go.UpdateHotel stub id (GoString.ofText name) isActive rating w =
      UpdateHotel stub id name isActive rating w := by
  have h := jsonMarshal_toGo ⟨id, name, isActive, rating⟩
  simp only [Hotel.toGo] at h
  simp only [Go.UpdateHotel, UpdateHotel, h]

/-- The hotel `ReadHotel` returns on Go strings is the Go value of the one it returns on
texts, with the same ledger state. -/
theorem ReadHotel_toGo (stub : ChaincodeStub σ Value) (id : String) (w : σ) :
    Go.ReadHotel stub id w =
      ((ReadHotel stub id w).1.map Hotel.toGo, (ReadHotel stub id w).2) := by
  unfold Go.ReadHotel ReadHotel
  rcases stub.GetState id w with ⟨_ | _ | v, w1⟩
  · rfl
  · rfl
  · simp only [jsonUnmarshal_toGo]
    cases jsonUnmarshal v <;> rfl

end Chaincode

namespace Smartcontract

theorem setFields_map {α β : Type} (f : α → β)
    (sfT : α → String × JSON Number → Except JsonError α)
    (sfG : β → String × JSON Number → Except JsonError β)
    (hsf : ∀ x m, sfG (f x) m = (sfT x m).map f) (ms : List (String × JSON Number)) (x : α) :
    setFields sfG (f x) ms = (setFields sfT x ms).map f := by
  induction ms generalizing x with
  | nil => rfl
  | cons m rest ih =>
    simp only [setFields, hsf]
    cases sfT x m with
    | error e => rfl
    | ok x1 => exact ih x1

theorem readPtr_map {α β : Type} (f : α → β) (zero : α)
    (sfT : α → String × JSON Number → Except JsonError α)
    (sfG : β → String × JSON Number → Except JsonError β)
    (hsf : ∀ x m, sfG (f x) m = (sfT x m).map f) (doc : JSON Number) :
    readPtr (f zero) sfG doc = (readPtr zero sfT doc).map (Option.map f) := by
  cases doc with
  | object members =>
    simp only [readPtr, setFields_map f sfT sfG hsf]
    cases setFields sfT zero members <;> rfl
  | _ => rfl

theorem readPtrs_map {α β : Type} (f : α → β) (zero : α)
    (sfT : α → String × JSON Number → Except JsonError α)
    (sfG : β → String × JSON Number → Except JsonError β)
    (hsf : ∀ x m, sfG (f x) m = (sfT x m).map f) (docs : List (JSON Number)) :
    readPtrs (f zero) sfG docs =
      (readPtrs zero sfT docs).map (List.map (Option.map f)) := by
  induction docs with
  | nil => rfl
  | cons e rest ih =>
    simp only [readPtrs, readPtr_map f zero sfT sfG hsf, ih]
    cases readPtr zero sfT e with
    | error e => rfl
    | ok p => cases readPtrs zero sfT rest <;> rfl

theorem readSlice_map {α β : Type} (f : α → β) (zero : α)
    (sfT : α → String × JSON Number → Except JsonError α)
    (sfG : β → String × JSON Number → Except JsonError β)
    (hsf : ∀ x m, sfG (f x) m = (sfT x m).map f) (doc : JSON Number) :
    readSlice (f zero) sfG doc =
      (readSlice zero sfT doc).map (Option.map (List.map (Option.map f))) := by
  cases doc with
  | array elems =>
    simp only [readSlice, readPtrs_map f zero sfT sfG hsf]
    cases readPtrs zero sfT elems <;> rfl
  | _ => rfl

theorem readString_ofText (old : String) (doc : JSON Number) :
    Go.readString (GoString.ofText old) doc = (readString old doc).map GoString.ofText := by
  cases doc <;> rfl

theorem setAgreementField_toGo (a : Agreement) (m : String × JSON Number) :
    Go.setAgreementField a.toGo m = (setAgreementField a m).map Agreement.toGo := by
  obtain ⟨name, doc⟩ := m
  unfold Go.setAgreementField setAgreementField
  simp only
  by_cases h1 : foldName name = "id"
  · simp only [h1, if_true]
    show (Go.readString (GoString.ofText a.ID) doc).map _ = _
    rw [readString_ofText]
    cases readString a.ID doc <;> rfl
  simp only [h1, if_false]
  by_cases h2 : foldName name = "isapplied"
  · simp only [h2, if_true]
    show (readBool a.IsApplied doc).map _ = _
    cases readBool a.IsApplied doc <;> rfl
  simp only [h2, if_false]
  by_cases h3 : foldName name = "totalfeedbacks"
  · simp only [h3, if_true]
    show (readUint a.TotalFeedbacks doc).map _ = _
    cases readUint a.TotalFeedbacks doc <;> rfl
  simp only [h3, if_false]
  by_cases h4 : foldName name = "totalunfulfilledcommitments"
  · simp only [h4, if_true]
    show (readUint a.TotalUnfulfilledCommitments doc).map _ = _
    cases readUint a.TotalUnfulfilledCommitments doc <;> rfl
  simp only [h4, if_false]
  by_cases h5 : foldName name = "isappliedpenalty"
  · simp only [h5, if_true]
    show (readBool a.IsAppliedPenalty doc).map _ = _
    cases readBool a.IsAppliedPenalty doc <;> rfl
  simp only [h5, if_false]
  by_cases h6 : foldName name = "totalcompensations"
  · simp only [h6, if_true]
    show (readUint a.TotalCompensations doc).map _ = _
    cases readUint a.TotalCompensations doc <;> rfl
  simp only [h6, if_false]
  by_cases h7 : foldName name = "totalnocompensations"
  · simp only [h7, if_true]
    show (readUint a.TotalNoCompensations doc).map _ = _
    cases readUint a.TotalNoCompensations doc <;> rfl
  simp only [h7, if_false]
  by_cases h8 : foldName name = "servicelevelid"
  · simp only [h8, if_true]
    show (Go.readString (GoString.ofText a.ServiceLevelID) doc).map _ = _
    rw [readString_ofText]
    cases readString a.ServiceLevelID doc <;> rfl
  simp only [h8, if_false]
  by_cases h9 : foldName name = "hotelid"
  · simp only [h9, if_true]
    show (Go.readString (GoString.ofText a.HotelID) doc).map _ = _
    rw [readString_ofText]
    cases readString a.HotelID doc <;> rfl
  simp only [h9, if_false]
  rfl

theorem setServiceLevelField_toGo (l : ServiceLevel) (m : String × JSON Number) :
    Go.setServiceLevelField l.toGo m = (setServiceLevelField l m).map ServiceLevel.toGo := by
  obtain ⟨name, doc⟩ := m
  unfold Go.setServiceLevelField setServiceLevelField
  simp only
  by_cases h1 : foldName name = "id"
  · simp only [h1, if_true]
    show (Go.readString (GoString.ofText l.ID) doc).map _ = _
    rw [readString_ofText]
    cases readString l.ID doc <;> rfl
  simp only [h1, if_false]
  by_cases h2 : foldName name = "name"
  · simp only [h2, if_true]
    show (Go.readString (GoString.ofText l.Name) doc).map _ = _
    rw [readString_ofText]
    cases readString l.Name doc <;> rfl
  simp only [h2, if_false]
  by_cases h3 : foldName name = "isused"
  · simp only [h3, if_true]
    show (readBool l.IsUsed doc).map _ = _
    cases readBool l.IsUsed doc <;> rfl
  simp only [h3, if_false]
  by_cases h4 : foldName name = "satisfactionrate"
  · simp only [h4, if_true]
    show (readFloat32 l.SatisfactionRate doc).map _ = _
    cases readFloat32 l.SatisfactionRate doc <;> rfl
  simp only [h4, if_false]
  by_cases h5 : foldName name = "ruleabidingrate"
  · simp only [h5, if_true]
    show (readFloat32 l.RuleAbidingRate doc).map _ = _
    cases readFloat32 l.RuleAbidingRate doc <;> rfl
  simp only [h5, if_false]
  by_cases h6 : foldName name = "hotelid"
  · simp only [h6, if_true]
    show (Go.readString (GoString.ofText l.HotelID) doc).map _ = _
    rw [readString_ofText]
    cases readString l.HotelID doc <;> rfl
  simp only [h6, if_false]
  by_cases h7 : foldName name = "agreements"
  · simp only [h7, if_true]
    have hz : Go.Agreement.zero = Agreement.toGo Agreement.zero := rfl
    rw [hz, readSlice_map Agreement.toGo Agreement.zero setAgreementField
      Go.setAgreementField setAgreementField_toGo]
    cases readSlice Agreement.zero setAgreementField doc <;> rfl
  simp only [h7, if_false]
  rfl

theorem setField_toGo_nested (h : Hotel) (m : String × JSON Number) :
    Go.setField h.toGo m = (setField h m).map Hotel.toGo := by
  obtain ⟨name, doc⟩ := m
  unfold Go.setField setField
  simp only
  by_cases c1 : foldName name = "id"
  · simp only [c1, if_true]
    show (Go.readString (GoString.ofText h.ID) doc).map _ = _
    rw [readString_ofText]
    cases readString h.ID doc <;> rfl
  simp only [c1, if_false]
  by_cases c2 : foldName name = "name"
  · simp only [c2, if_true]
    show (Go.readString (GoString.ofText h.Name) doc).map _ = _
    rw [readString_ofText]
    cases readString h.Name doc <;> rfl
  simp only [c2, if_false]
  by_cases c3 : foldName name = "isactive"
  · simp only [c3, if_true]
    show (readBool h.IsActive doc).map _ = _
    cases readBool h.IsActive doc <;> rfl
  simp only [c3, if_false]
  by_cases c4 : foldName name = "rating"
  · simp only [c4, if_true]
    show (readFloat32 h.Rating doc).map _ = _
    cases readFloat32 h.Rating doc <;> rfl
  simp only [c4, if_false]
  by_cases c5 : foldName name = "servicelevels"
  · simp only [c5, if_true]
    have hz : Go.ServiceLevel.zero = ServiceLevel.toGo ServiceLevel.zero := rfl
    rw [hz, readSlice_map ServiceLevel.toGo ServiceLevel.zero setServiceLevelField
      Go.setServiceLevelField setServiceLevelField_toGo]
    cases readSlice ServiceLevel.zero setServiceLevelField doc <;> rfl
  simp only [c5, if_false]
  rfl

/-- The hotel `json.Unmarshal` gives on Go strings is the one it gives on texts. -/
theorem jsonUnmarshal_toGo_nested (v : Value) :
    Go.jsonUnmarshal v = (jsonUnmarshal v).map Hotel.toGo := by
  cases v with
  | malformed raw => rfl
  | text doc =>
    cases doc with
    | object members =>
      have hz : Go.Hotel.zero = Hotel.toGo Hotel.zero := rfl
      simp only [Go.jsonUnmarshal, jsonUnmarshal, hz]
      exact setFields_map Hotel.toGo setField Go.setField setField_toGo_nested members Hotel.zero
    | _ => rfl

theorem marshalAgreementPtr_toGo (sc : Strconv) (p : Option Agreement) :
    Go.marshalAgreementPtr sc (p.map Agreement.toGo) = marshalAgreementPtr sc p := by
  cases p with
  | none => rfl
  | some a =>
    simp [Go.marshalAgreementPtr, Go.marshalAgreement, marshalAgreementPtr, marshalAgreement,
      Agreement.toGo, GoString.toValidUTF8_ofText]

theorem marshalAgreements_toGo (sc : Strconv) (x : Option (List (Option Agreement))) :
    Go.marshalAgreements sc (x.map (List.map (Option.map Agreement.toGo))) =
      marshalAgreements sc x := by
  cases x with
  | none => rfl
  | some ptrs =>
    simp only [Option.map_some', Go.marshalAgreements, marshalAgreements, List.map_map]
    congr 1
    apply List.map_congr_left
    intro p _
    exact marshalAgreementPtr_toGo sc p

theorem marshalServiceLevelPtr_toGo (sc : Strconv) (p : Option ServiceLevel) :
    Go.marshalServiceLevelPtr sc (p.map ServiceLevel.toGo) = marshalServiceLevelPtr sc p := by
  cases p with
  | none => rfl
  | some l =>
    have h := marshalAgreements_toGo sc l.Agreements
    simp [Go.marshalServiceLevelPtr, Go.marshalServiceLevel, marshalServiceLevelPtr,
      marshalServiceLevel, ServiceLevel.toGo, GoString.toValidUTF8_ofText, h]

theorem marshalServiceLevelPtrs_toGo (sc : Strconv) (ptrs : List (Option ServiceLevel)) :
    Go.marshalServiceLevelPtrs sc (ptrs.map (Option.map ServiceLevel.toGo)) =
      marshalServiceLevelPtrs sc ptrs := by
  induction ptrs with
  | nil => rfl
  | cons p rest ih =>
    simp only [List.map_cons, Go.marshalServiceLevelPtrs, marshalServiceLevelPtrs,
      marshalServiceLevelPtr_toGo, ih]

theorem marshalServiceLevels_toGo (sc : Strconv) (x : Option (List (Option ServiceLevel))) :
    Go.marshalServiceLevels sc (x.map (List.map (Option.map ServiceLevel.toGo))) =
      marshalServiceLevels sc x := by
  cases x with
  | none => rfl
  | some ptrs =>
    simp only [Option.map_some', Go.marshalServiceLevels, marshalServiceLevels,
      marshalServiceLevelPtrs_toGo]

/-- The bytes `json.Marshal` prints for the Go value of a hotel given by its texts are
those it prints on texts. -/
theorem jsonMarshal_toGo_nested (sc : Strconv) (h : Hotel) :
    Go.jsonMarshal sc h.toGo = jsonMarshal sc h := by
  have hl := marshalServiceLevels_toGo sc h.ServiceLevels
  simp only [Go.jsonMarshal, jsonMarshal, Hotel.toGo, GoString.toValidUTF8_ofText, hl]

variable {σ : Type}

/-- On a name that is the encoding of a text, `CreateHotel` is the method on texts. -/
theorem CreateHotel_ofText_nested (sc : Strconv) (stub : ChaincodeStub σ Value)
    (id name : String) (isActive : Bool) (rating : Float32) (w : σ) :
    Go.CreateHotel sc stub id (GoString.ofText name) isActive rating w =
      CreateHotel sc stub id name isActive rating w := by
  have h := jsonMarshal_toGo_nested sc ⟨id, name, isActive, rating, none⟩
  simp only [Hotel.toGo, Option.map_none'] at h
  simp only [Go.CreateHotel, CreateHotel, h]

/-- On a name that is the encoding of a text, `UpdateHotel` is the method on texts. -/
theorem UpdateHotel_ofText_nested (sc : Strconv) (stub : ChaincodeStub σ Value)
    (id name : String) (isActive : Bool) (rating : Float32) (w : σ) :
    Go.UpdateHotel sc stub id (GoString.ofText name) isActive rating w =
      UpdateHotel sc stub id name isActive rating w := by
  have h := jsonMarshal_toGo_nested sc ⟨id, name, isActive, rating, none⟩
  simp only [Hotel.toGo, Option.map_none'] at h
  simp only [Go.UpdateHotel, UpdateHotel, h]

/-- The hotel `ReadHotel` returns on Go strings is the Go value of the one it returns on
texts, with the same ledger state. -/
theorem ReadHotel_toGo_nested (stub : ChaincodeStub σ Value) (id : String) (w : σ) :
    Go.ReadHotel stub id w =
      ((ReadHotel stub id w).1.map Hotel.toGo, (ReadHotel stub id w).2) := by
  unfold Go.ReadHotel ReadHotel
  rcases stub.GetState id w with ⟨_ | _ | v, w1⟩
  · rfl
  · rfl
  · simp only [jsonUnmarshal_toGo_nested]
    cases jsonUnmarshal v <;> rfl

end Smartcontract

/-! ## Creating, updating and the codec on Go strings -/

/-- C1, as amended: in both packages, for every world state in which `id` is absent, for
every id and every name that are valid UTF-8, every isActive and every rating that is a
finite float (zero, negative and large values included; only NaN and the infinities are
left out), `CreateHotel` succeeds and a following `ReadHotel(id)` returns the hotel built
from exactly these fields, in the nested package with no service levels. The name ranges
over all Go strings, byte sequences, with `utf8.ValidString` as a hypothesis; the id is a
ledger key, a text, and the hotel holds its UTF-8 encoding. -/
theorem create_then_read (s : Store Chaincode.Value) (t : Store Smartcontract.Value)
    (sc : Smartcontract.Strconv) (id : String) (name : GoString) (isActive : Bool)
    (rating : Float32) (hs : s.get id = none) (ht : t.get id = none)
    (hname : GoString.isValidUTF8 name = true) (hfin : rating.isFinite = true) :
    ((Chaincode.Go.CreateHotel (memStub Chaincode.Value) id name isActive rating s).1 = .ok () ∧
      (Chaincode.Go.ReadHotel (memStub Chaincode.Value) id
        (Chaincode.Go.CreateHotel (memStub Chaincode.Value) id name isActive rating s).2).1 =
        .ok { ID := GoString.ofText id, Name := name, IsActive := isActive,
              Rating := rating }) ∧
    ((Smartcontract.Go.CreateHotel sc (memStub Smartcontract.Value) id name isActive rating
        t).1 = .ok () ∧
      (Smartcontract.Go.ReadHotel (memStub Smartcontract.Value) id
        (Smartcontract.Go.CreateHotel sc (memStub Smartcontract.Value) id name isActive rating
          t).2).1 =
        .ok { ID := GoString.ofText id, Name := name, IsActive := isActive, Rating := rating,
              ServiceLevels := none }) := by
  constructor
  · obtain ⟨v, hv⟩ :=
      Chaincode.Go.jsonMarshal_ok_bytes ⟨GoString.ofText id, name, isActive, rating⟩ hfin
    have hvalid : Chaincode.Go.Hotel.isValidUTF8
        ⟨GoString.ofText id, name, isActive, rating⟩ = true := by
      simp [Chaincode.Go.Hotel.isValidUTF8, GoString.isValidUTF8_ofText, hname]
    rw [Chaincode.Go.CreateHotel_absent_bytes s id name isActive rating v hs hv,
      Chaincode.Go.ReadHotel_mem_bytes]
    simp [Store.get_put_self, Chaincode.Go.jsonUnmarshal_jsonMarshal_valid _ v hvalid hv]
  · have hfin2 : Smartcontract.Go.Hotel.isFinite
        ⟨GoString.ofText id, name, isActive, rating, none⟩ = true := by
      simp [Smartcontract.Go.Hotel.isFinite, hfin]
    obtain ⟨v, hv⟩ := Smartcontract.Go.jsonMarshal_ok_any_bytes sc _ hfin2
    have hvalid : Smartcontract.Go.Hotel.isValidUTF8
        ⟨GoString.ofText id, name, isActive, rating, none⟩ = true := by
      simp [Smartcontract.Go.Hotel.isValidUTF8, GoString.isValidUTF8_ofText, hname]
    rw [Smartcontract.Go.CreateHotel_absent_bytes_nested sc t id name isActive rating v ht hv,
      Smartcontract.Go.ReadHotel_mem_bytes_nested]
    simp [Store.get_put_self,
      Smartcontract.Go.jsonUnmarshal_jsonMarshal_any_bytes sc _ v hvalid hv]

/-- Witness of C1: scenario 2 of the specification, `CreateHotel("5", "Legend Saigon", true,
8.1)` on the empty world state, followed by `ReadHotel("5")`. -/
theorem create_then_read_witness :
    (Store.get ([] : Store Chaincode.Value) "5" = none ∧
      Store.get ([] : Store Smartcontract.Value) "5" = none ∧
      GoString.isValidUTF8 (GoString.ofText "Legend Saigon") = true ∧
      Float32.lit_8_1.isFinite = true) ∧
    ((Chaincode.Go.CreateHotel (memStub Chaincode.Value) "5" (GoString.ofText "Legend Saigon")
        true Float32.lit_8_1 []).1 = .ok () ∧
      (Chaincode.Go.ReadHotel (memStub Chaincode.Value) "5"
        (Chaincode.Go.CreateHotel (memStub Chaincode.Value) "5"
          (GoString.ofText "Legend Saigon") true Float32.lit_8_1 []).2).1 =
        .ok { ID := GoString.ofText "5", Name := GoString.ofText "Legend Saigon",
              IsActive := true, Rating := Float32.lit_8_1 }) ∧
    ((Smartcontract.Go.CreateHotel Smartcontract.plainStrconv (memStub Smartcontract.Value) "5"
        (GoString.ofText "Legend Saigon") true Float32.lit_8_1 []).1 = .ok () ∧
      (Smartcontract.Go.ReadHotel (memStub Smartcontract.Value) "5"
        (Smartcontract.Go.CreateHotel Smartcontract.plainStrconv (memStub Smartcontract.Value)
          "5" (GoString.ofText "Legend Saigon") true Float32.lit_8_1 []).2).1 =
        .ok { ID := GoString.ofText "5", Name := GoString.ofText "Legend Saigon",
              IsActive := true, Rating := Float32.lit_8_1, ServiceLevels := none }) :=
  ⟨⟨rfl, rfl, by decide, by decide⟩,
    create_then_read [] [] Smartcontract.plainStrconv "5" (GoString.ofText "Legend Saigon") true
      Float32.lit_8_1 rfl rfl (by decide) (by decide)⟩

/-- Counterexample to C1 as stated, in two parts, on the empty world state, where `"5"`
is absent. With the rating NaN, `CreateHotel("5", "Legend Saigon", true, NaN)` does not
succeed in either package: `json.Marshal` rejects the rating, the error is returned,
nothing is written, and a following `ReadHotel("5")` fails with the not-found error. With
the name `"Rex\xff"`, whose last byte is not valid UTF-8, `CreateHotel` succeeds in both
packages, but `json.Marshal` has written U+FFFD for that byte, and `ReadHotel("5")`
returns a hotel whose name ends in the bytes `EF BF BD` instead. -/
theorem create_nan_or_invalid_name :
    (Store.get ([] : Store Chaincode.Value) "5" = none ∧
      Chaincode.Go.CreateHotel (memStub Chaincode.Value) "5" (GoString.ofText "Legend Saigon")
        true Float32.nan [] = (.error (.json .UnsupportedValueError), []) ∧
      (Chaincode.Go.ReadHotel (memStub Chaincode.Value) "5"
        (Chaincode.Go.CreateHotel (memStub Chaincode.Value) "5"
          (GoString.ofText "Legend Saigon") true Float32.nan []).2).1 =
        .error (errNotFound "5") ∧
      Store.get ([] : Store Smartcontract.Value) "5" = none ∧
      Smartcontract.Go.CreateHotel Smartcontract.plainStrconv (memStub Smartcontract.Value) "5"
        (GoString.ofText "Legend Saigon") true Float32.nan [] =
        (.error (.json .UnsupportedValueError), []) ∧
      (Smartcontract.Go.ReadHotel (memStub Smartcontract.Value) "5"
        (Smartcontract.Go.CreateHotel Smartcontract.plainStrconv (memStub Smartcontract.Value)
          "5" (GoString.ofText "Legend Saigon") true Float32.nan []).2).1 =
        .error (errNotFound "5")) ∧
    (GoString.isValidUTF8 [82, 101, 120, 255] = false ∧
      Float32.lit_8_1.isFinite = true ∧
      (Chaincode.Go.CreateHotel (memStub Chaincode.Value) "5" [82, 101, 120, 255] true
        Float32.lit_8_1 []).1 = .ok () ∧
      (Chaincode.Go.ReadHotel (memStub Chaincode.Value) "5"
        (Chaincode.Go.CreateHotel (memStub Chaincode.Value) "5" [82, 101, 120, 255] true
          Float32.lit_8_1 []).2).1 =
        .ok { ID := [53], Name := [82, 101, 120, 239, 191, 189], IsActive := true,
              Rating := Float32.lit_8_1 } ∧
      (Smartcontract.Go.CreateHotel Smartcontract.plainStrconv (memStub Smartcontract.Value)
        "5" [82, 101, 120, 255] true Float32.lit_8_1 []).1 = .ok () ∧
      (Smartcontract.Go.ReadHotel (memStub Smartcontract.Value) "5"
        (Smartcontract.Go.CreateHotel Smartcontract.plainStrconv (memStub Smartcontract.Value)
          "5" [82, 101, 120, 255] true Float32.lit_8_1 []).2).1 =
        .ok { ID := [53], Name := [82, 101, 120, 239, 191, 189], IsActive := true,
              Rating := Float32.lit_8_1, ServiceLevels := none } ∧
      ([82, 101, 120, 239, 191, 189] : GoString) ≠ [82, 101, 120, 255]) :=
  ⟨⟨rfl, rfl, rfl, rfl, rfl, rfl⟩, ⟨by decide, by decide, rfl, rfl, rfl, rfl, by decide⟩⟩

/-- C6, as amended: in both packages, for every world state in which `id` is present, for
every id and every name that are valid UTF-8, every isActive and every finite rating,
`UpdateHotel` succeeds and a following `ReadHotel(id)` returns the hotel built wholly from
the given fields, whatever was stored before; in the nested package its service levels
are nil, so those stored before the update are not retained. The name ranges over all Go
strings, byte sequences, with `utf8.ValidString` as a hypothesis; the id is a ledger key,
a text, and the hotel holds its UTF-8 encoding. -/
theorem update_replaces (s : Store Chaincode.Value) (t : Store Smartcontract.Value)
    (sc : Smartcontract.Strconv) (id : String) (name : GoString) (isActive : Bool)
    (rating : Float32) (hs : (s.get id).isSome = true) (ht : (t.get id).isSome = true)
    (hname : GoString.isValidUTF8 name = true) (hfin : rating.isFinite = true) :
    ((Chaincode.Go.UpdateHotel (memStub Chaincode.Value) id name isActive rating s).1 = .ok () ∧
      (Chaincode.Go.ReadHotel (memStub Chaincode.Value) id
        (Chaincode.Go.UpdateHotel (memStub Chaincode.Value) id name isActive rating s).2).1 =
        .ok { ID := GoString.ofText id, Name := name, IsActive := isActive,
              Rating := rating }) ∧
    ((Smartcontract.Go.UpdateHotel sc (memStub Smartcontract.Value) id name isActive rating
        t).1 = .ok () ∧
      (Smartcontract.Go.ReadHotel (memStub Smartcontract.Value) id
        (Smartcontract.Go.UpdateHotel sc (memStub Smartcontract.Value) id name isActive rating
          t).2).1 =
        .ok { ID := GoString.ofText id, Name := name, IsActive := isActive, Rating := rating,
              ServiceLevels := none }) := by
  constructor
  · obtain ⟨v0, hv0⟩ := Option.isSome_iff_exists.mp hs
    obtain ⟨v, hv⟩ :=
      Chaincode.Go.jsonMarshal_ok_bytes ⟨GoString.ofText id, name, isActive, rating⟩ hfin
    have hvalid : Chaincode.Go.Hotel.isValidUTF8
        ⟨GoString.ofText id, name, isActive, rating⟩ = true := by
      simp [Chaincode.Go.Hotel.isValidUTF8, GoString.isValidUTF8_ofText, hname]
    rw [Chaincode.Go.UpdateHotel_present_bytes s id name isActive rating v0 v hv0 hv,
      Chaincode.Go.ReadHotel_mem_bytes]
    simp [Store.get_put_self, Chaincode.Go.jsonUnmarshal_jsonMarshal_valid _ v hvalid hv]
  · obtain ⟨u0, hu0⟩ := Option.isSome_iff_exists.mp ht
    have hfin2 : Smartcontract.Go.Hotel.isFinite
        ⟨GoString.ofText id, name, isActive, rating, none⟩ = true := by
      simp [Smartcontract.Go.Hotel.isFinite, hfin]
    obtain ⟨v, hv⟩ := Smartcontract.Go.jsonMarshal_ok_any_bytes sc _ hfin2
    have hvalid : Smartcontract.Go.Hotel.isValidUTF8
        ⟨GoString.ofText id, name, isActive, rating, none⟩ = true := by
      simp [Smartcontract.Go.Hotel.isValidUTF8, GoString.isValidUTF8_ofText, hname]
    rw [Smartcontract.Go.UpdateHotel_present_bytes_nested sc t id name isActive rating u0 v
        hu0 hv,
      Smartcontract.Go.ReadHotel_mem_bytes_nested]
    simp [Store.get_put_self,
      Smartcontract.Go.jsonUnmarshal_jsonMarshal_any_bytes sc _ v hvalid hv]

/-- Witness of C6: hotel `"1"` is updated. In the flat package it was created before; in
the nested package it is the seed hotel of `InitLedger`, stored with a service level and
two agreements, and it reads back after the update with no service levels. -/
theorem update_replaces_witness :
    ((Store.get (Chaincode.Go.CreateHotel (memStub Chaincode.Value) "1"
        (GoString.ofText "Rex Hotel") true Float32.lit_8_4 []).2 "1").isSome = true ∧
      (Smartcontract.seeded.get "1").isSome = true ∧
      GoString.isValidUTF8 (GoString.ofText "Roma") = true ∧
      Float32.lit_neg_1_0.isFinite = true) ∧
    ((Chaincode.Go.UpdateHotel (memStub Chaincode.Value) "1" (GoString.ofText "Roma") false
        Float32.lit_neg_1_0
        (Chaincode.Go.CreateHotel (memStub Chaincode.Value) "1" (GoString.ofText "Rex Hotel")
          true Float32.lit_8_4 []).2).1 = .ok () ∧
      (Chaincode.Go.ReadHotel (memStub Chaincode.Value) "1"
        (Chaincode.Go.UpdateHotel (memStub Chaincode.Value) "1" (GoString.ofText "Roma") false
          Float32.lit_neg_1_0
          (Chaincode.Go.CreateHotel (memStub Chaincode.Value) "1" (GoString.ofText "Rex Hotel")
            true Float32.lit_8_4 []).2).2).1 =
        .ok { ID := GoString.ofText "1", Name := GoString.ofText "Roma", IsActive := false,
              Rating := Float32.lit_neg_1_0 }) ∧
    ((Smartcontract.Go.UpdateHotel Smartcontract.plainStrconv (memStub Smartcontract.Value) "1"
        (GoString.ofText "Roma") false Float32.lit_neg_1_0 Smartcontract.seeded).1 = .ok () ∧
      (Smartcontract.Go.ReadHotel (memStub Smartcontract.Value) "1"
        (Smartcontract.Go.UpdateHotel Smartcontract.plainStrconv (memStub Smartcontract.Value)
          "1" (GoString.ofText "Roma") false Float32.lit_neg_1_0 Smartcontract.seeded).2).1 =
        .ok { ID := GoString.ofText "1", Name := GoString.ofText "Roma", IsActive := false,
              Rating := Float32.lit_neg_1_0, ServiceLevels := none }) :=
  ⟨⟨rfl, rfl, by decide, by decide⟩,
    update_replaces
      (Chaincode.Go.CreateHotel (memStub Chaincode.Value) "1" (GoString.ofText "Rex Hotel") true
        Float32.lit_8_4 []).2
      Smartcontract.seeded Smartcontract.plainStrconv
      "1" (GoString.ofText "Roma") false Float32.lit_neg_1_0 rfl rfl (by decide) (by decide)⟩

/-- Counterexample to C6 as stated, in two parts, with `"5"` stored. With the rating NaN,
`UpdateHotel("5", "Legend Saigon", true, NaN)` does not succeed in either package:
`json.Marshal` rejects the rating, the error is returned and the world state is left as
it was. With the name `"Rex\xff"`, whose last byte is not valid UTF-8, `UpdateHotel`
succeeds in both packages, but `json.Marshal` has written U+FFFD for that byte, and
`ReadHotel("5")` returns a hotel whose name ends in the bytes `EF BF BD` instead: not the
hotel built from the given fields. -/
theorem update_nan_or_invalid_name :
    ((Store.get [("5", Chaincode.legendSaigon)] "5").isSome = true ∧
      Chaincode.Go.UpdateHotel (memStub Chaincode.Value) "5" (GoString.ofText "Legend Saigon")
        true Float32.nan [("5", Chaincode.legendSaigon)] =
        (.error (.json .UnsupportedValueError), [("5", Chaincode.legendSaigon)]) ∧
      (Store.get [("5", Smartcontract.legendSaigon)] "5").isSome = true ∧
      Smartcontract.Go.UpdateHotel Smartcontract.plainStrconv (memStub Smartcontract.Value) "5"
        (GoString.ofText "Legend Saigon") true Float32.nan [("5", Smartcontract.legendSaigon)] =
        (.error (.json .UnsupportedValueError), [("5", Smartcontract.legendSaigon)])) ∧
    (GoString.isValidUTF8 [82, 101, 120, 255] = false ∧
      Float32.lit_8_1.isFinite = true ∧
      (Chaincode.Go.UpdateHotel (memStub Chaincode.Value) "5" [82, 101, 120, 255] true
        Float32.lit_8_1 [("5", Chaincode.legendSaigon)]).1 = .ok () ∧
      (Chaincode.Go.ReadHotel (memStub Chaincode.Value) "5"
        (Chaincode.Go.UpdateHotel (memStub Chaincode.Value) "5" [82, 101, 120, 255] true
          Float32.lit_8_1 [("5", Chaincode.legendSaigon)]).2).1 =
        .ok { ID := [53], Name := [82, 101, 120, 239, 191, 189], IsActive := true,
              Rating := Float32.lit_8_1 } ∧
      (Smartcontract.Go.UpdateHotel Smartcontract.plainStrconv (memStub Smartcontract.Value)
        "5" [82, 101, 120, 255] true Float32.lit_8_1 [("5", Smartcontract.legendSaigon)]).1 =
        .ok () ∧
      (Smartcontract.Go.ReadHotel (memStub Smartcontract.Value) "5"
        (Smartcontract.Go.UpdateHotel Smartcontract.plainStrconv (memStub Smartcontract.Value)
          "5" [82, 101, 120, 255] true Float32.lit_8_1
          [("5", Smartcontract.legendSaigon)]).2).1 =
        .ok { ID := [53], Name := [82, 101, 120, 239, 191, 189], IsActive := true,
              Rating := Float32.lit_8_1, ServiceLevels := none } ∧
      ([82, 101, 120, 239, 191, 189] : GoString) ≠ [82, 101, 120, 255]) :=
  ⟨⟨rfl, rfl, rfl, rfl⟩, ⟨by decide, by decide, rfl, rfl, rfl, rfl, by decide⟩⟩

/-- C11, as amended: for every flat hotel with a finite rating, and for every nested
hotel, with any sequence of service levels each holding any sequence of agreements (nil
slices and nil pointers included), whose rating and rates are all finite, if every
`string` field of the value is valid UTF-8 then `json.Marshal` succeeds and
`json.Unmarshal` of its result succeeds and returns the same value. The values range over
the Go types with their strings as byte sequences. Zero, negative and large floats and
every `uint` counter are covered; only NaN, the infinities and the strings that are not
valid UTF-8 are left out. -/
theorem codec_round_trip (x : Chaincode.Go.Hotel) (sc : Smartcontract.Strconv)
    (y : Smartcontract.Go.Hotel) (hx : x.Rating.isFinite = true) (hxs : x.isValidUTF8 = true)
    (hy : y.isFinite = true) (hys : y.isValidUTF8 = true) :
    (∃ v, Chaincode.Go.jsonMarshal x = .ok v ∧ Chaincode.Go.jsonUnmarshal v = .ok x) ∧
    (∃ v, Smartcontract.Go.jsonMarshal sc y = .ok v ∧
      Smartcontract.Go.jsonUnmarshal v = .ok y) := by
  constructor
  · obtain ⟨v, hv⟩ := Chaincode.Go.jsonMarshal_ok_bytes x hx
    exact ⟨v, hv, Chaincode.Go.jsonUnmarshal_jsonMarshal_valid x v hxs hv⟩
  · obtain ⟨v, hv⟩ := Smartcontract.Go.jsonMarshal_ok_any_bytes sc y hy
    exact ⟨v, hv, Smartcontract.Go.jsonUnmarshal_jsonMarshal_any_bytes sc y v hys hv⟩

/-- Witness of C11: a flat hotel with a negative rating, and the nested seed hotel with
its service level and two agreements. -/
theorem codec_round_trip_witness :
    (Float32.lit_neg_1_0.isFinite = true ∧
      Chaincode.Go.Hotel.isValidUTF8
        { ID := GoString.ofText "5", Name := GoString.ofText "Legend Saigon", IsActive := true,
          Rating := Float32.lit_neg_1_0 } = true ∧
      Smartcontract.Go.seedHotel.isFinite = true ∧
      Smartcontract.Go.seedHotel.isValidUTF8 = true) ∧
    (∃ v, Chaincode.Go.jsonMarshal
        { ID := GoString.ofText "5", Name := GoString.ofText "Legend Saigon", IsActive := true,
          Rating := Float32.lit_neg_1_0 } = .ok v ∧
      Chaincode.Go.jsonUnmarshal v =
        .ok { ID := GoString.ofText "5", Name := GoString.ofText "Legend Saigon",
              IsActive := true, Rating := Float32.lit_neg_1_0 }) ∧
    (∃ v, Smartcontract.Go.jsonMarshal Smartcontract.plainStrconv Smartcontract.Go.seedHotel =
        .ok v ∧
      Smartcontract.Go.jsonUnmarshal v = .ok Smartcontract.Go.seedHotel) :=
  ⟨⟨by decide, by decide, by decide, by decide⟩,
    codec_round_trip
      { ID := GoString.ofText "5", Name := GoString.ofText "Legend Saigon", IsActive := true,
        Rating := Float32.lit_neg_1_0 }
      Smartcontract.plainStrconv Smartcontract.Go.seedHotel (by decide) (by decide) (by decide)
      (by decide)⟩

/-- Counterexample to C11 as stated, in two parts. A flat hotel with the rating NaN, a
nested hotel with an infinite rating, and a nested hotel whose only service level has the
satisfaction rate NaN are values of their types that `json.Marshal` does not encode. A
flat hotel with the name `"Rex\xff"`, and a nested hotel whose only service level has
that name, are values that `json.Marshal` encodes, writing U+FFFD for the byte that is
not valid UTF-8, and that `json.Unmarshal` reads back as another value, the name ending in
the bytes `EF BF BD`. -/
theorem codec_nan_or_invalid_string :
    (Chaincode.Go.jsonMarshal
        { ID := [53], Name := GoString.ofText "Legend Saigon", IsActive := true,
          Rating := Float32.nan } = .error .UnsupportedValueError ∧
      Smartcontract.Go.jsonMarshal Smartcontract.plainStrconv
        { ID := [53], Name := GoString.ofText "Legend Saigon", IsActive := true,
          Rating := Float32.inf, ServiceLevels := none } = .error .UnsupportedValueError ∧
      Smartcontract.Go.jsonMarshal Smartcontract.plainStrconv
        { ID := [53], Name := GoString.ofText "Legend Saigon", IsActive := true,
          Rating := Float32.lit_8_1,
          ServiceLevels := some [some { Smartcontract.Go.ServiceLevel.zero with
            SatisfactionRate := Float32.nan }] } = .error .UnsupportedValueError) ∧
    (GoString.isValidUTF8 [82, 101, 120, 255] = false ∧
      (∃ v, Chaincode.Go.jsonMarshal
          { ID := [53], Name := [82, 101, 120, 255], IsActive := true,
            Rating := Float32.lit_8_1 } = .ok v ∧
        Chaincode.Go.jsonUnmarshal v =
          .ok { ID := [53], Name := [82, 101, 120, 239, 191, 189], IsActive := true,
                Rating := Float32.lit_8_1 }) ∧
      (∃ v, Smartcontract.Go.jsonMarshal Smartcontract.plainStrconv
          { ID := [53], Name := [82, 101, 120], IsActive := true, Rating := Float32.lit_8_1,
            ServiceLevels := some [some { Smartcontract.Go.ServiceLevel.zero with
              Name := [82, 101, 120, 255] }] } = .ok v ∧
        Smartcontract.Go.jsonUnmarshal v =
          .ok { ID := [53], Name := [82, 101, 120], IsActive := true,
                Rating := Float32.lit_8_1,
                ServiceLevels := some [some { Smartcontract.Go.ServiceLevel.zero with
                  Name := [82, 101, 120, 239, 191, 189] }] }) ∧
      ([82, 101, 120, 239, 191, 189] : GoString) ≠ [82, 101, 120, 255]) :=
  ⟨⟨rfl, rfl, rfl⟩, ⟨by decide, ⟨_, rfl, rfl⟩, ⟨_, rfl, rfl⟩, by decide⟩⟩

end Easybook
